import Mathlib

/-!
Verification of the provis UCG streaming pipeline (src/provis/ucg).

The builders are embedded shallowly: each Python module becomes a namespace,
each row dataclass a structure, generators become functions returning the list
of yielded items plus the list of anomalies sent to the sink.

Modelling conventions, used uniformly:
* `_stable_id` computes a blake2b digest over byte-separated string parts.
  The digest is modelled by the part list itself (`SId`); where Python embeds
  a digest string inside another digest's parts, the embedding flattens the
  inner part list with the same `\x1f` separator (`sidStr`).
* Builders read token/span text directly from the file on disk
  (`_safe_token_name`, `_read_span_text`, ...).  The embedding attaches to
  every event its decoded byte slice `text`, so those readers become pure
  functions of the event.
* Python dicts are association lists consulted through `mget`/`mset`;
  `attrs_json` payloads that never influence control flow or row identity are
  not modelled (noted per structure).
-/

/-- A stable content-addressed id: the list of parts fed to `_stable_id`. -/
abbrev SId := List String

/-- Flatten an id so it can appear as a single part of an enclosing id,
mirroring how Python embeds the digest string. -/
def sidStr (i : SId) : String := String.intercalate "\x1f" i

namespace Ucg

/-- Language tags (discovery.Language), restricted to those with adapters. -/
inductive Lang
  | py | js | ts | jsx | tsx
deriving DecidableEq, Repr

/-- parser_registry.CstEventKind -/
inductive EvKind
  | enter | exit | token
deriving DecidableEq, Repr

/-- parser_registry.CstEvent.  `text` is the decoded byte slice
`file[byteStart:byteEnd]` which the builders read from disk. -/
structure Ev where
  kind : EvKind
  type : String
  byteStart : Nat
  byteEnd : Nat
  lineStart : Nat
  lineEnd : Nat
  text : String := ""
deriving DecidableEq, Repr

/-- discovery.FileMeta (fields consulted by the builders). -/
structure FileMeta where
  path : String
  blobSha : String
  sizeBytes : Nat
  mtimeNs : Nat
  runId : String
  configHash : String
  isText : Bool
  lang : Lang
deriving DecidableEq, Repr

/-- parser_registry.DriverInfo -/
structure DriverInfo where
  language : Lang
  grammarName : String
  grammarSha : String
  version : String
deriving DecidableEq, Repr

/-- discovery.Severity -/
inductive Severity
  | info | warn | error
deriving DecidableEq, Repr

/-- discovery.AnomalyKind (constructors used by the embedded builders). -/
inductive AnomalyKind
  | parseFailed | memoryLimit | unknown
deriving DecidableEq, Repr

/-- discovery.Anomaly (`ts_ms` is a wall-clock timestamp and is not modelled). -/
structure Anomaly where
  path : String
  blobSha : Option String
  kind : AnomalyKind
  severity : Severity
  detail : String
  span : Option (Nat × Nat) := none
deriving DecidableEq, Repr

/-- parser_registry.ParseStream (events materialized to a list, as api.py does). -/
structure ParseStream where
  file : FileMeta
  driver : Option DriverInfo
  events : Option (List Ev)
  ok : Bool
  error : Option String := none
deriving Repr

/-- Python `d.get(k)` on a dict modelled as an association list. -/
def mget {κ α : Type} [DecidableEq κ] : List (κ × α) → κ → Option α
  | [], _ => none
  | p :: r, k => if p.1 = k then some p.2 else mget r k

/-- Python `d[k] = v`. -/
def mset {κ α : Type} [DecidableEq κ] (l : List (κ × α)) (k : κ) (v : α) :
    List (κ × α) :=
  (k, v) :: l

/-- Python `d.setdefault(k, v)`. -/
def msetd {κ α : Type} [DecidableEq κ] (l : List (κ × α)) (k : κ) (v : α) :
    List (κ × α) :=
  if (mget l k).isSome then l else (k, v) :: l

/-- The provenance payload attached to every emitted row (dfg.DfgProvenance,
symbols.SymProvenance and provenance.ProvenanceV2 share these base fields;
the v2 `enricher_versions`/`confidence` sidecars are not modelled). -/
structure Prov where
  path : String
  blobSha : String
  lang : Lang
  grammarSha : String
  runId : String
  configHash : String
  byteStart : Nat
  byteEnd : Nat
  lineStart : Nat
  lineEnd : Nat
deriving DecidableEq, Repr

/-! String helpers mirroring the Python span parsing.  Core `String.trim`,
`splitOn`, `startsWith`, `endsWith` and `toLower` are opaque to the kernel,
so the embedding uses `List Char` implementations with the same meaning. -/

/-- Python `s.strip()` (whitespace from both ends). -/
def pyStrip (s : String) : String :=
  String.mk (((s.data.dropWhile Char.isWhitespace).reverse.dropWhile
    Char.isWhitespace).reverse)

/-- `String.startsWith` over the char lists. -/
def strStartsWith (s pat : String) : Bool := pat.data.isPrefixOf s.data

/-- `String.endsWith` over the char lists. -/
def strEndsWith (s pat : String) : Bool :=
  pat.data.reverse.isPrefixOf s.data.reverse

/-- `String.toLower` over the char lists. -/
def strToLower (s : String) : String := String.mk (s.data.map Char.toLower)

/-- Worker for `strSplitOn`: split at non-overlapping occurrences of `pat`.
The fuel argument (any bound of the list length) keeps the recursion
structural, so the kernel can evaluate it; with enough fuel the zero-fuel
fallback is unreachable, since each step consumes at least one element. -/
def splitOnListGo (pat : List Char) (hp : pat ≠ []) :
    Nat → List Char → List Char → List (List Char)
  | _, [], acc => [acc.reverse]
  | 0, l, acc => [acc.reverse ++ l]
  | fuel + 1, c :: rest, acc =>
    if pat.isPrefixOf (c :: rest) then
      acc.reverse :: splitOnListGo pat hp fuel ((c :: rest).drop pat.length) []
    else
      splitOnListGo pat hp fuel rest (c :: acc)

/-- `String.splitOn` over the char lists (same semantics for non-empty
separators; the empty separator returns the string whole). -/
def strSplitOn (s pat : String) : List String :=
  if hp : pat.data = [] then [s]
  else (splitOnListGo pat.data hp s.data.length s.data []).map String.mk



/-- Python `pat in s` for nonempty `pat`. -/
def pyContains (s pat : String) : Bool := (strSplitOn s pat).length > 1

/-- Python `s.split(pat, 1)`: `none` when `pat` does not occur. -/
def splitOnce (s pat : String) : Option (String × String) :=
  match strSplitOn s pat with
  | [] => none
  | [_] => none
  | x :: rest => some (x, String.intercalate pat rest)

/-- Python `s.split()` (whitespace runs, empties removed). -/
def pySplitWs (s : String) : List String :=
  (s.split Char.isWhitespace).filter (fun t => ¬ t.isEmpty)

/-- Python `s.strip(chars)`. -/
def stripChars (s : String) (cs : List Char) : String :=
  let l := (s.data.dropWhile (fun c => cs.contains c)).reverse
  String.mk ((l.dropWhile (fun c => cs.contains c)).reverse)

def curlyOpen : Char := Char.ofNat 123
def curlyClose : Char := Char.ofNat 125
def curlyOpenS : String := String.mk [curlyOpen]
def curlyCloseS : String := String.mk [curlyClose]

/-- Provenance built from an event, as the builders do. -/
def mkProv (fm : FileMeta) (info : Option DriverInfo) (ev : Ev) : Prov :=
  { path := fm.path, blobSha := fm.blobSha, lang := fm.lang
    grammarSha := (info.map (·.grammarSha)).getD ""
    runId := fm.runId, configHash := fm.configHash
    byteStart := ev.byteStart, byteEnd := ev.byteEnd
    lineStart := ev.lineStart, lineEnd := ev.lineEnd }

end Ucg

namespace Ucg.Dfg

/-- dfg.DfgConfig -/
structure Config where
  idSalt : String := "dfg-v1"
  maxDefsPerFunc : Nat := 100000
  maxUsesPerFunc : Nat := 200000
  captureNumericLiterals : Bool := true
  captureStringLiterals : Bool := true
  maxLiteralSpan : Nat := 8192
deriving DecidableEq, Repr

/-! dfg._Adapter: per-language node-type sets. -/

def functionNodes : Lang → List String
  | .py => ["FunctionDef", "AsyncFunctionDef", "Lambda"]
  | _ => ["function_declaration", "function_expression", "method_definition",
          "arrow_function"]

def paramListNodes : Lang → List String
  | .py => ["Parameters"]
  | _ => ["formal_parameters"]

def assignNodes : Lang → List String
  | .py => ["Assign", "AnnAssign", "AugAssign"]
  | _ => ["variable_declarator", "assignment_expression"]

def identifierTokens : Lang → List String
  | .py => ["Name", "Attribute"]
  | _ => ["identifier", "property_identifier", "shorthand_property_identifier",
          "private_property_identifier"]

def stringTokens : Lang → List String
  | .py => ["SimpleString"]
  | _ => ["string", "string_fragment", "string_literal", "template_string"]

def numberTokens : Lang → List String
  | .py => ["Integer", "Float"]
  | _ => ["number"]

def paramTokenTypes : Lang → List String
  | .py => ["Name"]
  | _ => ["identifier"]

def isFunction (l : Lang) (t : String) : Bool := (functionNodes l).contains t
def isParamList (l : Lang) (t : String) : Bool := (paramListNodes l).contains t
def isAssign (l : Lang) (t : String) : Bool := (assignNodes l).contains t
def isIdentifierToken (l : Lang) (t : String) : Bool := (identifierTokens l).contains t
def isStringToken (l : Lang) (t : String) : Bool := (stringTokens l).contains t
def isNumberToken (l : Lang) (t : String) : Bool := (numberTokens l).contains t
def isParamToken (l : Lang) (t : String) : Bool := (paramTokenTypes l).contains t

/-- dfg.DfgBuilder._safe_token_name: conservative identifier extraction from
the token's byte slice (the disk read is modelled by `ev.text`). -/
def safeTokenName (ev : Ev) : Option String :=
  if ev.byteEnd ≤ ev.byteStart then none
  else if ev.byteEnd - ev.byteStart > 1024 then none
  else
    let text := pyStrip ev.text
    if text.isEmpty ∨ text.length > 256 then none
    else
      match text.data with
      | [] => none
      | c0 :: rest =>
        if ¬ (c0.isAlpha ∨ c0 = '_') then none
        else if ¬ rest.all (fun ch => ch.isAlphanum ∨ ch = '.' ∨ ch = '_' ∨ ch = '$') then
          none
        else
          let nonUnderscore := text.data.filter (fun ch => ch ≠ '_')
          if nonUnderscore ≠ [] ∧ nonUnderscore.all Char.isDigit then none
          else some text

/-- dfg.DfgNodeKind -/
inductive NodeKind
  | param | varDef | varUse | literal
deriving DecidableEq, Repr

def NodeKind.val : NodeKind → String
  | .param => "param"
  | .varDef => "var_def"
  | .varUse => "var_use"
  | .literal => "literal"

/-- dfg.DfgEdgeKind -/
inductive EdgeKind
  | defUse | constPart | argToParam
deriving DecidableEq, Repr

def EdgeKind.val : EdgeKind → String
  | .defUse => "def_use"
  | .constPart => "const_part"
  | .argToParam => "arg_to_param"

/-- dfg.DfgNodeRow (`attrs_json` carries no control-relevant data; not modelled). -/
structure NodeRow where
  id : SId
  funcId : SId
  kind : NodeKind
  name : Option String
  version : Option Nat
  path : String
  lang : Lang
  prov : Prov
deriving DecidableEq, Repr

/-- dfg.DfgEdgeRow -/
structure EdgeRow where
  id : SId
  funcId : SId
  kind : EdgeKind
  srcId : SId
  dstId : SId
  path : String
  lang : Lang
  prov : Prov
deriving DecidableEq, Repr

/-- dfg._FuncState -/
structure FuncState where
  funcId : SId
  defsCount : Nat := 0
  usesCount : Nat := 0
  versions : List (String × Nat) := []
  inParams : Bool := false
  assignStack : List Nat := []
  pendingLiterals : List SId := []
deriving DecidableEq, Repr

/-- A yielded item; the builder tags tuples with "dfg_node" / "dfg_edge". -/
inductive Item
  | node (r : NodeRow)
  | edge (r : EdgeRow)
deriving DecidableEq, Repr

abbrev Out := String × Item

/-- `_stable_id(salt, "func", path, blob_sha, byte_start)` for a function ENTER. -/
def funcIdOf (cfg : Config) (fm : FileMeta) (byteStart : Nat) : SId :=
  [cfg.idSalt, "func", fm.path, fm.blobSha, toString byteStart]

/-- DfgBuilder.build.node_id -/
def nodeId (cfg : Config) (fm : FileMeta) (funcId : SId) (kind : NodeKind)
    (name : Option String) (version : Option Nat) (ev : Ev) : SId :=
  [cfg.idSalt, "node", fm.path, fm.blobSha, sidStr funcId, kind.val,
   name.getD "", (version.map toString).getD "", toString ev.byteStart]

/-- DfgBuilder.build.edge_id -/
def edgeId (cfg : Config) (fm : FileMeta) (funcId : SId) (kind : EdgeKind)
    (src dst : SId) (ev : Ev) : SId :=
  [cfg.idSalt, "edge", fm.path, fm.blobSha, sidStr funcId, kind.val,
   sidStr src, sidStr dst, toString ev.byteStart]

/-- DfgBuilder.build.emit_var_use.logical_def_id -/
def logicalDefId (cfg : Config) (fm : FileMeta) (funcId : SId) (nm : String)
    (ver : Nat) : SId :=
  [cfg.idSalt, "node", fm.path, fm.blobSha, sidStr funcId, "var_def", nm,
   toString ver]

/-- DfgBuilder.build.emit_var_use.logical_use_id -/
def logicalUseId (cfg : Config) (fm : FileMeta) (funcId : SId) (nm : String)
    (ver : Nat) (b : Nat) : SId :=
  [cfg.idSalt, "node", fm.path, fm.blobSha, sidStr funcId, "var_use", nm,
   toString ver, toString b]

/-- DfgBuilder.build.emit_param: params start at version 0. -/
def emitParam (cfg : Config) (fm : FileMeta) (info : Option DriverInfo)
    (name : String) (f : FuncState) (ev : Ev) : FuncState × List Out :=
  let f := { f with versions := msetd f.versions name 0 }
  let nid := nodeId cfg fm f.funcId .param (some name) (some 0) ev
  (f, [("dfg_node", .node
        { id := nid, funcId := f.funcId, kind := .param, name := some name,
          version := some 0, path := fm.path, lang := fm.lang,
          prov := mkProv fm info ev })])

/-- DfgBuilder.build.emit_var_def: version = versions.get(name, -1) + 1. -/
def emitVarDef (cfg : Config) (fm : FileMeta) (info : Option DriverInfo)
    (name : String) (f : FuncState) (ev : Ev) : FuncState × List Out :=
  let v := match mget f.versions name with
    | none => 0
    | some w => w + 1
  let f := { f with versions := mset f.versions name v,
                    defsCount := f.defsCount + 1 }
  let nid := nodeId cfg fm f.funcId .varDef (some name) (some v) ev
  (f, [("dfg_node", .node
        { id := nid, funcId := f.funcId, kind := .varDef, name := some name,
          version := some v, path := fm.path, lang := fm.lang,
          prov := mkProv fm info ev })])

/-- DfgBuilder.build.emit_var_use: the VAR_USE node at the current version plus
the DEF_USE edge from the logical def id to the logical use id. -/
def emitVarUse (cfg : Config) (fm : FileMeta) (info : Option DriverInfo)
    (name : String) (f : FuncState) (ev : Ev) : FuncState × List Out :=
  let v := (mget f.versions name).getD 0
  let f := { f with usesCount := f.usesCount + 1 }
  let nid := nodeId cfg fm f.funcId .varUse (some name) (some v) ev
  let src := logicalDefId cfg fm f.funcId name v
  let dst := logicalUseId cfg fm f.funcId name v ev.byteStart
  let eid := edgeId cfg fm f.funcId .defUse src dst ev
  (f, [("dfg_node", .node
        { id := nid, funcId := f.funcId, kind := .varUse, name := some name,
          version := some v, path := fm.path, lang := fm.lang,
          prov := mkProv fm info ev }),
       ("dfg_edge", .edge
        { id := eid, funcId := f.funcId, kind := .defUse, srcId := src,
          dstId := dst, path := fm.path, lang := fm.lang,
          prov := mkProv fm info ev })])

/-- DfgBuilder.build.emit_literal: emits nothing for over-long spans; otherwise
returns the literal node and its id. -/
def emitLiteral (cfg : Config) (fm : FileMeta) (info : Option DriverInfo)
    (f : FuncState) (ev : Ev) : List Out × Option SId :=
  if ev.byteEnd - ev.byteStart > cfg.maxLiteralSpan then ([], none)
  else
    let nid := nodeId cfg fm f.funcId .literal none none ev
    ([("dfg_node", .node
       { id := nid, funcId := f.funcId, kind := .literal, name := none,
         version := none, path := fm.path, lang := fm.lang,
         prov := mkProv fm info ev })], some nid)

/-- DfgBuilder.build.emit_const_part -/
def emitConstPart (cfg : Config) (fm : FileMeta) (info : Option DriverInfo)
    (litId target : SId) (f : FuncState) (ev : Ev) : List Out :=
  let eid := edgeId cfg fm f.funcId .constPart litId target ev
  [("dfg_edge", .edge
    { id := eid, funcId := f.funcId, kind := .constPart, srcId := litId,
      dstId := target, path := fm.path, lang := fm.lang,
      prov := mkProv fm info ev })]

def memLimitAnomaly (fm : FileMeta) (ev : Ev) : Anomaly :=
  { path := fm.path, blobSha := some fm.blobSha, kind := .memoryLimit,
    severity := .error, detail := "DFG limits exceeded",
    span := some (ev.byteStart, ev.byteEnd) }

/-- One iteration of the DfgBuilder.build event loop. -/
def step (cfg : Config) (fm : FileMeta) (info : Option DriverInfo)
    (stack : List FuncState) (ev : Ev) :
    List FuncState × List Out × List Anomaly :=
  if ev.kind = .enter ∧ isFunction fm.lang ev.type then
    ({ funcId := funcIdOf cfg fm ev.byteStart } :: stack, [], [])
  else
    match stack with
    | [] => ([], [], [])
    | func :: rest =>
      if func.defsCount > cfg.maxDefsPerFunc ∨ func.usesCount > cfg.maxUsesPerFunc then
        (rest, [], [memLimitAnomaly fm ev])
      else
        match ev.kind with
        | .enter =>
          let func := if isParamList fm.lang ev.type then
              { func with inParams := true } else func
          let func := if isAssign fm.lang ev.type then
              { func with assignStack := ev.byteStart :: func.assignStack }
            else func
          (func :: rest, [], [])
        | .token =>
          if func.inParams ∧ isParamToken fm.lang ev.type then
            match safeTokenName ev with
            | some name =>
              let (f, outs) := emitParam cfg fm info name func ev
              (f :: rest, outs, [])
            | none => (func :: rest, [], [])
          else if isIdentifierToken fm.lang ev.type then
            match safeTokenName ev with
            | none => (func :: rest, [], [])
            | some name =>
              match func.assignStack with
              | _ :: abs =>
                -- first identifier after an assignment ENTER is a DEF; the
                -- assignment marker is popped so later identifiers are uses
                let (f, outs) := emitVarDef cfg fm info name func ev
                let target := logicalDefId cfg fm f.funcId name
                  ((mget f.versions name).getD 0)
                let f := { f with pendingLiterals := f.pendingLiterals ++ [target],
                                  assignStack := abs }
                (f :: rest, outs, [])
              | [] =>
                let (f, outs) := emitVarUse cfg fm info name func ev
                (f :: rest, outs, [])
          else if (cfg.captureStringLiterals ∧ isStringToken fm.lang ev.type) ∨
                  (cfg.captureNumericLiterals ∧ isNumberToken fm.lang ev.type) then
            let (outs, litId) := emitLiteral cfg fm info func ev
            match litId, func.pendingLiterals.getLast? with
            | some lid, some target =>
              (func :: rest, outs ++ emitConstPart cfg fm info lid target func ev, [])
            | _, _ => (func :: rest, outs, [])
          else (func :: rest, [], [])
        | .exit =>
          -- the three node-type sets are pairwise disjoint per language, so the
          -- three sequential ifs of the source fire at most once
          if isParamList fm.lang ev.type then
            ({ func with inParams := false } :: rest, [], [])
          else if isFunction fm.lang ev.type then (rest, [], [])
          else if isAssign fm.lang ev.type then
            match func.assignStack with
            | _ :: abs => ({ func with assignStack := abs } :: rest, [], [])
            | [] => (func :: rest, [], [])
          else (func :: rest, [], [])

/-- The event loop of DfgBuilder.build. -/
def runEvents (cfg : Config) (fm : FileMeta) (info : Option DriverInfo)
    (stack : List FuncState) : List Ev → List Out × List Anomaly
  | [] => ([], [])
  | ev :: rest =>
    let (st1, outs, ans) := step cfg fm info stack ev
    let (outs2, ans2) := runEvents cfg fm info st1 rest
    (outs ++ outs2, ans ++ ans2)

/-- dfg.build_dfg / DfgBuilder.build over one ParseStream. -/
def build (cfg : Config) (ps : ParseStream) : List Out × List Anomaly :=
  match ps.events with
  | none =>
    ([], [{ path := ps.file.path, blobSha := some ps.file.blobSha,
            kind := .parseFailed, severity := .error,
            detail := ps.error.getD "parse stream missing" }])
  | some evs =>
    if ps.ok then runEvents cfg ps.file ps.driver [] evs
    else
      ([], [{ path := ps.file.path, blobSha := some ps.file.blobSha,
              kind := .parseFailed, severity := .error,
              detail := ps.error.getD "parse stream missing" }])

end Ucg.Dfg

namespace Ucg.Sym

/-- symbols.SymbolsConfig -/
structure Config where
  idSalt : String := "sym-v1"
  maxScopeDepth : Nat := 256
  emitModuleScope : Bool := true
deriving DecidableEq, Repr

/-- symbols.SymbolKind (`import`/`export` are Lean keywords, hence `imp`/`exp`). -/
inductive SymbolKind
  | module | cls | function | method | variable | param | imp | exp
deriving DecidableEq, Repr

def SymbolKind.val : SymbolKind → String
  | .module => "module"
  | .cls => "class"
  | .function => "function"
  | .method => "method"
  | .variable => "variable"
  | .param => "param"
  | .imp => "import"
  | .exp => "export"

/-- symbols.AliasKind -/
inductive AliasKind
  | imp | reexport | assign | starImport | dynamic
deriving DecidableEq, Repr

def AliasKind.val : AliasKind → String
  | .imp => "import"
  | .reexport => "reexport"
  | .assign => "assign"
  | .starImport => "star_import"
  | .dynamic => "dynamic"

/-- symbols.SymbolRow (`attrs_json` hints are not modelled). -/
structure SymbolRow where
  id : SId
  scopeId : SId
  name : String
  kind : SymbolKind
  visibility : String
  isDynamic : Bool
  path : String
  lang : Lang
  prov : Prov
deriving DecidableEq, Repr

/-- symbols.AliasRow.  Python uses the empty string for an absent
`alias_id`/`target_symbol_id`; the empty part list `[]` models it. -/
structure AliasRow where
  id : SId
  aliasKind : AliasKind
  aliasId : SId
  targetSymbolId : SId
  aliasName : String
  path : String
  lang : Lang
  prov : Prov
deriving DecidableEq, Repr

/-- symbols._Scope -/
structure Scope where
  id : SId
  kind : SymbolKind
  name : String
  byteStart : Nat
  parent : Option SId
deriving DecidableEq, Repr

/-! symbols._Adapter node-type sets. -/

def functionNodes : Lang → List String
  | .py => ["FunctionDef", "AsyncFunctionDef", "Lambda"]
  | _ => ["function_declaration", "function_expression", "method_definition",
          "arrow_function"]

def classNodes : Lang → List String
  | .py => ["ClassDef"]
  | _ => ["class_declaration"]

def paramToken : Lang → List String
  | .py => ["Name"]
  | _ => ["identifier"]

def assignNodes : Lang → List String
  | .py => ["Assign", "AnnAssign", "AugAssign"]
  | _ => ["variable_declarator", "assignment_expression"]

def importNodes : Lang → List String
  | .py => ["Import", "ImportFrom"]
  | _ => ["import_declaration"]

def exportNodes : Lang → List String
  | .py => ["Expr"]
  | _ => ["export_statement", "export_clause"]

def identifierTokens : Lang → List String
  | .py => ["Name"]
  | _ => ["identifier", "shorthand_property_identifier", "property_identifier"]

def isFunction (l : Lang) (t : String) : Bool := (functionNodes l).contains t
def isClass (l : Lang) (t : String) : Bool := (classNodes l).contains t
def isParamToken (l : Lang) (t : String) : Bool := (paramToken l).contains t
def isAssign (l : Lang) (t : String) : Bool := (assignNodes l).contains t
def isImport (l : Lang) (t : String) : Bool := (importNodes l).contains t
def isExport (l : Lang) (t : String) : Bool := (exportNodes l).contains t
def isIdentifier (l : Lang) (t : String) : Bool := (identifierTokens l).contains t

/-- symbols._safe_token_text (disk read modelled by `ev.text`). -/
def safeTokenText (ev : Ev) : Option String :=
  if ev.byteEnd ≤ ev.byteStart then none
  else if ev.byteEnd - ev.byteStart > 1024 then none
  else
    let txt := pyStrip ev.text
    if txt.isEmpty ∨ txt.length > 256 then none
    else
      match txt.data with
      | [] => none
      | c0 :: rest =>
        if ¬ (c0.isAlpha ∨ c0 = '_' ∨ c0 = '$') then none
        else if ¬ rest.all (fun ch => ch.isAlphanum ∨ ch = '_' ∨ ch = '$' ∨ ch = '.') then
          none
        else
          let nonUnderscore := txt.data.filter (fun ch => ch ≠ '_')
          if nonUnderscore ≠ [] ∧ nonUnderscore.all Char.isDigit then none
          else some txt

/-- symbols._extract_name_token delegates to `_safe_token_text`. -/
def extractNameToken (ev : Ev) : Option String := safeTokenText ev

/-- symbols._module_name_from_path -/
def moduleNameFromPath (path : String) : String :=
  let base := (strSplitOn path "/").getLastD path
  let parts := strSplitOn base "."
  if parts.length ≥ 2 then String.intercalate "." parts.dropLast else base

/-- symbols._visibility_from_name -/
def visibilityFromName (name : String) : String :=
  if strStartsWith name "_" then "private" else "public"

/-- symbols._synthetic_ev -/
def syntheticEv : Ev :=
  { kind := .exit, type := "__synthetic__", byteStart := 0, byteEnd := 0,
    lineStart := 1, lineEnd := 1 }

/-- symbols._symbol_row -/
def symbolRow (cfg : Config) (fm : FileMeta) (info : Option DriverInfo)
    (scopeId : SId) (name : String) (kind : SymbolKind) (visibility : String)
    (isDynamic : Bool) (ev : Ev) : SymbolRow :=
  { id := [cfg.idSalt, "symbol", fm.path, fm.blobSha, sidStr scopeId, name,
           kind.val, toString ev.byteStart]
    scopeId := scopeId, name := name.take 256, kind := kind
    visibility := visibility, isDynamic := isDynamic
    path := fm.path, lang := fm.lang, prov := mkProv fm info ev }

/-- symbols._alias_row -/
def aliasRow (cfg : Config) (fm : FileMeta) (info : Option DriverInfo)
    (aliasKind : AliasKind) (aliasId targetSymbolId : SId) (aliasName : String)
    (ev : Ev) : AliasRow :=
  { id := [cfg.idSalt, "alias", fm.path, fm.blobSha, aliasKind.val,
           sidStr aliasId, sidStr targetSymbolId, aliasName,
           toString ev.byteStart]
    aliasKind := aliasKind, aliasId := aliasId
    targetSymbolId := targetSymbolId, aliasName := aliasName.take 256
    path := fm.path, lang := fm.lang, prov := mkProv fm info ev }

/-- symbols._scope_id (parent looked up on the current stack). -/
def scopeIdOf (cfg : Config) (fm : FileMeta) (stack : List Scope)
    (kind : SymbolKind) (name : String) (byteStart : Nat) : SId :=
  let parent := match stack with
    | s :: _ => sidStr s.id
    | [] => ""
  [cfg.idSalt, "scope", fm.path, fm.blobSha, parent, kind.val, name,
   toString byteStart]

/-- symbols._BuildState (observability counters kept; the duplicated dataclass
fields of the source collapse to one copy). -/
structure BState where
  scopeStack : List Scope := []
  symIndex : List ((SId × String) × SId) := []
  inParams : Bool := false
  openAssignBytes : List Nat := []
  symbolsEmitted : Nat := 0
  aliasesEmitted : Nat := 0
  hadPrecise : Bool := false
deriving DecidableEq, Repr

/-- A yielded item; build_symbols tags tuples with "symbol" / "alias". -/
inductive Item
  | symbol (r : SymbolRow)
  | alias (r : AliasRow)
deriving DecidableEq, Repr

abbrev Out := String × Item

/-- De-dup preserving order, dropping blanks (tail of both parse helpers). -/
def dedupeNames (names : List String) : List String :=
  names.foldl
    (fun out nm =>
      let nm := pyStrip nm
      if ¬ nm.isEmpty ∧ ¬ out.contains nm then out ++ [nm] else out) []

/-- symbols._parse_import_like (span read modelled by `ev.text`, capped at
4096 as `_read_span_text` does). -/
def parseImportLike (lang : Lang) (ev : Ev) : List String × Bool :=
  let txt := ev.text.take 4096
  if txt.isEmpty then ([], false)
  else
    let s := pyStrip txt
    let isTypeOnly := pyContains s "import type" ||
      pyContains s ("type " ++ curlyOpenS) || strStartsWith s "type "
    let names : List String := []
    let names : List String := if pyContains s "* as" then
        match splitOnce s "* as" with
        | some (_, after) =>
          match pySplitWs (pyStrip after) with
          | p :: _ => names ++ [stripChars (pyStrip p) [',', ';']]
          | [] => names
        | none => names
      else names
    let names : List String :=
      if pyContains s curlyOpenS ∧ pyContains s curlyCloseS then
        match splitOnce s curlyOpenS with
        | some (_, after) =>
          let inside := (splitOnce after curlyCloseS).map (·.1) |>.getD after
          (strSplitOn inside ",").foldl
            (fun acc seg =>
              let seg := pyStrip seg
              if seg.isEmpty then acc
              else if pyContains seg " as " then
                match splitOnce seg " as " with
                | some (_, al) => acc ++ [pyStrip al]
                | none => acc
              else acc ++ [seg]) names
        | none => names
      else
        -- fallback: first identifier after 'import'; a missing 'import'
        -- raises IndexError which the source swallows
        match splitOnce s "import" with
        | some (_, after) =>
          let after := pyStrip after
          let tok := match pySplitWs after with
            | t :: _ => t
            | [] => ""
          let tok := stripChars (pyStrip tok) [',', curlyOpen, curlyClose, '*', ';']
          if ¬ tok.isEmpty ∧ tok ≠ "from" ∧ tok ≠ "type" then names ++ [tok]
          else names
        | none => names
    let names : List String :=
      if lang ≠ .py then names
      else if ¬ names.isEmpty then names
      else
        if pyContains s " import " then
          match splitOnce s " import " with
          | some (_, part) =>
            (strSplitOn part ",").foldl
              (fun acc seg =>
                let seg := pyStrip seg
                if seg.isEmpty then acc
                else if pyContains seg " as " then
                  match splitOnce seg " as " with
                  | some (_, al) => acc ++ [pyStrip al]
                  | none => acc
                else
                  match pySplitWs seg with
                  | t :: _ => acc ++ [pyStrip t]
                  | [] => acc) names
          | none => names
        else names
    (dedupeNames names, isTypeOnly)

/-- symbols._parse_export_like -/
def parseExportLike (lang : Lang) (ev : Ev) : List String :=
  let txt := ev.text.take 4096
  if txt.isEmpty then []
  else
    let s := pyStrip txt
    let names : List String :=
      if strStartsWith s "export " then
        if pyContains s curlyOpenS ∧ pyContains s curlyCloseS then
          match splitOnce s curlyOpenS with
          | some (_, after) =>
            let inside := (splitOnce after curlyCloseS).map (·.1) |>.getD after
            (strSplitOn inside ",").foldl
              (fun acc seg =>
                let seg := pyStrip seg
                if seg.isEmpty then acc
                else if pyContains seg " as " then
                  match splitOnce seg " as " with
                  | some (_, al) => acc ++ [pyStrip al]
                  | none => acc
                else acc ++ [seg]) []
          | none => []
        else if strStartsWith s "export default" then ["default"]
        else
          let toks := pySplitWs s
          let rec scan : List String → List String
            | t :: next :: rest =>
              if t = "const" ∨ t = "let" ∨ t = "var" ∨ t = "function" ∨
                 t = "class" then
                [stripChars (pyStrip next)
                  [curlyOpen, curlyClose, '(', ')', ';', ',']]
              else scan (next :: rest)
            | _ => []
          scan toks
      else []
    let names :=
      if lang ≠ .py then names
      else if ¬ names.isEmpty then names
      else
        if pyContains s "__all__" ∧ (pyContains s "[" ∨ pyContains s "(") then
          let body := if pyContains s "=" then
              ((splitOnce s "=").map (·.2)).getD s
            else s
          let body := ((((body.replace "[" " ").replace "]" " ").replace
            "(" " ").replace ")" " ")
          (strSplitOn body ",").foldl
            (fun acc frag =>
              let frag := stripChars (pyStrip frag) ['\'', '"']
              if ¬ frag.isEmpty then acc ++ [frag] else acc) names
        else names
    dedupeNames names

def depthAnomaly (fm : FileMeta) (ev : Ev) : Anomaly :=
  { path := fm.path, blobSha := some fm.blobSha, kind := .memoryLimit,
    severity := .error, detail := "scope-depth-exceeded",
    span := some (ev.byteStart, ev.byteEnd) }

/-- symbols._yield_decl_and_push -/
def yieldDeclAndPush (cfg : Config) (fm : FileMeta) (info : Option DriverInfo)
    (st : BState) (ev : Ev) (name : String) (kind : SymbolKind) (scopeId : SId) :
    BState × Option SymbolRow × List Anomaly :=
  if st.scopeStack.length ≥ cfg.maxScopeDepth then
    (st, none, [depthAnomaly fm ev])
  else
    let parent : Option SId := match st.scopeStack with
      | s :: _ => some s.id
      | [] => none
    let parentScope := parent.getD [cfg.idSalt, "root", fm.path, fm.blobSha]
    let srow := symbolRow cfg fm info parentScope name kind
      (visibilityFromName name) false ev
    let st := { st with scopeStack :=
      { id := scopeId, kind := kind, name := name, byteStart := ev.byteStart,
        parent := parent } :: st.scopeStack }
    (st, some srow, [])

/-- Result of one loop iteration: `halt` models an uncaught IndexError
(`scope_stack[-1]` on an empty stack) escaping the generator. -/
inductive SRes
  | next (st : BState) (outs : List Out) (ans : List Anomaly)
  | halt

/-- One iteration of the build_symbols event loop. -/
def step (cfg : Config) (fm : FileMeta) (info : Option DriverInfo)
    (st : BState) (ev : Ev) : SRes :=
  match ev.kind with
  | .enter =>
    if isClass fm.lang ev.type then
      let name := (extractNameToken ev).getD "<class>"
      let scopeId := scopeIdOf cfg fm st.scopeStack .cls name ev.byteStart
      let (st, srow, ans) := yieldDeclAndPush cfg fm info st ev name .cls scopeId
      match srow with
      | some r =>
        .next { st with symbolsEmitted := st.symbolsEmitted + 1 }
          [("symbol", .symbol r)] ans
      | none => .next st [] ans
    else if isFunction fm.lang ev.type then
      let parentKind := match st.scopeStack with
        | s :: _ => s.kind
        | [] => SymbolKind.module
      let symKind := if parentKind = .cls then SymbolKind.method
        else SymbolKind.function
      let name := (extractNameToken ev).getD "<lambda>"
      let scopeId := scopeIdOf cfg fm st.scopeStack symKind name ev.byteStart
      let (st, srow, ans) := yieldDeclAndPush cfg fm info st ev name symKind scopeId
      let st := { st with inParams := true }
      match srow with
      | some r =>
        .next { st with symbolsEmitted := st.symbolsEmitted + 1 }
          [("symbol", .symbol r)] ans
      | none => .next st [] ans
    else if isAssign fm.lang ev.type then
      .next { st with openAssignBytes := ev.byteStart :: st.openAssignBytes } [] []
    else .next st [] []
  | .token =>
    if st.inParams ∧ isParamToken fm.lang ev.type then
      match safeTokenText ev with
      | some pname =>
        match st.scopeStack with
        | [] => .halt
        | top :: _ =>
          let srow := symbolRow cfg fm info top.id pname .param
            (visibilityFromName pname) false ev
          .next { st with symIndex := mset st.symIndex (top.id, pname) srow.id,
                          symbolsEmitted := st.symbolsEmitted + 1 }
            [("symbol", .symbol srow)] []
      | none => .next st [] []
    else if ¬ st.openAssignBytes.isEmpty ∧ isIdentifier fm.lang ev.type then
      match safeTokenText ev with
      | some vname =>
        match st.scopeStack with
        | [] => .halt
        | top :: _ =>
          let srow := symbolRow cfg fm info top.id vname .variable
            (visibilityFromName vname) false ev
          .next { st with symIndex := mset st.symIndex (top.id, vname) srow.id,
                          symbolsEmitted := st.symbolsEmitted + 1 }
            [("symbol", .symbol srow)] []
      | none => .next st [] []
    else .next st [] []
  | .exit =>
    if ¬ st.openAssignBytes.isEmpty ∧ isAssign fm.lang ev.type then
      -- the source closes the assignment without emitting ASSIGN aliases:
      -- the heuristic commented there is not implemented
      .next { st with openAssignBytes := st.openAssignBytes.tail } [] []
    else if isFunction fm.lang ev.type then
      .next { st with inParams := false, scopeStack := st.scopeStack.tail } [] []
    else if isClass fm.lang ev.type then
      .next { st with scopeStack := st.scopeStack.tail } [] []
    else if isImport fm.lang ev.type then
      let (names, isTypeOnly) := parseImportLike fm.lang ev
      let _ := isTypeOnly
      let names := if names = [] then [(extractNameToken ev).getD "<import>"]
        else names
      match st.scopeStack with
      | [] => .halt
      | top :: _ =>
        let res := names.foldl
          (fun (acc : BState × List Out) nm =>
            let (st, outs) := acc
            let srow := symbolRow cfg fm info top.id nm .imp "public" false ev
            let arow := aliasRow cfg fm info .dynamic srow.id [] nm ev
            ({ st with symIndex := mset st.symIndex (top.id, nm) srow.id,
                       symbolsEmitted := st.symbolsEmitted + 1,
                       aliasesEmitted := st.aliasesEmitted + 1 },
             outs ++ [("symbol", .symbol srow), ("alias", .alias arow)]))
          (st, [])
        .next res.1 res.2 []
    else if isExport fm.lang ev.type then
      let names := parseExportLike fm.lang ev
      let names := if names = [] then [(extractNameToken ev).getD "<export>"]
        else names
      match st.scopeStack with
      | [] => .halt
      | top :: _ =>
        let res := names.foldl
          (fun (acc : BState × List Out) ename =>
            let (st, outs) := acc
            let srow := symbolRow cfg fm info top.id ename .exp "public" false ev
            let tgt := (mget st.symIndex (top.id, ename)).getD []
            let kind := if tgt ≠ [] then AliasKind.reexport else AliasKind.dynamic
            let st := if kind ≠ .dynamic then { st with hadPrecise := true } else st
            let arow := aliasRow cfg fm info kind srow.id tgt ename ev
            ({ st with symbolsEmitted := st.symbolsEmitted + 1,
                       aliasesEmitted := st.aliasesEmitted + 1 },
             outs ++ [("symbol", .symbol srow), ("alias", .alias arow)]))
          (st, [])
        .next res.1 res.2 []
    else .next st [] []

/-- The EXIT arm of `step` with the two span-parsing results abstracted as
arguments (statement support: `step` on an EXIT event equals this applied to
`parseImportLike`/`parseExportLike`, which keeps rewriting shallow). -/
def stepExitP (cfg : Config) (fm : FileMeta) (info : Option DriverInfo)
    (st : BState) (ev : Ev) (pri : List String × Bool) (pe : List String) :
    SRes :=
  if ¬ st.openAssignBytes.isEmpty ∧ isAssign fm.lang ev.type then
    .next { st with openAssignBytes := st.openAssignBytes.tail } [] []
  else if isFunction fm.lang ev.type then
    .next { st with inParams := false, scopeStack := st.scopeStack.tail } [] []
  else if isClass fm.lang ev.type then
    .next { st with scopeStack := st.scopeStack.tail } [] []
  else if isImport fm.lang ev.type then
    let (names, isTypeOnly) := pri
    let _ := isTypeOnly
    let names := if names = [] then [(extractNameToken ev).getD "<import>"]
      else names
    match st.scopeStack with
    | [] => .halt
    | top :: _ =>
      let res := names.foldl
        (fun (acc : BState × List Out) nm =>
          let (st, outs) := acc
          let srow := symbolRow cfg fm info top.id nm .imp "public" false ev
          let arow := aliasRow cfg fm info .dynamic srow.id [] nm ev
          ({ st with symIndex := mset st.symIndex (top.id, nm) srow.id,
                     symbolsEmitted := st.symbolsEmitted + 1,
                     aliasesEmitted := st.aliasesEmitted + 1 },
           outs ++ [("symbol", .symbol srow), ("alias", .alias arow)]))
        (st, [])
      .next res.1 res.2 []
  else if isExport fm.lang ev.type then
    let names := pe
    let names := if names = [] then [(extractNameToken ev).getD "<export>"]
      else names
    match st.scopeStack with
    | [] => .halt
    | top :: _ =>
      let res := names.foldl
        (fun (acc : BState × List Out) ename =>
          let (st, outs) := acc
          let srow := symbolRow cfg fm info top.id ename .exp "public" false ev
          let tgt := (mget st.symIndex (top.id, ename)).getD []
          let kind := if tgt ≠ [] then AliasKind.reexport else AliasKind.dynamic
          let st := if kind ≠ .dynamic then { st with hadPrecise := true } else st
          let arow := aliasRow cfg fm info kind srow.id tgt ename ev
          ({ st with symbolsEmitted := st.symbolsEmitted + 1,
                     aliasesEmitted := st.aliasesEmitted + 1 },
           outs ++ [("symbol", .symbol srow), ("alias", .alias arow)]))
        (st, [])
      .next res.1 res.2 []
  else .next st [] []

/-- The module scope build_symbols starts from (statement support). -/
def initScope (cfg : Config) (fm : FileMeta) : Scope :=
  { id := [cfg.idSalt, "module", fm.path, fm.blobSha], kind := .module,
    name := moduleNameFromPath fm.path, byteStart := 0, parent := none }

/-- The initial builder state of build_symbols (statement support). -/
def initBState (cfg : Config) (fm : FileMeta) : BState :=
  { scopeStack := [initScope cfg fm] }

/-- The module SymbolRow emitted before the event loop (statement support). -/
def initModSym (cfg : Config) (fm : FileMeta) (drv : Option DriverInfo) :
    SymbolRow :=
  symbolRow cfg fm drv (initScope cfg fm).id (moduleNameFromPath fm.path)
    .module "public" false syntheticEv

/-- The import-arm fold function of `step`, hoisted (statement support). -/
def impFoldF (cfg : Config) (fm : FileMeta) (info : Option DriverInfo)
    (topId : SId) (ev : Ev) : BState × List Out → String → BState × List Out :=
  fun acc nm =>
    let (st, outs) := acc
    let srow := symbolRow cfg fm info topId nm .imp "public" false ev
    let arow := aliasRow cfg fm info .dynamic srow.id [] nm ev
    ({ st with symIndex := mset st.symIndex (topId, nm) srow.id,
               symbolsEmitted := st.symbolsEmitted + 1,
               aliasesEmitted := st.aliasesEmitted + 1 },
     outs ++ [("symbol", .symbol srow), ("alias", .alias arow)])

/-- The export-arm fold function of `step`, hoisted (statement support). -/
def expFoldF (cfg : Config) (fm : FileMeta) (info : Option DriverInfo)
    (topId : SId) (ev : Ev) : BState × List Out → String → BState × List Out :=
  fun acc ename =>
    let (st, outs) := acc
    let srow := symbolRow cfg fm info topId ename .exp "public" false ev
    let tgt := (mget st.symIndex (topId, ename)).getD []
    let kind := if tgt ≠ [] then AliasKind.reexport else AliasKind.dynamic
    let st := if kind ≠ .dynamic then { st with hadPrecise := true } else st
    let arow := aliasRow cfg fm info kind srow.id tgt ename ev
    ({ st with symbolsEmitted := st.symbolsEmitted + 1,
               aliasesEmitted := st.aliasesEmitted + 1 },
     outs ++ [("symbol", .symbol srow), ("alias", .alias arow)])

/-- The build_symbols event loop; a `halt` abandons the rest of the stream and
skips the final baseline check (the exception escapes the generator). -/
def runEvents (cfg : Config) (fm : FileMeta) (info : Option DriverInfo)
    (st : BState) : List Ev → List Out × List Anomaly × Bool
  | [] => ([], [], true)
  | ev :: rest =>
    match step cfg fm info st ev with
    | .halt => ([], [], false)
    | .next st1 outs ans =>
      let (outs2, ans2, fin) := runEvents cfg fm info st1 rest
      (outs ++ outs2, ans ++ ans2, fin)

def baselineAnomaly (fm : FileMeta) : Anomaly :=
  { path := fm.path, blobSha := some fm.blobSha, kind := .unknown,
    severity := .warn, detail := "SYMBOLS_BASELINE_ONLY" }

/-- symbols.build_symbols over one ParseStream. -/
def build (cfg : Config) (ps : ParseStream) : List Out × List Anomaly :=
  let fm := ps.file
  match ps.events with
  | none =>
    ([], [{ path := fm.path, blobSha := some fm.blobSha, kind := .parseFailed,
            severity := .error, detail := ps.error.getD "parse stream missing" }])
  | some evs =>
    if ¬ ps.ok then
      ([], [{ path := fm.path, blobSha := some fm.blobSha, kind := .parseFailed,
              severity := .error,
              detail := ps.error.getD "parse stream missing" }])
    else
      let modScopeId : SId := [cfg.idSalt, "module", fm.path, fm.blobSha]
      let moduleName := moduleNameFromPath fm.path
      let modScope : Scope :=
        { id := modScopeId, kind := .module, name := moduleName, byteStart := 0,
          parent := none }
      let (st0, headOuts) :=
        if cfg.emitModuleScope then
          let modSym := symbolRow cfg fm ps.driver modScopeId moduleName .module
            "public" false syntheticEv
          ({ scopeStack := [modScope] }, [(("symbol" : String), Item.symbol modSym)])
        else ({ scopeStack := [modScope] }, [])
      let (outs, ans, finished) := runEvents cfg fm ps.driver st0 evs
      -- the final symbols_emitted accounting needs the final state; recompute
      -- it from the emitted symbol count (module symbol not counted, as in
      -- the source where the yield bypasses the counter)
      let emitted := (outs.filter (fun o => o.1 = "symbol")).length
      let ans := if finished ∧ emitted = 0 then ans ++ [baselineAnomaly fm]
        else ans
      (headOuts ++ outs, ans)

end Ucg.Sym

namespace Ucg.Norm

/-- normalize.NormalizerConfig (`max_literal_len` only affects `attrs_json`
payloads, which are not modelled). -/
structure Config where
  emitModuleNodes : Bool := true
  emitEffectCarriers : Bool := true
  idSalt : String := "ucg-v1"
  maxScopeDepth : Nat := 200
  maxPendingConstructs : Nat := 5000
deriving DecidableEq, Repr

/-- normalize.NodeKind -/
inductive NodeKind
  | file | module | cls | function | block | symbol | literal | effectCarrier
  | imp | exp
deriving DecidableEq, Repr

def NodeKind.val : NodeKind → String
  | .file => "file"
  | .module => "module"
  | .cls => "class"
  | .function => "function"
  | .block => "block"
  | .symbol => "symbol"
  | .literal => "literal"
  | .effectCarrier => "effect_carrier"
  | .imp => "import"
  | .exp => "export"

/-- normalize.EdgeKind -/
inductive EdgeKind
  | defines | declares | imports | exports | extendsK | implementsK | calls
  | reads | writes | throws | aliases | decorates
deriving DecidableEq, Repr

def EdgeKind.val : EdgeKind → String
  | .defines => "defines"
  | .declares => "declares"
  | .imports => "imports"
  | .exports => "exports"
  | .extendsK => "extends"
  | .implementsK => "implements"
  | .calls => "calls"
  | .reads => "reads"
  | .writes => "writes"
  | .throws => "throws"
  | .aliases => "aliases"
  | .decorates => "decorates"

/-- normalize.NodeRow (`attrs_json` not modelled). -/
structure NodeRow where
  id : SId
  kind : NodeKind
  name : Option String
  path : String
  lang : Lang
  prov : Prov
deriving DecidableEq, Repr

/-- normalize.EdgeRow (`attrs_json` not modelled). -/
structure EdgeRow where
  id : SId
  kind : EdgeKind
  srcId : SId
  dstId : SId
  path : String
  lang : Lang
  prov : Prov
deriving DecidableEq, Repr

/-! normalize._Adapter per-language sets. -/

def moduleTypes : Lang → List String
  | .py => ["Module"]
  | _ => ["program"]

def classTypes : Lang → List String
  | .py => ["ClassDef"]
  | _ => ["class_declaration"]

def functionTypes : Lang → List String
  | .py => ["FunctionDef", "AsyncFunctionDef", "Lambda"]
  | _ => ["function_declaration", "function_expression", "method_definition",
          "arrow_function", "generator_function_declaration",
          "generator_function"]

def importTypes : Lang → List String
  | .py => ["Import", "ImportFrom"]
  | _ => ["import_statement", "import_declaration"]

def exportTypes : Lang → List String
  | .py => []
  | _ => ["export_statement", "export_clause", "export_assignment"]

def callTypes : Lang → List String
  | .py => ["Call"]
  | _ => ["call_expression", "new_expression"]

def decoratorTypes : Lang → List String
  | .py => ["Decorator", "Decorators"]
  | _ => ["decorator"]

def identifierTokens : Lang → List String
  | .py => ["Name", "Attribute"]
  | _ => ["identifier", "property_identifier", "shorthand_property_identifier",
          "private_property_identifier"]

def stringTokens : Lang → List String
  | .py => ["SimpleString"]
  | _ => ["string", "string_fragment", "string_literal", "template_string"]

/-- normalize._ID_TOKENS_BY_LANG -/
def idTokensByLang : Lang → List String
  | .py => ["Name", "Identifier", "Attribute"]
  | _ => ["identifier", "property_identifier", "private_identifier"]

def isModule (l : Lang) (t : String) : Bool := (moduleTypes l).contains t
def isClass (l : Lang) (t : String) : Bool := (classTypes l).contains t
def isFunction (l : Lang) (t : String) : Bool := (functionTypes l).contains t
def isImport (l : Lang) (t : String) : Bool := (importTypes l).contains t
def isExport (l : Lang) (t : String) : Bool := (exportTypes l).contains t
def isCall (l : Lang) (t : String) : Bool := (callTypes l).contains t
def isDecorator (l : Lang) (t : String) : Bool := (decoratorTypes l).contains t
def isIdentifierToken (l : Lang) (t : String) : Bool :=
  (identifierTokens l).contains t
def isStringToken (l : Lang) (t : String) : Bool := (stringTokens l).contains t
def tokenIsIdentifier (l : Lang) (t : String) : Bool :=
  (idTokensByLang l).contains t

/-- normalize._Adapter.looks_like_function -/
def looksLikeFunction (l : Lang) (nodeType : String) : Bool :=
  let lowered := strToLower nodeType
  if lowered.isEmpty then false
  else if (functionTypes l).contains nodeType ∨
          ((functionTypes l).map strToLower).contains lowered then true
  else if lowered = "constructor" then true
  else if pyContains lowered "function" ∨ pyContains lowered "method" ∨
          pyContains lowered "lambda" ∨ pyContains lowered "arrow" then
    if pyContains lowered "call" ∨ pyContains lowered "argument" ∨
       pyContains lowered "type" ∨ pyContains lowered "signature" ∨
       pyContains lowered "expr" ∨ pyContains lowered "expression" then false
    else true
  else false

/-- normalize._Adapter.looks_like_class -/
def looksLikeClass (l : Lang) (nodeType : String) : Bool :=
  let lowered := strToLower nodeType
  if lowered.isEmpty then false
  else if (classTypes l).contains nodeType ∨
          ((classTypes l).map strToLower).contains lowered then true
  else if pyContains lowered "class" then
    if pyContains lowered "class_body" ∨ pyContains lowered "class_heritage" ∨
       pyContains lowered "class_im" then false
    else true
  else false

/-- normalize.Normalizer._safe_token_name (identical checks to the DFG's;
the disk read is modelled by `ev.text`). -/
def safeTokenName (ev : Ev) : Option String :=
  if ev.byteEnd ≤ ev.byteStart then none
  else if ev.byteEnd - ev.byteStart > 1024 then none
  else
    let text := pyStrip ev.text
    if text.isEmpty ∨ text.length > 256 then none
    else
      match text.data with
      | [] => none
      | c0 :: rest =>
        if ¬ (c0.isAlpha ∨ c0 = '_') then none
        else if ¬ rest.all (fun ch => ch.isAlphanum ∨ ch = '.' ∨ ch = '_' ∨ ch = '$') then
          none
        else
          let nonUnderscore := text.data.filter (fun ch => ch ≠ '_')
          if nonUnderscore ≠ [] ∧ nonUnderscore.all Char.isDigit then none
          else some text

/-- normalize._Scope (`params` only feeds `attrs_json`; not modelled). -/
structure Scope where
  nodeId : SId
  kind : NodeKind
  name : Option String
  parentId : Option SId
  byteStart : Nat
deriving DecidableEq, Repr

/-- normalize._PendingConstruct.  The `extra` dict entries that steer control
flow become typed fields (`call_like`, `call_src_fallback`, `want_edge_from`);
the attrs-only entries (literal hints, param capture) are not modelled. -/
structure Pending where
  kind : NodeKind
  typeName : String
  byteStart : Nat
  lineStart : Nat
  name : Option String := none
  wantEdgeFrom : Option SId := none
  callSrcFallback : Option SId := none
  callLike : Bool := false
deriving DecidableEq, Repr

/-- The walking state of Normalizer.normalize. -/
structure NState where
  scopeStack : List Scope := []
  pendStack : List Pending := []
  pendingDecorators : List (SId × Ev) := []
  pendingNameToken : Option (Ev × String) := none
  moduleEmitted : Bool := false
  tokenWindow : List Ev := []
deriving DecidableEq, Repr

/-- A yielded item; normalize tags tuples with "node" / "edge". -/
inductive Item
  | node (r : NodeRow)
  | edge (r : EdgeRow)
deriving DecidableEq, Repr

abbrev Out := String × Item

/-- normalize.Normalizer._start_based_node_id -/
def startBasedNodeId (cfg : Config) (fm : FileMeta) (kind : NodeKind)
    (byteStart : Nat) : SId :=
  [cfg.idSalt, "node", kind.val, fm.path, fm.blobSha, toString byteStart]

/-- normalize.Normalizer._node_row_with_start_id -/
def nodeRowWithStartId (fm : FileMeta) (info : Option DriverInfo)
    (kind : NodeKind) (nodeId : SId) (name : Option String) (ev : Ev) : NodeRow :=
  { id := nodeId, kind := kind, name := name, path := fm.path, lang := fm.lang,
    prov := mkProv fm info ev }

/-- normalize.Normalizer._edge_row -/
def edgeRow (cfg : Config) (fm : FileMeta) (info : Option DriverInfo)
    (kind : EdgeKind) (srcId dstId : SId) (ev : Ev) : EdgeRow :=
  { id := [cfg.idSalt, "edge", kind.val, fm.path, fm.blobSha, sidStr srcId,
           sidStr dstId, toString ev.byteStart]
    kind := kind, srcId := srcId, dstId := dstId, path := fm.path,
    lang := fm.lang, prov := mkProv fm info ev }

/-- normalize.Normalizer._create_symbol_node -/
def createSymbolNode (cfg : Config) (fm : FileMeta) (info : Option DriverInfo)
    (name : String) (ev : Ev) (symbolKind : String) : NodeRow :=
  { id := [cfg.idSalt, "symbol", fm.path, fm.blobSha, name, symbolKind]
    kind := .symbol, name := some name, path := fm.path, lang := fm.lang,
    prov := mkProv fm info ev }

/-- normalize.Normalizer._file_node (provenance spans the whole file). -/
def fileNode (cfg : Config) (fm : FileMeta) (info : Option DriverInfo) : NodeRow :=
  { id := [cfg.idSalt, "node", "file", fm.path, fm.blobSha, "0"]
    kind := .file, name := some ((strSplitOn fm.path "/").getLastD fm.path)
    path := fm.path, lang := fm.lang
    prov := { path := fm.path, blobSha := fm.blobSha, lang := fm.lang
              grammarSha := (info.map (·.grammarSha)).getD ""
              runId := fm.runId, configHash := fm.configHash
              byteStart := 0, byteEnd := fm.sizeBytes
              lineStart := 1, lineEnd := 1 } }

/-- normalize.Normalizer._module_name_from_path -/
def moduleNameFromPath (path : String) : String :=
  let base := (strSplitOn path "/").getLastD path
  let parts := strSplitOn base "."
  if parts.length ≥ 2 then String.intercalate "." parts.dropLast else base

/-- normalize.Normalizer._validate_event (byte_start ≥ 0 holds by typing). -/
def validEvent (ev : Ev) : Bool :=
  ¬ (ev.byteEnd < ev.byteStart) ∧ ¬ (ev.lineStart < 1 ∨ ev.lineEnd < ev.lineStart)

def invalidEventAnomaly (fm : FileMeta) : Anomaly :=
  { path := fm.path, blobSha := some fm.blobSha, kind := .unknown,
    severity := .warn, detail := "invalid event range" }

def resourceAnomaly (fm : FileMeta) : Anomaly :=
  { path := fm.path, blobSha := some fm.blobSha, kind := .memoryLimit,
    severity := .error, detail := "Resource limits exceeded" }

def outOfOrderAnomaly (fm : FileMeta) (ev : Ev) : Anomaly :=
  { path := fm.path, blobSha := some fm.blobSha, kind := .unknown,
    severity := .warn, detail := "Out-of-order scope EXIT",
    span := some (ev.byteStart, ev.byteEnd) }

/-- normalize.Normalizer._safe_classify (the `will_emit` flag is returned but
never consulted by the caller). -/
def safeClassify (l : Lang) (nodeType : String) : Option NodeKind × Bool :=
  if isModule l nodeType then (some .module, true)
  else if isClass l nodeType ∨ nodeType = "ClassDef" ∨
          nodeType = "class_declaration" then (some .cls, true)
  else if isFunction l nodeType ∨ nodeType = "FunctionDef" ∨
          nodeType = "AsyncFunctionDef" ∨
          nodeType = "generator_function_declaration" then (some .function, true)
  else if looksLikeFunction l nodeType then (some .function, true)
  else if looksLikeClass l nodeType then (some .cls, true)
  else if isImport l nodeType then (some .imp, false)
  else if isExport l nodeType then (some .exp, false)
  else if isCall l nodeType then (some .symbol, false)
  else if isDecorator l nodeType then (some .effectCarrier, true)
  else (none, false)

/-- normalize.Normalizer._extract_qualified_name over the trailing window. -/
def extractQualifiedName (l : Lang) (win : List Ev) : Option String :=
  if win.isEmpty then none
  else
    let rec walk (i : Nat) (fuel : Nat) (collected : List String) : List String :=
      match fuel with
      | 0 => collected
      | fuel + 1 =>
        if h : i < win.length then
          if collected.length ≥ 5 then collected
          else
            let ev := win.get ⟨i, h⟩
            let nm := if isIdentifierToken l ev.type then safeTokenName ev
              else none
            match nm with
            | some n =>
              if i = 0 then collected ++ [n]
              else
                let j := i - 1
                let j' := if hj : j < win.length then
                    if (win.get ⟨j, hj⟩).type = "." ∨
                       (win.get ⟨j, hj⟩).type = "dot" ∨
                       (win.get ⟨j, hj⟩).type = "period" then j - 1 else j
                  else j
                if j = 0 ∧ j' ≠ j then collected ++ [n]
                else walk j' fuel (collected ++ [n])
            | none =>
              if ¬ collected.isEmpty then collected
              else if i = 0 then collected
              else walk (i - 1) fuel collected
        else collected
    let collected := walk (win.length - 1) (win.length + 1) []
    if collected.isEmpty then none
    else some (String.intercalate "." collected.reverse)

/-- Append to the 16-slot token window (deque maxlen semantics). -/
def pushWindow (w : List Ev) (ev : Ev) : List Ev :=
  let w := w ++ [ev]
  if w.length > 16 then w.tail else w

/-- Replace the element at index `i` (identity when out of range). -/
def listModifyAt {α : Type} (l : List α) (i : Nat) (f : α → α) : List α :=
  match l.get? i with
  | none => l
  | some x => l.set i (f x)

/-- First FUNCTION scope from the top of the stack (caller preference). -/
def firstFunctionScope : List Scope → Option Scope
  | [] => none
  | s :: rest => if s.kind = .function then some s else firstFunctionScope rest

/-- First index (from the top) of a scope opened at `byteStart`. -/
def findScopeIdx (stack : List Scope) (byteStart : Nat) : Option Nat :=
  stack.findIdx? (fun s => s.byteStart = byteStart)

/-- normalize.Normalizer._finalize_scope_at_index: emit the scope node and its
DEFINES edge, then drop the scope. -/
def finalizeScopeAt (cfg : Config) (fm : FileMeta) (info : Option DriverInfo)
    (fileId : SId) (stack : List Scope) (i : Nat) (ev : Ev) :
    List Scope × List Out :=
  match stack.get? i with
  | none => (stack, [])
  | some scope =>
    let nrow := nodeRowWithStartId fm info scope.kind scope.nodeId scope.name ev
    let parentId := scope.parentId.getD fileId
    let erow := edgeRow cfg fm info .defines parentId scope.nodeId ev
    (stack.eraseIdx i, [("node", .node nrow), ("edge", .edge erow)])

/-- TOKEN-event handling of Normalizer.normalize (string-token literal hints
only touch `attrs_json` and are not modelled). -/
def stepToken (fm : FileMeta) (st : NState) (ev : Ev) : NState :=
  let st := { st with tokenWindow := pushWindow st.tokenWindow ev }
  let tokenName := if isIdentifierToken fm.lang ev.type then safeTokenName ev
    else none
  if isIdentifierToken fm.lang ev.type then
    match tokenName with
    | some name =>
      match st.pendStack with
      | cur :: rest =>
        if (cur.kind = .function ∨ cur.kind = .cls) ∧ cur.name = none ∧
           Nat.dist ev.byteStart cur.byteStart ≤ 50 then
          let cur := { cur with name := some name }
          let scopes := match st.scopeStack with
            | top :: srest =>
              if top.byteStart = cur.byteStart then
                { top with name := some name } :: srest
              else top :: srest
            | [] => []
          { st with pendStack := cur :: rest, scopeStack := scopes }
        else st
      | [] => { st with pendingNameToken := some (ev, name) }
    | none => st
  else st

/-- ENTER branch of Normalizer.normalize: consume a pending name token close
to this declaration ENTER. -/
def enterConsumeName (nkind : Option NodeKind) (cur : Pending) (st : NState)
    (ev : Ev) : Pending × NState :=
  if (nkind = some .function ∨ nkind = some .cls) then
    match st.pendingNameToken with
    | some (tokEv, tokName) =>
      if Nat.dist tokEv.byteStart ev.byteStart ≤ 50 then
        ({ cur with name := some tokName },
         { st with pendingNameToken := none })
      else (cur, st)
    | none => (cur, st)
  else (cur, st)

/-- ENTER branch: open the module scope on the first module ENTER. -/
def enterModule (cfg : Config) (fm : FileMeta) (fileId : SId)
    (nkind : Option NodeKind) (st : NState) (ev : Ev) : NState :=
  if nkind = some .module ∧ cfg.emitModuleNodes ∧ ¬ st.moduleEmitted then
    let modId := startBasedNodeId cfg fm .module ev.byteStart
    let scope : Scope :=
      { nodeId := modId, kind := .module,
        name := some (moduleNameFromPath fm.path), parentId := some fileId,
        byteStart := ev.byteStart }
    { st with scopeStack := scope :: st.scopeStack, moduleEmitted := true }
  else st

/-- ENTER branch: open a class/function scope for a real declaration and fire
the pending decorators that precede it. -/
def enterDecl (cfg : Config) (fm : FileMeta) (info : Option DriverInfo)
    (fileId : SId) (nkind : Option NodeKind) (cur : Pending) (st : NState)
    (ev : Ev) : Pending × NState × List Out :=
  if nkind = some .cls ∨ nkind = some .function then
    let isRealDecl :=
      (nkind = some .function ∧ (functionTypes fm.lang).contains ev.type) ∨
      (nkind = some .cls ∧ (classTypes fm.lang).contains ev.type)
    if isRealDecl then
      let nodeId := startBasedNodeId cfg fm (nkind.getD .block) ev.byteStart
      let parentId := match st.scopeStack with
        | s :: _ => s.nodeId
        | [] => fileId
      let scope : Scope :=
        { nodeId := nodeId, kind := nkind.getD .block, name := cur.name,
          parentId := some parentId, byteStart := ev.byteStart }
      let st := { st with scopeStack := scope :: st.scopeStack }
      -- drain decorators that precede this declaration
      let fired := st.pendingDecorators.filter
        (fun d => d.2.byteStart ≤ ev.byteStart)
      let still := st.pendingDecorators.filter
        (fun d => ¬ (d.2.byteStart ≤ ev.byteStart))
      let outs := fired.map (fun d =>
        (("edge" : String),
         Item.edge (edgeRow cfg fm info .decorates d.1 nodeId d.2)))
      (cur, { st with pendingDecorators := still }, outs)
    else ({ cur with kind := .block }, st, [])
  else (cur, st, [])

/-- ENTER branch: record the CALLS source for call-like ENTERs — the nearest
enclosing FUNCTION scope, the innermost open scope (or the file) otherwise. -/
def enterCall (fm : FileMeta) (fileId : SId) (cur : Pending) (st : NState)
    (ev : Ev) : Pending :=
  if isCall fm.lang ev.type then
    let caller := (firstFunctionScope st.scopeStack).map (·.nodeId)
    let cur := { cur with wantEdgeFrom := caller, callLike := true }
    match caller with
    | none =>
      let fallbackId := match st.scopeStack with
        | s :: _ => s.nodeId
        | [] => fileId
      { cur with callSrcFallback := some fallbackId }
    | some _ => cur
  else cur

/-- ENTER branch: drop a pending name token too far from this ENTER. -/
def enterDropName (st : NState) (ev : Ev) : NState :=
  match st.pendingNameToken with
  | some (tokEv, _) =>
    if Nat.dist tokEv.byteStart ev.byteStart > 100 then
      { st with pendingNameToken := none }
    else st
  | none => st

/-- The body of the ENTER branch past the resource guard. -/
def enterBody (cfg : Config) (fm : FileMeta) (info : Option DriverInfo)
    (fileId : SId) (nkind : Option NodeKind) (cur : Pending) (st : NState)
    (ev : Ev) : NState × List Out :=
  let (cur, st) := enterConsumeName nkind cur st ev
  let st := enterModule cfg fm fileId nkind st ev
  let (cur, st, outs) := enterDecl cfg fm info fileId nkind cur st ev
  let cur := enterCall fm fileId cur st ev
  let st := { st with pendStack := cur :: st.pendStack }
  let st := enterDropName st ev
  (st, outs)

/-- ENTER-event handling; `none` models the `return` on resource limits. -/
def stepEnter (cfg : Config) (fm : FileMeta) (info : Option DriverInfo)
    (fileId : SId) (st : NState) (ev : Ev) :
    Option (NState × List Out) × List Anomaly :=
  let nkind := (safeClassify fm.lang ev.type).1
  if st.pendStack.length > cfg.maxPendingConstructs ∨
     st.scopeStack.length > cfg.maxScopeDepth then
    (none, [resourceAnomaly fm])
  else
    let cur : Pending :=
      { kind := nkind.getD .block, typeName := ev.type,
        byteStart := ev.byteStart, lineStart := ev.lineStart }
    (some (enterBody cfg fm info fileId nkind cur st ev), [])

/-- EXIT branch of Normalizer.normalize: late name recovery from the token
window. -/
def exitRecoverName (fm : FileMeta) (cur : Pending) (st : NState) (ev : Ev) :
    Pending :=
  if (cur.kind = .function ∨ cur.kind = .cls) ∧ cur.name = none then
    let tw := (st.tokenWindow.reverse.take 12)
    let found := tw.findSome? (fun t =>
      if cur.byteStart ≤ t.byteStart ∧ t.byteStart ≤ ev.byteEnd ∧
         tokenIsIdentifier fm.lang t.type then
        match safeTokenName t with
        | some name =>
          if ¬ strStartsWith name "_" ∨ strStartsWith name "__" then some name
          else none
        | none => none
      else none)
    match found with
    | some name => { cur with name := some name }
    | none => cur
  else cur

/-- EXIT branch: scope closure — emit the scope node and DEFINES edge; an
out-of-order EXIT closes the innermost scope and flags an anomaly. -/
def exitCloseScope (cfg : Config) (fm : FileMeta) (info : Option DriverInfo)
    (fileId : SId) (cur : Pending) (st : NState) (ev : Ev) :
    NState × List Out × List Anomaly :=
  if cur.kind = .module ∨ cur.kind = .cls ∨ cur.kind = .function then
    match findScopeIdx st.scopeStack cur.byteStart with
    | some i =>
      let stack := listModifyAt st.scopeStack i (fun scope =>
        if cur.name.isSome ∧ scope.name = none then
          { scope with name := cur.name }
        else scope)
      let (stack, outs) := finalizeScopeAt cfg fm info fileId stack i ev
      ({ st with scopeStack := stack }, outs, [])
    | none =>
      match st.scopeStack with
      | [] => (st, [], [])
      | _ :: _ =>
        let (stack, outs) :=
          finalizeScopeAt cfg fm info fileId st.scopeStack 0 ev
        ({ st with scopeStack := stack }, outs, [outOfOrderAnomaly fm ev])
  else (st, [], [])

/-- EXIT branch: effect carriers (decorators). -/
def exitEffectCarrier (cfg : Config) (fm : FileMeta) (info : Option DriverInfo)
    (cur : Pending) (st : NState) (ev : Ev) : NState × List Out :=
  if cur.kind = .effectCarrier ∧ cfg.emitEffectCarriers then
    let decoId := startBasedNodeId cfg fm .effectCarrier cur.byteStart
    let nrow := nodeRowWithStartId fm info .effectCarrier decoId cur.name ev
    let target := st.scopeStack.findSome? (fun scope =>
      if ¬ (scope.kind = .function ∨ scope.kind = .cls) then none
      else if cur.byteStart ≤ scope.byteStart then some scope else none)
    match target with
    | some scope =>
      (st, [("node", .node nrow),
            ("edge", .edge (edgeRow cfg fm info .decorates decoId
              scope.nodeId ev))])
    | none =>
      ({ st with pendingDecorators := st.pendingDecorators ++ [(decoId, ev)] },
       [("node", .node nrow)])
  else (st, [])

/-- EXIT branch: fallback emission for demoted function/class constructs. -/
def exitBlockFallback (cfg : Config) (fm : FileMeta) (info : Option DriverInfo)
    (fileId : SId) (cur : Pending) (st : NState) (ev : Ev) : List Out :=
  if cur.kind = .block then
    let inferred :=
      if isFunction fm.lang cur.typeName ∨ looksLikeFunction fm.lang cur.typeName
      then some NodeKind.function
      else if isClass fm.lang cur.typeName ∨ looksLikeClass fm.lang cur.typeName
      then some NodeKind.cls
      else none
    match inferred with
    | some kind =>
      let nodeId := startBasedNodeId cfg fm kind cur.byteStart
      let parentId := match st.scopeStack with
        | s :: _ => s.nodeId
        | [] => fileId
      [(("node" : String),
        Item.node (nodeRowWithStartId fm info kind nodeId cur.name ev)),
       (("edge" : String),
        Item.edge (edgeRow cfg fm info .defines parentId nodeId ev))]
    | none => []
  else []

/-- EXIT branch: imports as symbols. -/
def exitImports (cfg : Config) (fm : FileMeta) (info : Option DriverInfo)
    (fileId : SId) (cur : Pending) (ev : Ev) : List Out :=
  if isImport fm.lang cur.typeName then
    let sym := createSymbolNode cfg fm info (cur.name.getD "<unknown>") ev
      "import"
    [(("node" : String), Item.node sym),
     (("edge" : String),
      Item.edge (edgeRow cfg fm info .imports fileId sym.id ev))]
  else []

/-- EXIT branch: exports as symbols. -/
def exitExports (cfg : Config) (fm : FileMeta) (info : Option DriverInfo)
    (fileId : SId) (cur : Pending) (ev : Ev) : List Out :=
  if isExport fm.lang cur.typeName then
    let sym := createSymbolNode cfg fm info (cur.name.getD "<unknown>") ev
      "export"
    [(("node" : String), Item.node sym),
     (("edge" : String),
      Item.edge (edgeRow cfg fm info .exports fileId sym.id ev))]
  else []

/-- EXIT branch: the CALLS edge for call-like constructs, from the recorded
caller, its recorded fallback, the innermost open scope, or the file. -/
def exitCalls (cfg : Config) (fm : FileMeta) (info : Option DriverInfo)
    (fileId : SId) (cur : Pending) (st : NState) (ev : Ev) : List Out :=
  if cur.callLike then
    let qname := extractQualifiedName fm.lang (st.tokenWindow.reverse.take 8).reverse
    let callee := (qname.orElse (fun _ => cur.name)).getD "<unknown>"
    let sym := createSymbolNode cfg fm info callee ev "callee"
    let srcId := match cur.wantEdgeFrom with
      | some s => s
      | none =>
        match cur.callSrcFallback with
        | some f => f
        | none =>
          match st.scopeStack with
          | s :: _ => s.nodeId
          | [] => fileId
    [(("node" : String), Item.node sym),
     (("edge" : String),
      Item.edge (edgeRow cfg fm info .calls srcId sym.id ev))]
  else []

/-- EXIT-event handling of Normalizer.normalize. -/
def stepExit (cfg : Config) (fm : FileMeta) (info : Option DriverInfo)
    (fileId : SId) (st : NState) (ev : Ev) :
    NState × List Out × List Anomaly :=
  match st.pendStack with
  | [] => (st, [], [])
  | cur :: pendRest =>
    let st := { st with pendStack := pendRest }
    let cur := exitRecoverName fm cur st ev
    let (st, outs1, ans1) := exitCloseScope cfg fm info fileId cur st ev
    let (st, outs2) := exitEffectCarrier cfg fm info cur st ev
    let outs3 := exitBlockFallback cfg fm info fileId cur st ev
    let outs4 := exitImports cfg fm info fileId cur ev
    let outs5 := exitExports cfg fm info fileId cur ev
    let outs6 := exitCalls cfg fm info fileId cur st ev
    (st, outs1 ++ outs2 ++ outs3 ++ outs4 ++ outs5 ++ outs6, ans1)

/-- One iteration of the Normalizer.normalize event loop; `none` state means
the walk was aborted by the resource guard. -/
def step (cfg : Config) (fm : FileMeta) (info : Option DriverInfo)
    (fileId : SId) (st : NState) (ev : Ev) :
    Option NState × List Out × List Anomaly :=
  if ¬ validEvent ev then (some st, [], [invalidEventAnomaly fm])
  else
    match ev.kind with
    | .token => (some (stepToken fm st ev), [], [])
    | .enter =>
      match stepEnter cfg fm info fileId st ev with
      | (some (st, outs), ans) => (some st, outs, ans)
      | (none, ans) => (none, [], ans)
    | .exit =>
      let (st, outs, ans) := stepExit cfg fm info fileId st ev
      (some st, outs, ans)

/-- The event loop; the final state comes back for synthetic scope closing
(`none` when the resource guard aborted). -/
def runEvents (cfg : Config) (fm : FileMeta) (info : Option DriverInfo)
    (fileId : SId) (st : NState) :
    List Ev → List Out × List Anomaly × Option NState
  | [] => ([], [], some st)
  | ev :: rest =>
    match step cfg fm info fileId st ev with
    | (none, outs, ans) => (outs, ans, none)
    | (some st1, outs, ans) =>
      let (outs2, ans2, fin) := runEvents cfg fm info fileId st1 rest
      (outs ++ outs2, ans ++ ans2, fin)

/-- normalize.Normalizer._emit_synthetic_scope_end -/
def syntheticScopeEnd (cfg : Config) (fm : FileMeta) (info : Option DriverInfo)
    (scope : Scope) (currentEv : Ev) : List Out :=
  let endByte := max scope.byteStart currentEv.byteStart
  let synEv : Ev :=
    { kind := .exit, type := "__synthetic_end__", byteStart := scope.byteStart,
      byteEnd := endByte, lineStart := currentEv.lineStart,
      lineEnd := currentEv.lineStart }
  let nrow := nodeRowWithStartId fm info scope.kind scope.nodeId scope.name synEv
  match scope.parentId with
  | some parent =>
    [("node", .node nrow),
     ("edge", .edge (edgeRow cfg fm info .defines parent scope.nodeId synEv))]
  | none => [("node", .node nrow)]

/-- Close all dangling scopes in LIFO order. -/
def syntheticEnds (cfg : Config) (fm : FileMeta) (info : Option DriverInfo)
    (lastEv : Ev) : List Scope → List Out
  | [] => []
  | scope :: rest =>
    syntheticScopeEnd cfg fm info scope lastEv ++
      syntheticEnds cfg fm info lastEv rest

/-- normalize.normalize_parse_stream / Normalizer.normalize. -/
def build (cfg : Config) (ps : ParseStream) : List Out × List Anomaly :=
  let fm := ps.file
  let fnode := fileNode cfg fm ps.driver
  let fileId := fnode.id
  let head : List Out := [("node", .node fnode)]
  match ps.events with
  | none =>
    (head, [{ path := fm.path, blobSha := some fm.blobSha, kind := .parseFailed,
              severity := .error,
              detail := ps.error.getD "parse stream missing" }])
  | some evs =>
    if ¬ ps.ok then
      (head, [{ path := fm.path, blobSha := some fm.blobSha,
                kind := .parseFailed, severity := .error,
                detail := ps.error.getD "parse stream missing" }])
    else
      let (outs, ans, fin) := runEvents cfg fm ps.driver fileId {} evs
      match fin with
      | none => (head ++ outs, ans)
      | some st =>
        let lastEv : Ev :=
          { kind := .exit, type := "__eof__", byteStart := fm.sizeBytes,
            byteEnd := fm.sizeBytes, lineStart := 1, lineEnd := 1 }
        (head ++ outs ++ syntheticEnds cfg fm ps.driver lastEv st.scopeStack,
         ans)

end Ucg.Norm

namespace Ucg.Eff

/-- effects.EffectsConfig -/
structure Config where
  idSalt : String := "effects-v1"
  maxLiteralLen : Nat := 4096
  captureStringLiterals : Bool := true
  enableSqlHeuristic : Bool := true
  enableRouteHeuristic : Bool := true
deriving DecidableEq, Repr

/-- effects.EffectKind -/
inductive EffectKind
  | decorator | call | stringLiteral | sqlLike | routeLike | envLookup
  | throwLike | annotLike | unknown
deriving DecidableEq, Repr

def EffectKind.val : EffectKind → String
  | .decorator => "decorator"
  | .call => "call"
  | .stringLiteral => "string_literal"
  | .sqlLike => "sql_like"
  | .routeLike => "route_like"
  | .envLookup => "env_lookup"
  | .throwLike => "throw_like"
  | .annotLike => "annotation"
  | .unknown => "unknown_effect"

/-- A JSON scalar written into `args_json`/`attrs_json`. -/
inductive AV
  | s (v : String)
  | n (v : Nat)
  | b (v : Bool)
  | strs (v : List String)
deriving DecidableEq, Repr

/-- Compact-JSON dict payloads, modelled as association lists. -/
abbrev Attrs := List (String × AV)

/-- effects.EffectRow -/
structure EffectRow where
  id : SId
  kind : EffectKind
  carrier : String
  args : Attrs
  path : String
  lang : Lang
  attrs : Attrs
  prov : Prov
deriving DecidableEq, Repr

/-- effects._looks_string_token -/
def looksStringToken (lang : Lang) (tokenType : String) : Bool :=
  match lang with
  | .py => tokenType = "string" ∨ tokenType = "fstring" ∨ tokenType = "String" ∨
      tokenType = "STRING"
  | _ => tokenType = "string_fragment" ∨ tokenType = "string" ∨
      tokenType = "template_string" ∨ tokenType = "template_substitution"

/-- effects._safe_literal (disk read modelled by `ev.text`). -/
def safeLiteral (ev : Ev) (maxLen : Nat) : Option String :=
  if ev.byteEnd ≤ ev.byteStart ∨ ev.byteEnd - ev.byteStart > maxLen then none
  else
    let s := pyStrip ev.text
    if s.isEmpty then none else some s

/-- effects._safe_ident (disk read modelled by `ev.text`). -/
def safeIdent (ev : Ev) : Option String :=
  if ev.byteEnd ≤ ev.byteStart ∨ ev.byteEnd - ev.byteStart > 256 then none
  else
    let t := pyStrip ev.text
    if t.isEmpty then none
    else
      match t.data with
      | [] => none
      | c0 :: rest =>
        if ¬ (c0.isAlpha ∨ c0 = '_' ∨ c0 = '$') then none
        else if ¬ rest.all (fun ch => ch.isAlphanum ∨ ch = '_' ∨ ch = '$') then
          none
        else some t

/-- effects._qualified_from_window -/
def qualifiedFromWindow (win : List Ev) : Option String :=
  let rec go : List Ev → List String → List String
    | [], parts => parts
    | ev :: rest, parts =>
      if ev.kind ≠ .token then go rest parts
      else
        match safeIdent ev with
        | some tok =>
          let parts := tok :: parts
          if parts.length ≥ 4 then parts else go rest parts
        | none =>
          if ev.type = "." ∨ ev.type = "::" then go rest parts
          else parts
  let parts := go win.reverse []
  if parts.isEmpty then none else some (String.intercalate "." parts)

/-- effects._args_from_window -/
def argsFromWindow (lang : Lang) (win : List Ev) : Attrs :=
  let rec go : List Ev → List String → List String
    | [], vals => vals
    | ev :: rest, vals =>
      if ev.kind ≠ .token then go rest vals
      else
        let vals :=
          if looksStringToken lang ev.type then
            match safeLiteral ev 512 with
            | some lit => lit :: vals
            | none => vals
          else vals
        if vals.length ≥ 4 then vals else go rest vals
  let vals := go win.reverse []
  if vals.isEmpty then [] else [("literals", AV.strs vals)]

/-- effects._looks_sql -/
def looksSql (s : String) : Bool :=
  let sl := strToLower (pyStrip s)
  strStartsWith sl "select " ∨ strStartsWith sl "insert " ∨
    strStartsWith sl "update " ∨ strStartsWith sl "delete " ∨
    strStartsWith sl "with " ∨ pyContains sl " join "

/-- effects._looks_route -/
def looksRoute (s : String) : Bool :=
  let t := stripChars (pyStrip s) ['\'', '"']
  if ¬ strStartsWith t "/" then false
  else
    t.data.contains curlyOpen ∨ t.data.contains curlyClose ∨
      t.data.contains ':' ∨ (t.data.filter (fun c => c = '/')).length ≥ 2

/-- effects._is_throw_like -/
def isThrowLike (lang : Lang) (nodeType : String) : Bool :=
  match lang with
  | .py => nodeType = "Raise" ∨ nodeType = "raise_statement"
  | _ => nodeType = "throw_statement" ∨ nodeType = "throw"

/-- effects._mk_effect -/
def mkEffect (cfg : Config) (fm : FileMeta) (info : Option DriverInfo)
    (kind : EffectKind) (carrier : String) (args : Attrs) (ev : Ev)
    (attrs : Attrs) : EffectRow :=
  { id := [cfg.idSalt, "effect", fm.path, fm.blobSha, kind.val, carrier,
           toString ev.byteStart]
    kind := kind, carrier := carrier.take 256, args := args, path := fm.path,
    lang := fm.lang, attrs := attrs, prov := mkProv fm info ev }

/-- Mutable walker state of build_effects (window, pending callee, counters). -/
structure EState where
  tokenWindow : List Ev := []
  pendingCallee : Option (String × Ev) := none
  expectingCallParen : Bool := false
  total : Nat := 0
  t01 : Bool := false
deriving Repr

/-- Append to the 16-slot token window (list with pop(0) overflow). -/
def pushWindow (w : List Ev) (ev : Ev) : List Ev :=
  let w := w ++ [ev]
  if w.length > 16 then w.tail else w

/-- effects._py_effects_step (the trailing `os.environ` branch is kept even
though the earlier unconditional `return` for "Name" tokens shadows it). -/
def pyStep (cfg : Config) (fm : FileMeta) (info : Option DriverInfo)
    (st : EState) (ev : Ev) : EState × List EffectRow :=
  if ev.kind = .exit ∧ (ev.type = "Decorator" ∨ ev.type = "decorator") then
    match qualifiedFromWindow st.tokenWindow with
    | some carrier =>
      let row := mkEffect cfg fm info .decorator carrier
        (argsFromWindow fm.lang st.tokenWindow) ev
        [("lang", .s "py"), ("tier", .n 0)]
      ({ st with total := st.total + 1, t01 := true }, [row])
    | none => (st, [])
  else if ev.kind = .token ∧ (ev.type = "Name" ∨ ev.type = "identifier") then
    match safeIdent ev with
    | some name =>
      ({ st with pendingCallee := some (name, ev), expectingCallParen := true },
       [])
    | none => (st, [])
  else if st.expectingCallParen ∧ ev.kind = .token ∧
          (ev.type = "(" ∨ ev.type = "l_paren") then
    let (st, rows) :=
      match qualifiedFromWindow st.tokenWindow with
      | some carrier =>
        let isEnv := carrier = "os.getenv" ∨ carrier = "os.environ.get"
        let kind := if isEnv then EffectKind.envLookup else EffectKind.call
        let attrs : Attrs := [("callee_type", .s "identifier")]
        let attrs := if isEnv then attrs ++ [("tier", AV.n 0)] else attrs
        let row := mkEffect cfg fm info kind carrier
          (argsFromWindow fm.lang st.tokenWindow) ev attrs
        ({ st with total := st.total + 1, t01 := true }, [row])
      | none => (st, [])
    ({ st with pendingCallee := none, expectingCallParen := false }, rows)
  else if ev.kind = .token ∧ ev.type = "Name" then
    -- unreachable: the branch above for "Name" tokens always returns first
    match qualifiedFromWindow st.tokenWindow with
    | some q =>
      if strStartsWith q "os.environ" then
        let row := mkEffect cfg fm info .envLookup "os.environ" [] ev
          [("tier", .n 1)]
        ({ st with total := st.total + 1, t01 := true }, [row])
      else (st, [])
    | none => (st, [])
  else (st, [])

/-- effects._js_effects_step -/
def jsStep (cfg : Config) (fm : FileMeta) (info : Option DriverInfo)
    (st : EState) (ev : Ev) : EState × List EffectRow :=
  if ev.kind = .exit ∧ (ev.type = "decorator" ∨ ev.type = "legacy_decorator") then
    match qualifiedFromWindow st.tokenWindow with
    | some carrier =>
      let row := mkEffect cfg fm info .decorator carrier
        (argsFromWindow fm.lang st.tokenWindow) ev
        [("lang", .s "js"), ("tier", .n 0)]
      ({ st with total := st.total + 1, t01 := true }, [row])
    | none => (st, [])
  else if ev.kind = .token ∧ (ev.type = "identifier" ∨
          ev.type = "shorthand_property_identifier" ∨
          ev.type = "property_identifier") then
    match safeIdent ev with
    | some name =>
      ({ st with pendingCallee := some (name, ev), expectingCallParen := true },
       [])
    | none => (st, [])
  else if st.expectingCallParen ∧ ev.kind = .token ∧
          (ev.type = "(" ∨ ev.type = "l_paren") then
    let (st, rows) :=
      match qualifiedFromWindow st.tokenWindow with
      | some carrier =>
        let isEnv := strStartsWith carrier "process.env"
        let kind := if isEnv then EffectKind.envLookup else EffectKind.call
        let carrier := if isEnv then "process.env" else carrier
        let attrs : Attrs := [("callee_type", .s "identifier")]
        let attrs := if isEnv then attrs ++ [("tier", AV.n 0)] else attrs
        let attrs := if strEndsWith carrier "RouterModule.forRoot" ∨
                        strEndsWith carrier "RouterModule.forChild" then
            mset attrs "tier" (AV.n 0)
          else attrs
        let attrs := if pyContains carrier ".get" ∨ pyContains carrier ".post" ∨
                        strEndsWith carrier "fetch" ∨
                        pyContains carrier "HttpClient." then
            msetd attrs "tier" (AV.n 0)
          else attrs
        let row := mkEffect cfg fm info kind carrier
          (argsFromWindow fm.lang st.tokenWindow) ev attrs
        ({ st with total := st.total + 1, t01 := true }, [row])
      | none => (st, [])
    ({ st with pendingCallee := none, expectingCallParen := false }, rows)
  else (st, [])

/-- One iteration of the build_effects event loop: window push, language step,
throw/raise handling, string-literal capture. -/
def step (cfg : Config) (fm : FileMeta) (info : Option DriverInfo)
    (st : EState) (ev : Ev) : EState × List EffectRow :=
  let st := if ev.kind = .token then
      { st with tokenWindow := pushWindow st.tokenWindow ev }
    else st
  let (st, rows1) := if fm.lang = .py then pyStep cfg fm info st ev
    else jsStep cfg fm info st ev
  let (st, rows2) :=
    if ev.kind = .exit ∧ isThrowLike fm.lang ev.type then
      let carrier := if fm.lang = .py then "raise" else "throw"
      let row := mkEffect cfg fm info .throwLike carrier [] ev
        [("node_type", .s ev.type), ("tier", .n 0)]
      ({ st with total := st.total + 1, t01 := true }, [row])
    else (st, [])
  let (st, rows3) :=
    if cfg.captureStringLiterals ∧ ev.kind = .token ∧
       looksStringToken fm.lang ev.type then
      match safeLiteral ev cfg.maxLiteralLen with
      | some lit =>
        let attrs : Attrs :=
          [("token_type", .s ev.type), ("tier", .n 2), ("baseline", .b true)]
        let ek := if cfg.enableSqlHeuristic ∧ looksSql lit then
            EffectKind.sqlLike
          else if cfg.enableRouteHeuristic ∧ looksRoute lit then
            EffectKind.routeLike
          else EffectKind.stringLiteral
        let row := mkEffect cfg fm info ek "__string__" [("value", .s lit)] ev
          attrs
        ({ st with total := st.total + 1 }, [row])
      | none => (st, [])
    else (st, [])
  (st, rows1 ++ rows2 ++ rows3)

/-- The event loop, returning rows and the final counter state. -/
def runEvents (cfg : Config) (fm : FileMeta) (info : Option DriverInfo)
    (st : EState) : List Ev → List EffectRow × EState
  | [] => ([], st)
  | ev :: rest =>
    let (st1, rows) := step cfg fm info st ev
    let (rows2, fin) := runEvents cfg fm info st1 rest
    (rows ++ rows2, fin)

def tier2Anomaly (fm : FileMeta) : Anomaly :=
  { path := fm.path, blobSha := some fm.blobSha, kind := .unknown,
    severity := .warn, detail := "EFFECTS_TIER2_ONLY" }

/-- effects.build_effects: rows plus anomalies sent to the sink.  An empty
event list returns before the final tier check, exactly as the source. -/
def build (cfg : Config) (fm : FileMeta) (info : Option DriverInfo)
    (events : List Ev) : List EffectRow × List Anomaly :=
  if events.isEmpty then ([], [])
  else
    let (rows, fin) := runEvents cfg fm info {} events
    if fin.total > 0 ∧ fin.t01 = false then (rows, [tier2Anomaly fm])
    else (rows, [])

end Ucg.Eff

namespace Ucg.Store

/-- The file at the flush target path (fresh indexed name, initially absent). -/
structure FileOnDisk where
  numRows : Nat
  sizeBytes : Nat
deriving DecidableEq, Repr

/-- Outcome of `pq.write_table`: it may raise (possibly leaving a partial file
behind), or return with the file present or unexpectedly absent. -/
inductive WriteOutcome
  | raised (leftover : Option FileOnDisk)
  | wrote (f : Option FileOnDisk)
deriving DecidableEq, Repr

/-- Outcome of the `pq.read_table` read-back. -/
inductive ReadOutcome
  | raised
  | ok (numRows : Nat)
deriving DecidableEq, Repr

/-- Environment behaviour of the fallible steps in one `_verified_write`; the
embedding quantifies over it.  Deleting a file (`Path.unlink`) is modelled as
always succeeding — the source swallows unlink errors. -/
structure Oracle where
  toTableRaises : Bool
  writeOutcome : WriteOutcome
  readOutcome : ReadOutcome
deriving DecidableEq, Repr

/-- Result of `_verified_write`: the returned row count, or the RuntimeError. -/
inductive WriteResult
  | ok (rows : Nat)
  | err
deriving DecidableEq, Repr

/-- ucg_store.UcgStore._verified_write.  Arguments: the `max_bytes` budget and
current `_bytes_written` of the store, the buffered row count (`tbl.num_rows`
of the table built from the buffer), and the environment oracle.  Returns the
result, the final state of the target path, and the final `_bytes_written`. -/
def verifiedWrite (maxBytes : Option Nat) (bytesWritten : Nat) (bufRows : Nat)
    (o : Oracle) : WriteResult × Option FileOnDisk × Nat :=
  if o.toTableRaises then
    -- exception before any write: nothing on disk to clean, re-raise
    (.err, none, bytesWritten)
  else
    match o.writeOutcome with
    | .raised _ =>
      -- outer handler: remove the partial file if present, then re-raise
      (.err, none, bytesWritten)
    | .wrote none =>
      -- `not path.exists()` after the write: raise; nothing to delete
      (.err, none, bytesWritten)
    | .wrote (some f) =>
      if f.sizeBytes = 0 then
        -- empty file: raise; the outer handler deletes it
        (.err, none, bytesWritten)
      else
        match o.readOutcome with
        | .raised => (.err, none, bytesWritten)
        | .ok readRows =>
          if readRows ≠ bufRows then
            -- row-count mismatch: raise; the outer handler deletes the file
            (.err, none, bytesWritten)
          else
            let bw := bytesWritten + f.sizeBytes
            match maxBytes with
            | some mb =>
              if bw > mb then
                -- budget exceeded: roll back the accounting, unlink, raise
                (.err, none, bytesWritten)
              else (.ok bufRows, some f, bw)
            | none => (.ok bufRows, some f, bw)

end Ucg.Store

/-! Statement-support definitions: projections over emitted items, trace
checkers, and the concrete event streams used by counterexamples and
witnesses. -/

namespace Ucg.Dfg

/-- The func_id carried by a yielded row. -/
def outFuncId : Out → SId
  | (_, .node r) => r.funcId
  | (_, .edge r) => r.funcId

/-- The row id of a yielded item. -/
def outId : Out → SId
  | (_, .node r) => r.id
  | (_, .edge r) => r.id

def outNodeKind : Out → Option NodeKind
  | (_, .node r) => some r.kind
  | (_, .edge _) => none

def outEdgeKind : Out → Option EdgeKind
  | (_, .node _) => none
  | (_, .edge r) => some r.kind

def outVersion : Out → Option Nat
  | (_, .node r) => r.version
  | (_, .edge _) => none

def outEdgeSrc : Out → Option SId
  | (_, .node _) => none
  | (_, .edge r) => some r.srcId

/-- func_ids of all function ENTER events of a stream, in order. -/
def enterFuncIds (cfg : Config) (fm : FileMeta) (evs : List Ev) : List SId :=
  evs.filterMap (fun ev =>
    if ev.kind = .enter ∧ isFunction fm.lang ev.type then
      some (funcIdOf cfg fm ev.byteStart)
    else none)

/-- PARAM/VAR_DEF rows of one `(func_id, name)` in emission order, as
`(kind, version)` pairs. -/
def emittedFor (outs : List Out) (F : SId) (n : String) : List (NodeKind × Nat) :=
  outs.filterMap (fun o =>
    match o.2 with
    | .node r =>
      if r.funcId = F ∧ r.name = some n ∧ (r.kind = .param ∨ r.kind = .varDef)
      then some (r.kind, r.version.getD 0)
      else none
    | .edge _ => none)

/-- Just the versions of the PARAM/VAR_DEF rows of one `(func_id, name)`. -/
def emittedVersionsFor (outs : List Out) (F : SId) (n : String) : List Nat :=
  (emittedFor outs F n).map (·.2)

/-- Version-sequence checker state: whether a PARAM was seen, and the last
VAR_DEF version. -/
abbrev ChkSt := Bool × Option Nat

/-- One step of the version-sequence checker: PARAM rows must carry version 0
(and may repeat); a VAR_DEF must be one above the previous VAR_DEF, with the
first at 1 after a PARAM of the same name and at 0 otherwise. -/
def verStep (st : ChkSt) : NodeKind × Nat → Option ChkSt
  | (.param, v) => if v = 0 then some (true, st.2) else none
  | (.varDef, v) =>
    let req := match st.2 with
      | some d => d + 1
      | none => if st.1 then 1 else 0
    if v = req then some (st.1, some v) else none
  | _ => some st

/-- Run the version-sequence checker; `none` means the sequence is invalid. -/
def runChecker (st : ChkSt) : List (NodeKind × Nat) → Option ChkSt
  | [] => some st
  | p :: rest =>
    match verStep st p with
    | some st' => runChecker st' rest
    | none => none

/-- The version the checker state predicts as "current" (mirrors the
`versions` dict entry). -/
def verOf (st : ChkSt) : Option Nat :=
  match st.2 with
  | some d => some d
  | none => if st.1 then some 0 else none

end Ucg.Dfg

namespace Ucg.Sym

/-- Second invariant of C7 as a scan: any `assign`/`reexport`/`import` alias
with a non-empty target must point at a symbol row emitted strictly earlier
in the same file's output. -/
def checkAliasSound (seen : List SId) : List Out → Bool
  | [] => true
  | (_, .symbol s) :: rest => checkAliasSound (s.id :: seen) rest
  | (_, .alias a) :: rest =>
    (if a.aliasKind = .assign ∨ a.aliasKind = .reexport ∨ a.aliasKind = .imp
     then decide (a.targetSymbolId = []) || seen.contains a.targetSymbolId
     else true) && checkAliasSound seen rest

/-- First invariant of C7: non-dynamic aliases carry a non-empty target. -/
def checkAliasNonEmpty (outs : List Out) : Bool :=
  outs.all (fun o =>
    match o.2 with
    | .alias a => decide (a.aliasKind = .dynamic) ||
        decide (a.targetSymbolId ≠ [])
    | .symbol _ => true)

/-- The symbol-id accumulator of the `checkAliasSound` scan after a block of
rows. -/
def seenAfter (seen : List SId) (outs : List Out) : List SId :=
  outs.foldl (fun acc o =>
    match o.2 with
    | .symbol s => s.id :: acc
    | .alias _ => acc) seen

/-- The sym_index only maps to ids of symbols the scan has already passed. -/
def SymOK (st : BState) (seen : List SId) : Prop :=
  ∀ k v, mget st.symIndex k = some v → seen.contains v = true

/-- C1 scan: no emitted alias row carries kind `assign`. -/
def checkNoAssign (outs : List Out) : Bool :=
  outs.all (fun o =>
    match o.2 with
    | .alias a => decide (a.aliasKind ≠ .assign)
    | .symbol _ => true)

/-- Count of `assign`-kind alias rows. -/
def countAssignAliases (outs : List Out) : Nat :=
  outs.countP (fun o =>
    match o.2 with
    | .alias a => a.aliasKind = .assign
    | .symbol _ => false)

end Ucg.Sym

namespace Ucg.Norm

/-- The row id of a yielded item. -/
def outId : Out → SId
  | (_, .node r) => r.id
  | (_, .edge r) => r.id

end Ucg.Norm

namespace Ucg.Eff

/-- A row labelled tier 2 in its attrs (the baseline string-literal tier). -/
def isTier2 (r : EffectRow) : Bool := mget r.attrs "tier" = some (AV.n 2)

end Ucg.Eff

namespace Ucg

/-- A FileMeta used by the concrete scenarios. -/
def exFm : FileMeta :=
  { path := "t.py", blobSha := "blobA", sizeBytes := 200, mtimeNs := 7,
    runId := "run1", configHash := "cfg1", isText := true, lang := .py }

/-- `x = 1` then `x = x + 1` inside a function: the event stream the Python
libcst driver shape produces for the two assignments (RHS tokens follow the
LHS token in byte order). -/
def exSelfAssignEvents : List Ev :=
  [ { kind := .enter, type := "FunctionDef", byteStart := 0, byteEnd := 60,
      lineStart := 1, lineEnd := 5 },
    { kind := .enter, type := "Assign", byteStart := 10, byteEnd := 16,
      lineStart := 2, lineEnd := 2 },
    { kind := .token, type := "Name", byteStart := 10, byteEnd := 11,
      lineStart := 2, lineEnd := 2, text := "x" },
    { kind := .token, type := "Integer", byteStart := 14, byteEnd := 15,
      lineStart := 2, lineEnd := 2, text := "1" },
    { kind := .exit, type := "Assign", byteStart := 10, byteEnd := 16,
      lineStart := 2, lineEnd := 2 },
    { kind := .enter, type := "Assign", byteStart := 20, byteEnd := 29,
      lineStart := 3, lineEnd := 3 },
    { kind := .token, type := "Name", byteStart := 20, byteEnd := 21,
      lineStart := 3, lineEnd := 3, text := "x" },
    { kind := .token, type := "Name", byteStart := 24, byteEnd := 25,
      lineStart := 3, lineEnd := 3, text := "x" },
    { kind := .token, type := "Integer", byteStart := 28, byteEnd := 29,
      lineStart := 3, lineEnd := 3, text := "1" },
    { kind := .exit, type := "Assign", byteStart := 20, byteEnd := 29,
      lineStart := 3, lineEnd := 3 },
    { kind := .exit, type := "FunctionDef", byteStart := 0, byteEnd := 60,
      lineStart := 1, lineEnd := 5 } ]

def exSelfAssignPs : ParseStream :=
  { file := exFm, driver := none, events := some exSelfAssignEvents, ok := true }

/-- The same file observed at a different mtime: only the timestamp differs. -/
def exSelfAssignLaterPs : ParseStream :=
  { file := { exFm with mtimeNs := 999999 }, driver := none,
    events := some exSelfAssignEvents, ok := true }

/-- `def f(a, b=a): pass`: the parameter list contains the Name token `a`
twice (the parameter and the default value). -/
def exDupParamEvents : List Ev :=
  [ { kind := .enter, type := "FunctionDef", byteStart := 0, byteEnd := 25,
      lineStart := 1, lineEnd := 1 },
    { kind := .enter, type := "Parameters", byteStart := 6, byteEnd := 13,
      lineStart := 1, lineEnd := 1 },
    { kind := .token, type := "Name", byteStart := 6, byteEnd := 7,
      lineStart := 1, lineEnd := 1, text := "a" },
    { kind := .token, type := "Name", byteStart := 9, byteEnd := 10,
      lineStart := 1, lineEnd := 1, text := "b" },
    { kind := .token, type := "Name", byteStart := 11, byteEnd := 12,
      lineStart := 1, lineEnd := 1, text := "a" },
    { kind := .exit, type := "Parameters", byteStart := 6, byteEnd := 13,
      lineStart := 1, lineEnd := 1 },
    { kind := .exit, type := "FunctionDef", byteStart := 0, byteEnd := 25,
      lineStart := 1, lineEnd := 1 } ]

def exDupParamPs : ParseStream :=
  { file := exFm, driver := none, events := some exDupParamEvents, ok := true }

/-- A lone use of `y`, never defined in the function. -/
def exUndefUseEvents : List Ev :=
  [ { kind := .enter, type := "FunctionDef", byteStart := 0, byteEnd := 30,
      lineStart := 1, lineEnd := 2 },
    { kind := .token, type := "Name", byteStart := 10, byteEnd := 11,
      lineStart := 2, lineEnd := 2, text := "y" },
    { kind := .exit, type := "FunctionDef", byteStart := 0, byteEnd := 30,
      lineStart := 1, lineEnd := 2 } ]

def exUndefUsePs : ParseStream :=
  { file := exFm, driver := none, events := some exUndefUseEvents, ok := true }

/-- Scenario (c) of the spec: `original = get(); aliased = original;
processed = aliased.process()` inside `def a():`. -/
def exAliasEvents : List Ev :=
  [ { kind := .enter, type := "FunctionDef", byteStart := 0, byteEnd := 110,
      lineStart := 1, lineEnd := 4 },
    { kind := .enter, type := "Parameters", byteStart := 6, byteEnd := 6,
      lineStart := 1, lineEnd := 1 },
    { kind := .exit, type := "Parameters", byteStart := 6, byteEnd := 6,
      lineStart := 1, lineEnd := 1 },
    { kind := .enter, type := "Assign", byteStart := 13, byteEnd := 31,
      lineStart := 2, lineEnd := 2 },
    { kind := .token, type := "Name", byteStart := 13, byteEnd := 21,
      lineStart := 2, lineEnd := 2, text := "original" },
    { kind := .enter, type := "Call", byteStart := 24, byteEnd := 30,
      lineStart := 2, lineEnd := 2 },
    { kind := .token, type := "Name", byteStart := 24, byteEnd := 27,
      lineStart := 2, lineEnd := 2, text := "get" },
    { kind := .exit, type := "Call", byteStart := 24, byteEnd := 30,
      lineStart := 2, lineEnd := 2 },
    { kind := .exit, type := "Assign", byteStart := 13, byteEnd := 31,
      lineStart := 2, lineEnd := 2 },
    { kind := .enter, type := "Assign", byteStart := 36, byteEnd := 55,
      lineStart := 3, lineEnd := 3 },
    { kind := .token, type := "Name", byteStart := 36, byteEnd := 43,
      lineStart := 3, lineEnd := 3, text := "aliased" },
    { kind := .token, type := "Name", byteStart := 47, byteEnd := 55,
      lineStart := 3, lineEnd := 3, text := "original" },
    { kind := .exit, type := "Assign", byteStart := 36, byteEnd := 55,
      lineStart := 3, lineEnd := 3 },
    { kind := .enter, type := "Assign", byteStart := 60, byteEnd := 89,
      lineStart := 4, lineEnd := 4 },
    { kind := .token, type := "Name", byteStart := 60, byteEnd := 69,
      lineStart := 4, lineEnd := 4, text := "processed" },
    { kind := .enter, type := "Call", byteStart := 72, byteEnd := 89,
      lineStart := 4, lineEnd := 4 },
    { kind := .token, type := "Attribute", byteStart := 72, byteEnd := 87,
      lineStart := 4, lineEnd := 4, text := "aliased.process" },
    { kind := .exit, type := "Call", byteStart := 72, byteEnd := 89,
      lineStart := 4, lineEnd := 4 },
    { kind := .exit, type := "Assign", byteStart := 60, byteEnd := 89,
      lineStart := 4, lineEnd := 4 },
    { kind := .exit, type := "FunctionDef", byteStart := 0, byteEnd := 110,
      lineStart := 1, lineEnd := 4 } ]

def exAliasPs : ParseStream :=
  { file := exFm, driver := none, events := some exAliasEvents, ok := true }

/-- A call at class body level: `class C:` with `x = foo()` in the body and
no enclosing function. -/
def exClassCallEvents : List Ev :=
  [ { kind := .enter, type := "Module", byteStart := 0, byteEnd := 60,
      lineStart := 1, lineEnd := 3 },
    { kind := .enter, type := "ClassDef", byteStart := 5, byteEnd := 40,
      lineStart := 1, lineEnd := 2 },
    { kind := .token, type := "Name", byteStart := 11, byteEnd := 12,
      lineStart := 1, lineEnd := 1, text := "C" },
    { kind := .enter, type := "Call", byteStart := 21, byteEnd := 26,
      lineStart := 2, lineEnd := 2 },
    { kind := .token, type := "Name", byteStart := 21, byteEnd := 24,
      lineStart := 2, lineEnd := 2, text := "foo" },
    { kind := .exit, type := "Call", byteStart := 21, byteEnd := 26,
      lineStart := 2, lineEnd := 2 },
    { kind := .exit, type := "ClassDef", byteStart := 5, byteEnd := 40,
      lineStart := 1, lineEnd := 2 },
    { kind := .exit, type := "Module", byteStart := 0, byteEnd := 60,
      lineStart := 1, lineEnd := 3 } ]

def exClassCallPs : ParseStream :=
  { file := exFm, driver := none, events := some exClassCallEvents, ok := true }

/-- A single short string literal token: the effects builder emits one tier-2
row and nothing else. -/
def exTier2Events : List Ev :=
  [ { kind := .token, type := "string", byteStart := 0, byteEnd := 7,
      lineStart := 1, lineEnd := 1, text := "'hello'" } ]

end Ucg

namespace Ucg.Norm

/-- The kind slot of a start-based node id (all node ids carry "node" in the
tag slot and the NodeKind string in the third slot). -/
def srcKindOf : SId → Option String
  | [_, tag, kind, _, _, _] => if tag = "node" then some kind else none
  | _ => none

/-- A CALLS source id acceptable to the amended claim: the file node or a
module / class / function scope node of the same file layout. -/
def goodCallSrc (s : SId) : Bool :=
  match srcKindOf s with
  | some k => ["file", "module", "class", "function"].contains k
  | none => false

/-- The caller / fallback ids recorded on a pending construct are good. -/
def pendGood (p : Pending) : Bool :=
  (match p.wantEdgeFrom with | some s => goodCallSrc s | none => true) &&
  (match p.callSrcFallback with | some s => goodCallSrc s | none => true)

/-- Walker-state invariant feeding CALLS sources: every open scope node id
and every pending construct's recorded caller / fallback id is good. -/
def stateGood (st : NState) : Bool :=
  st.scopeStack.all (fun s => goodCallSrc s.nodeId) && st.pendStack.all pendGood

/-- Every CALLS edge in a normalizer output list has a good source id. -/
def checkCallsSrc (outs : List Out) : Bool :=
  outs.all (fun o =>
    match o.2 with
    | .edge e => if e.kind = EdgeKind.calls then goodCallSrc e.srcId else true
    | .node _ => true)

end Ucg.Norm

namespace Ucg.Cfg

/-- cfg.CfgConfig -/
structure Config where
  idSalt : String := "cfg-v1"
  maxBlocksPerFunc : Nat := 20000
  enableTryEdges : Bool := true
deriving DecidableEq, Repr

/-- cfg.BlockKind -/
inductive BlockKind
  | entry | predicate | body | handler | exitB
deriving DecidableEq, Repr

def BlockKind.val : BlockKind → String
  | .entry => "entry"
  | .predicate => "predicate"
  | .body => "body"
  | .handler => "handler"
  | .exitB => "exit"

/-- cfg.CfgEdgeKind -/
inductive CfgEdgeKind
  | next | onTrue | onFalse | exception | ret
deriving DecidableEq, Repr

def CfgEdgeKind.val : CfgEdgeKind → String
  | .next => "next"
  | .onTrue => "true"
  | .onFalse => "false"
  | .exception => "exception"
  | .ret => "return"

/-- cfg.BlockRow (cfg.CfgProvenance has exactly the shared Prov fields;
`attrs_json` is modelled as its key/value pairs). -/
structure BlockRow where
  id : SId
  funcId : SId
  kind : BlockKind
  index : Nat
  path : String
  lang : Lang
  attrs : List (String × String)
  prov : Prov
deriving DecidableEq, Repr

/-- cfg.CfgEdgeRow -/
structure CfgEdgeRow where
  id : SId
  funcId : SId
  kind : CfgEdgeKind
  srcBlockId : SId
  dstBlockId : SId
  path : String
  lang : Lang
  attrs : List (String × String)
  prov : Prov
deriving DecidableEq, Repr

/-! cfg._Adapter per-language sets. -/

def functionNodes : Lang → List String
  | .py => ["FunctionDef", "AsyncFunctionDef", "Lambda"]
  | _ => ["function_declaration", "function_expression", "method_definition",
          "arrow_function"]

def ifNodes : Lang → List String
  | .py => ["If"]
  | _ => ["if_statement", "conditional_expression"]

def whileNodes : Lang → List String
  | .py => ["While"]
  | _ => ["while_statement", "do_statement"]

def forNodes : Lang → List String
  | .py => ["For"]
  | _ => ["for_statement", "for_in_statement", "for_of_statement"]

def tryNodes : Lang → List String
  | .py => ["Try"]
  | _ => ["try_statement"]

def returnNodes : Lang → List String
  | .py => ["Return"]
  | _ => ["return_statement"]

def raiseNodes : Lang → List String
  | .py => ["Raise"]
  | _ => ["throw_statement"]

def switchNodes : Lang → List String
  | .py => []
  | _ => ["switch_statement"]

def catchNodes : Lang → List String
  | .py => ["ExceptHandler"]
  | _ => ["catch_clause"]

def finallyNodes : Lang → List String
  | .py => ["Finally"]
  | _ => ["finally_clause"]

def isFunction (l : Lang) (t : String) : Bool := (functionNodes l).contains t
def isIf (l : Lang) (t : String) : Bool := (ifNodes l).contains t
def isWhile (l : Lang) (t : String) : Bool := (whileNodes l).contains t
def isFor (l : Lang) (t : String) : Bool := (forNodes l).contains t
def isTry (l : Lang) (t : String) : Bool := (tryNodes l).contains t
def isReturn (l : Lang) (t : String) : Bool := (returnNodes l).contains t
def isThrow (l : Lang) (t : String) : Bool := (raiseNodes l).contains t
def isSwitch (l : Lang) (t : String) : Bool := (switchNodes l).contains t
def isCatch (l : Lang) (t : String) : Bool := (catchNodes l).contains t
def isFinally (l : Lang) (t : String) : Bool := (finallyNodes l).contains t

/-- cfg._is_predicate -/
def isPredicate (l : Lang) (t : String) : Bool :=
  isIf l t ∨ isWhile l t ∨ isFor l t ∨ isSwitch l t

/-- cfg._has_dual_outcomes -/
def hasDualOutcomes (l : Lang) (t : String) : Bool := isIf l t ∨ isSwitch l t

/-- cfg._matches_close -/
def matchesClose (openT closeT : String) : Bool := openT = closeT

/-- cfg._is_try_related -/
def isTryRelated (l : Lang) (t : String) : Bool :=
  isTry l t ∨ isCatch l t ∨ isFinally l t

/-- cfg._FuncState (the builder mutates the top of `func_stack` in place;
the embedding replaces the head of the list). -/
structure FuncState where
  funcId : SId
  entryId : SId
  exitId : SId
  currentBlockId : SId
  nextIndex : Nat
  blockCount : Nat
  ctrlStack : List (String × SId)
deriving DecidableEq, Repr

/-- A yielded item; build tags tuples with "cfg_block" / "cfg_edge". -/
inductive Item
  | block (r : BlockRow)
  | edge (r : CfgEdgeRow)
deriving DecidableEq, Repr

abbrev Out := String × Item

/-- CfgBuilder.build.new_block_id -/
def newBlockId (cfg : Config) (fm : FileMeta) (funcId : SId) (idx : Nat) :
    SId :=
  [cfg.idSalt, "block", fm.path, fm.blobSha, sidStr funcId, toString idx]

/-- CfgBuilder.build.block_row (returns the row and the state with the
incremented counters). -/
def blockRow (cfg : Config) (fm : FileMeta) (info : Option DriverInfo)
    (func : FuncState) (kind : BlockKind) (ev : Ev)
    (attrs : List (String × String)) : BlockRow × FuncState :=
  let bid := newBlockId cfg fm func.funcId func.nextIndex
  let row : BlockRow :=
    { id := bid, funcId := func.funcId, kind := kind, index := func.nextIndex,
      path := fm.path, lang := fm.lang, attrs := attrs,
      prov := mkProv fm info ev }
  (row, { func with nextIndex := func.nextIndex + 1, blockCount := func.blockCount + 1 })

/-- CfgBuilder.build.edge_row -/
def edgeRow (cfg : Config) (fm : FileMeta) (info : Option DriverInfo)
    (func : FuncState) (kind : CfgEdgeKind) (src dst : SId) (ev : Ev)
    (attrs : List (String × String)) : CfgEdgeRow :=
  { id := [cfg.idSalt, "edge", fm.path, fm.blobSha, sidStr func.funcId,
           sidStr src, sidStr dst, kind.val, toString ev.byteStart]
    funcId := func.funcId, kind := kind, srcBlockId := src, dstBlockId := dst,
    path := fm.path, lang := fm.lang, attrs := attrs, prov := mkProv fm info ev }

def overflowAnomaly (cfg : Config) (fm : FileMeta) (func : FuncState)
    (ev : Ev) : Anomaly :=
  { path := fm.path, blobSha := some fm.blobSha, kind := .memoryLimit,
    severity := .error,
    detail := "CFG blocks exceeded limit (" ++ toString cfg.maxBlocksPerFunc ++
      ") for function " ++ sidStr func.funcId,
    span := some (ev.byteStart, ev.byteEnd) }

/-- One iteration of the CfgBuilder.build event loop. -/
def step (cfg : Config) (fm : FileMeta) (info : Option DriverInfo)
    (stack : List FuncState) (ev : Ev) :
    List FuncState × List Out × List Anomaly :=
  if ev.kind = .enter ∧ isFunction fm.lang ev.type then
    let funcId : SId :=
      [cfg.idSalt, "func", fm.path, fm.blobSha, toString ev.byteStart]
    let entryTmp : SId :=
      [cfg.idSalt, "entry", fm.path, fm.blobSha, sidStr funcId]
    let exitTmp : SId :=
      [cfg.idSalt, "exit", fm.path, fm.blobSha, sidStr funcId]
    let state : FuncState :=
      { funcId := funcId, entryId := entryTmp, exitId := exitTmp,
        currentBlockId := [], nextIndex := 0, blockCount := 0, ctrlStack := [] }
    let (bEntry, state) := blockRow cfg fm info state .entry ev
      [("type", ev.type)]
    let state := { state with currentBlockId := bEntry.id }
    (state :: stack, [("cfg_block", Item.block bEntry)], [])
  else
    match stack with
    | [] => (stack, [], [])
    | func :: rest =>
      if func.blockCount > cfg.maxBlocksPerFunc then
        let bExit : BlockRow :=
          { id := [cfg.idSalt, "block", fm.path, fm.blobSha,
                   sidStr func.funcId, "exit_overflow"]
            funcId := func.funcId, kind := .exitB, index := func.nextIndex,
            path := fm.path, lang := fm.lang,
            attrs := [("synthetic", "true"), ("reason", "overflow")],
            prov := mkProv fm info ev }
        (rest,
         [("cfg_block", Item.block bExit),
          ("cfg_edge", Item.edge (edgeRow cfg fm info func .next
            func.currentBlockId bExit.id ev []))],
         [overflowAnomaly cfg fm func ev])
      else
        match ev.kind with
        | .enter =>
          if isPredicate fm.lang ev.type then
            let (bPred, func) := blockRow cfg fm info func .predicate ev
              [("type", ev.type)]
            let outs := if func.currentBlockId ≠ bPred.id then
                [(("cfg_edge" : String), Item.edge (edgeRow cfg fm info func
                  .next func.currentBlockId bPred.id ev []))]
              else []
            let func := { func with currentBlockId := bPred.id }
            let func := { func with ctrlStack := (ev.type, bPred.id) :: func.ctrlStack }
            (func :: rest, outs, [])
          else if isReturn fm.lang ev.type then
            let (bBody, func) := blockRow cfg fm info func .body ev
              [("type", ev.type)]
            let e1 := edgeRow cfg fm info func .next func.currentBlockId
              bBody.id ev []
            let (bExit, func) := blockRow cfg fm info func .exitB ev
              [("type", "exit")]
            let e2 := edgeRow cfg fm info func .ret bBody.id bExit.id ev []
            let func := { func with currentBlockId := bExit.id }
            (func :: rest,
             [("cfg_edge", Item.edge e1), ("cfg_block", Item.block bBody),
              ("cfg_block", Item.block bExit), ("cfg_edge", Item.edge e2)], [])
          else if isThrow fm.lang ev.type then
            let (bBody, func) := blockRow cfg fm info func .body ev
              [("type", ev.type)]
            let e1 := edgeRow cfg fm info func .next func.currentBlockId
              bBody.id ev []
            let (bExit, func) := blockRow cfg fm info func .exitB ev
              [("type", "exit")]
            let e2 := edgeRow cfg fm info func .exception bBody.id bExit.id
              ev []
            let func := { func with currentBlockId := bExit.id }
            (func :: rest,
             [("cfg_edge", Item.edge e1), ("cfg_block", Item.block bBody),
              ("cfg_block", Item.block bExit), ("cfg_edge", Item.edge e2)], [])
          else (func :: rest, [], [])
        | .exit =>
          if isFunction fm.lang ev.type then
            let bExit : BlockRow :=
              { id := [cfg.idSalt, "block", fm.path, fm.blobSha,
                       sidStr func.funcId, "exit"]
                funcId := func.funcId, kind := .exitB,
                index := func.nextIndex, path := fm.path, lang := fm.lang,
                attrs := [("type", "exit")], prov := mkProv fm info ev }
            let outs := [(("cfg_block" : String), Item.block bExit)] ++
              (if func.currentBlockId ≠ bExit.id then
                [(("cfg_edge" : String), Item.edge (edgeRow cfg fm info func
                  .next func.currentBlockId bExit.id ev []))]
              else [])
            (rest, outs, [])
          else
            let (func, outs1) :=
              match func.ctrlStack with
              | (topType, predId) :: ctrlRest =>
                if matchesClose topType ev.type then
                  let func := { func with ctrlStack := ctrlRest }
                  if hasDualOutcomes fm.lang topType then
                    let bTrue : BlockRow :=
                      { id := [cfg.idSalt, "block", fm.path, fm.blobSha,
                               sidStr func.funcId, "true@" ++ sidStr predId ++
                               "@" ++ toString ev.byteEnd]
                        funcId := func.funcId, kind := .body,
                        index := func.nextIndex, path := fm.path,
                        lang := fm.lang,
                        attrs := [("arm", "true"), ("of", topType)],
                        prov := mkProv fm info ev }
                    let func := { func with nextIndex := func.nextIndex + 1, blockCount := func.blockCount + 1 }
                    let bFalse : BlockRow :=
                      { id := [cfg.idSalt, "block", fm.path, fm.blobSha,
                               sidStr func.funcId, "false@" ++ sidStr predId ++
                               "@" ++ toString ev.byteEnd]
                        funcId := func.funcId, kind := .body,
                        index := func.nextIndex, path := fm.path,
                        lang := fm.lang,
                        attrs := [("arm", "false"), ("of", topType)],
                        prov := mkProv fm info ev }
                    let func := { func with nextIndex := func.nextIndex + 1, blockCount := func.blockCount + 1 }
                    let bMerge : BlockRow :=
                      { id := [cfg.idSalt, "block", fm.path, fm.blobSha,
                               sidStr func.funcId, "merge@" ++
                               toString ev.byteEnd]
                        funcId := func.funcId, kind := .body,
                        index := func.nextIndex, path := fm.path,
                        lang := fm.lang, attrs := [("merge", topType)],
                        prov := mkProv fm info ev }
                    let func := { func with nextIndex := func.nextIndex + 1, blockCount := func.blockCount + 1 }
                    ({ func with currentBlockId := bMerge.id },
                     [("cfg_block", Item.block bTrue), ("cfg_block", Item.block bFalse),
                      ("cfg_edge", Item.edge (edgeRow cfg fm info func .onTrue
                        predId bTrue.id ev [])),
                      ("cfg_edge", Item.edge (edgeRow cfg fm info func .onFalse
                        predId bFalse.id ev [])),
                      ("cfg_block", Item.block bMerge),
                      ("cfg_edge", Item.edge (edgeRow cfg fm info func .next
                        bTrue.id bMerge.id ev [])),
                      ("cfg_edge", Item.edge (edgeRow cfg fm info func .next
                        bFalse.id bMerge.id ev []))])
                  else
                    let bBody : BlockRow :=
                      { id := [cfg.idSalt, "block", fm.path, fm.blobSha,
                               sidStr func.funcId, "loop_body@" ++
                               sidStr predId ++ "@" ++ toString ev.byteEnd]
                        funcId := func.funcId, kind := .body,
                        index := func.nextIndex, path := fm.path,
                        lang := fm.lang,
                        attrs := [("arm", "body"), ("of", topType)],
                        prov := mkProv fm info ev }
                    let func := { func with nextIndex := func.nextIndex + 1, blockCount := func.blockCount + 1 }
                    let bAfter : BlockRow :=
                      { id := [cfg.idSalt, "block", fm.path, fm.blobSha,
                               sidStr func.funcId, "after_loop@" ++
                               toString ev.byteEnd]
                        funcId := func.funcId, kind := .body,
                        index := func.nextIndex, path := fm.path,
                        lang := fm.lang,
                        attrs := [("arm", "after"), ("of", topType)],
                        prov := mkProv fm info ev }
                    let func := { func with nextIndex := func.nextIndex + 1, blockCount := func.blockCount + 1 }
                    ({ func with currentBlockId := bAfter.id },
                     [("cfg_block", Item.block bBody), ("cfg_block", Item.block bAfter),
                      ("cfg_edge", Item.edge (edgeRow cfg fm info func .onTrue
                        predId bBody.id ev [])),
                      ("cfg_edge", Item.edge (edgeRow cfg fm info func .onFalse
                        predId bAfter.id ev [])),
                      ("cfg_edge", Item.edge (edgeRow cfg fm info func .next
                        bBody.id predId ev []))])
                else (func, [])
              | [] => (func, [])
            let (func, outs2) :=
              if cfg.enableTryEdges ∧ isTryRelated fm.lang ev.type then
                let bHandler : BlockRow :=
                  { id := [cfg.idSalt, "block", fm.path, fm.blobSha,
                           sidStr func.funcId, "handler@" ++
                           toString ev.byteEnd]
                    funcId := func.funcId, kind := .handler,
                    index := func.nextIndex, path := fm.path, lang := fm.lang,
                    attrs := [("type", ev.type)], prov := mkProv fm info ev }
                let func := { func with nextIndex := func.nextIndex + 1, blockCount := func.blockCount + 1 }
                let eExc := edgeRow cfg fm info func .exception
                  func.currentBlockId bHandler.id ev []
                let bAfter : BlockRow :=
                  { id := [cfg.idSalt, "block", fm.path, fm.blobSha,
                           sidStr func.funcId, "after_handler@" ++
                           toString ev.byteEnd]
                    funcId := func.funcId, kind := .body,
                    index := func.nextIndex, path := fm.path, lang := fm.lang,
                    attrs := [("after", ev.type)], prov := mkProv fm info ev }
                let func := { func with nextIndex := func.nextIndex + 1, blockCount := func.blockCount + 1 }
                let eNext := edgeRow cfg fm info func .next bHandler.id
                  bAfter.id ev []
                ({ func with currentBlockId := bAfter.id },
                 [("cfg_block", Item.block bHandler), ("cfg_edge", Item.edge eExc),
                  ("cfg_block", Item.block bAfter), ("cfg_edge", Item.edge eNext)])
              else (func, [])
            (func :: rest, outs1 ++ outs2, [])
        | .token => (func :: rest, [], [])

/-- The event loop, returning the leftover function stack. -/
def runEvents (cfg : Config) (fm : FileMeta) (info : Option DriverInfo)
    (stack : List FuncState) : List Ev → List Out × List Anomaly × List FuncState
  | [] => ([], [], stack)
  | ev :: rest =>
    let (stack1, outs, ans) := step cfg fm info stack ev
    let (outs2, ans2, fin) := runEvents cfg fm info stack1 rest
    (outs ++ outs2, ans ++ ans2, fin)

/-- CfgBuilder.build's trailing while loop: synthesize an EXIT for every
function that never closed. -/
def synthEnd (cfg : Config) (fm : FileMeta) (info : Option DriverInfo)
    (func : FuncState) : List Out :=
  let synEv : Ev :=
    { kind := .exit, type := "__synthetic__", byteStart := 0, byteEnd := 0,
      lineStart := 1, lineEnd := 1 }
  let bExit : BlockRow :=
    { id := [cfg.idSalt, "block", fm.path, fm.blobSha, sidStr func.funcId,
             "exit_synth"]
      funcId := func.funcId, kind := .exitB, index := func.nextIndex,
      path := fm.path, lang := fm.lang, attrs := [("synthetic", "true")],
      prov := mkProv fm info synEv }
  [("cfg_block", Item.block bExit),
   ("cfg_edge", .edge
     { id := [cfg.idSalt, "edge", fm.path, fm.blobSha, sidStr func.funcId,
              sidStr func.currentBlockId, sidStr bExit.id, "next", "synth"]
       funcId := func.funcId, kind := .next,
       srcBlockId := func.currentBlockId, dstBlockId := bExit.id,
       path := fm.path, lang := fm.lang, attrs := [("synthetic", "true")],
       prov := bExit.prov })]

def synthEnds (cfg : Config) (fm : FileMeta) (info : Option DriverInfo) :
    List FuncState → List Out
  | [] => []
  | func :: rest => synthEnd cfg fm info func ++ synthEnds cfg fm info rest

/-- cfg.build_cfg / CfgBuilder.build: rows plus anomalies sent to the sink. -/
def build (cfg : Config) (ps : ParseStream) : List Out × List Anomaly :=
  let fm := ps.file
  match ps.events with
  | none =>
    ([], [{ path := fm.path, blobSha := some fm.blobSha, kind := .parseFailed,
            severity := .error,
            detail := ps.error.getD "parse stream missing" }])
  | some evs =>
    if ¬ ps.ok then
      ([], [{ path := fm.path, blobSha := some fm.blobSha,
              kind := .parseFailed, severity := .error,
              detail := ps.error.getD "parse stream missing" }])
    else
      let (outs, ans, fin) := runEvents cfg fm ps.driver [] evs
      (outs ++ synthEnds cfg fm ps.driver fin, ans)

end Ucg.Cfg

/-! ## Theorems -/

namespace Ucg

/-- C8: `_verified_write` reads back the written table and verifies the row
count against the buffered table; on any failure — a raising table build, a
raising or vanishing write, an empty file, a raising read-back, a row-count
mismatch, or an exceeded `max_bytes` budget — the partial file is deleted,
the byte accounting is restored, and the error is raised, so no partial file
survives a failed flush.  A successful flush returns exactly the buffered row
count, which the read-back confirmed. -/
theorem c8_verified_write_cleanup (maxBytes : Option Nat)
    (bytesWritten bufRows : Nat) (o : Store.Oracle) :
    ((Store.verifiedWrite maxBytes bytesWritten bufRows o).1 = .err →
      (Store.verifiedWrite maxBytes bytesWritten bufRows o).2.1 = none ∧
      (Store.verifiedWrite maxBytes bytesWritten bufRows o).2.2 = bytesWritten) ∧
    (∀ n, (Store.verifiedWrite maxBytes bytesWritten bufRows o).1 = .ok n →
      n = bufRows ∧ o.readOutcome = .ok bufRows ∧
      ∃ f, o.writeOutcome = .wrote (some f) ∧ 0 < f.sizeBytes ∧
        (Store.verifiedWrite maxBytes bytesWritten bufRows o).2.1 = some f) := by
  unfold Store.verifiedWrite
  obtain ⟨tt, w, r⟩ := o
  constructor
  · intro herr
    cases tt <;> cases w <;> simp_all
    case false.wrote f =>
      cases f with
      | none => simp_all
      | some f =>
        by_cases hsz : f.sizeBytes = 0 <;> simp_all
        cases r with
        | raised => simp_all
        | ok readRows =>
          by_cases hm : readRows = bufRows <;> simp_all
          cases maxBytes with
          | none => simp_all
          | some mb =>
            by_cases hb : bytesWritten + f.sizeBytes > mb <;> simp_all
  · intro n hok
    cases tt <;> cases w <;> simp_all
    case false.wrote f =>
      cases f with
      | none => simp_all
      | some f =>
        by_cases hsz : f.sizeBytes = 0 <;> simp_all
        cases r with
        | raised => simp_all
        | ok readRows =>
          by_cases hm : readRows = bufRows <;> simp_all
          · cases maxBytes with
            | none => simp_all [Nat.pos_of_ne_zero]
            | some mb =>
              by_cases hb : bytesWritten + f.sizeBytes > mb
              · simp_all [Nat.pos_of_ne_zero]
              · simp_all [Nat.pos_of_ne_zero]
                rw [if_neg (by omega : ¬ mb < bytesWritten + f.sizeBytes)]

/-- Witness for C8 at a concrete failed write and a concrete success. -/
theorem c8_verified_write_cleanup_witness :
    ((Store.verifiedWrite (some 100) 0 5
        ⟨false, .raised (some ⟨5, 3⟩), .ok 5⟩).2.1 = none) ∧
    ((Store.verifiedWrite (some 100) 0 5
        ⟨false, .wrote (some ⟨5, 3⟩), .ok 5⟩).1 = .ok 5) := by
  constructor
  · exact ((c8_verified_write_cleanup (some 100) 0 5
      ⟨false, .raised (some ⟨5, 3⟩), .ok 5⟩).1 (by decide)).1
  · have := (c8_verified_write_cleanup (some 100) 0 5
      ⟨false, .wrote (some ⟨5, 3⟩), .ok 5⟩).2 5
    decide

end Ucg

namespace Ucg

set_option maxHeartbeats 1000000 in
/-- Every row a DFG step emits carries the func_id at the top of the stack,
and the step either pushes the ENTER event's func_id, keeps the stack ids,
or pops the top. -/
theorem dfg_step_funcIds (cfg : Dfg.Config) (fm : FileMeta)
    (info : Option DriverInfo) (stack : List Dfg.FuncState) (ev : Ev) :
    (∀ o ∈ (Dfg.step cfg fm info stack ev).2.1,
      (stack.map (·.funcId)).head? = some (Dfg.outFuncId o)) ∧
    ((Dfg.step cfg fm info stack ev).1.map (·.funcId) =
        Dfg.funcIdOf cfg fm ev.byteStart :: stack.map (·.funcId) ∧
        ev.kind = .enter ∧ Dfg.isFunction fm.lang ev.type ∨
      (Dfg.step cfg fm info stack ev).1.map (·.funcId) = stack.map (·.funcId) ∨
      (Dfg.step cfg fm info stack ev).1.map (·.funcId) =
        (stack.map (·.funcId)).tail) := by
  unfold Dfg.step
  split
  · rename_i h
    refine ⟨by simp, Or.inl ⟨by simp, h.1, h.2⟩⟩
  · split
    · exact ⟨by simp, Or.inr (Or.inl rfl)⟩
    · rename_i func rest
      split
      · exact ⟨by simp, Or.inr (Or.inr rfl)⟩
      · split
        · -- ENTER (non-function)
          refine ⟨by simp, Or.inr (Or.inl ?_)⟩
          split <;> split <;> simp
        · -- TOKEN
          split
          · split
            · refine ⟨?_, Or.inr (Or.inl (by simp [Dfg.emitParam]))⟩
              intro o ho
              simp only [Dfg.emitParam, List.mem_singleton] at ho
              subst ho
              simp [Dfg.outFuncId]
            · exact ⟨by simp, Or.inr (Or.inl rfl)⟩
          · split
            · split
              · exact ⟨by simp, Or.inr (Or.inl rfl)⟩
              · split
                · refine ⟨?_, Or.inr (Or.inl (by simp [Dfg.emitVarDef]))⟩
                  intro o ho
                  simp only [Dfg.emitVarDef, List.mem_singleton] at ho
                  subst ho
                  simp [Dfg.outFuncId]
                · refine ⟨?_, Or.inr (Or.inl (by simp [Dfg.emitVarUse]))⟩
                  intro o ho
                  simp only [Dfg.emitVarUse] at ho
                  simp at ho
                  rcases ho with h | h <;> subst h <;> simp [Dfg.outFuncId]
            · split
              · split
                rename_i outs litId heq
                have houts : ∀ o ∈ outs, Dfg.outFuncId o = func.funcId := by
                  intro o ho
                  have h2 : o ∈ (Dfg.emitLiteral cfg fm info func ev).1 := by
                    rw [heq]; exact ho
                  revert h2
                  unfold Dfg.emitLiteral
                  split
                  · simp
                  · intro h2
                    simp at h2
                    subst h2
                    simp [Dfg.outFuncId]
                rcases litId with _ | lid <;>
                  rcases func.pendingLiterals.getLast? with _ | target
                · exact ⟨fun o ho => by simp [houts o ho], Or.inr (Or.inl (by simp))⟩
                · exact ⟨fun o ho => by simp [houts o ho], Or.inr (Or.inl (by simp))⟩
                · exact ⟨fun o ho => by simp [houts o ho], Or.inr (Or.inl (by simp))⟩
                · refine ⟨?_, Or.inr (Or.inl (by simp))⟩
                  intro o ho
                  rcases List.mem_append.mp ho with h | h
                  · simp [houts o h]
                  · simp only [Dfg.emitConstPart] at h
                    simp at h
                    subst h
                    simp [Dfg.outFuncId]
              · exact ⟨by simp, Or.inr (Or.inl rfl)⟩
        · -- EXIT
          split
          · exact ⟨by simp, Or.inr (Or.inl (by simp))⟩
          · split
            · exact ⟨by simp, Or.inr (Or.inr rfl)⟩
            · split
              · split
                · exact ⟨by simp, Or.inr (Or.inl (by simp))⟩
                · exact ⟨by simp, Or.inr (Or.inl rfl)⟩
              · exact ⟨by simp, Or.inr (Or.inl rfl)⟩

/-- `enterFuncIds` unfolds one event at a time. -/
theorem dfg_enterFuncIds_cons (cfg : Dfg.Config) (fm : FileMeta) (ev : Ev)
    (rest : List Ev) :
    Dfg.enterFuncIds cfg fm (ev :: rest) =
      (if ev.kind = .enter ∧ Dfg.isFunction fm.lang ev.type then
        [Dfg.funcIdOf cfg fm ev.byteStart] else []) ++
      Dfg.enterFuncIds cfg fm rest := by
  simp only [Dfg.enterFuncIds, List.filterMap_cons]
  split <;> simp_all

/-- Rows produced by the event loop only carry func_ids of the initial stack
or of function ENTER events in the stream. -/
theorem dfg_run_funcIds (cfg : Dfg.Config) (fm : FileMeta)
    (info : Option DriverInfo) :
    ∀ (evs : List Ev) (stack : List Dfg.FuncState),
      ∀ o ∈ (Dfg.runEvents cfg fm info stack evs).1,
        Dfg.outFuncId o ∈ stack.map (·.funcId) ++ Dfg.enterFuncIds cfg fm evs := by
  intro evs
  induction evs with
  | nil => intro stack o ho; simp [Dfg.runEvents] at ho
  | cons ev rest ih =>
    intro stack o ho
    rcases hstep : Dfg.step cfg fm info stack ev with ⟨st1, outs, ans⟩
    rcases hrun : Dfg.runEvents cfg fm info st1 rest with ⟨outs2, ans2⟩
    rw [Dfg.runEvents, hstep] at ho
    dsimp only at ho
    rw [hrun] at ho
    simp only [List.mem_append] at ho
    rw [dfg_enterFuncIds_cons]
    rcases ho with h | h
    · -- a row out of this step: it carries the top func_id
      have h1 := (dfg_step_funcIds cfg fm info stack ev).1
      rw [hstep] at h1
      have h2 := h1 o h
      cases hs : stack with
      | nil => rw [hs] at h2; simp at h2
      | cons f r =>
        rw [hs] at h2
        simp only [List.map_cons, List.head?_cons, Option.some.injEq] at h2
        simp [← h2]
    · -- a row of the remaining loop
      have h3 := ih st1 o (by rw [hrun]; exact h)
      have h4 := (dfg_step_funcIds cfg fm info stack ev).2
      rw [hstep] at h4
      simp only at h4
      rcases h4 with ⟨heq, hcond⟩ | heq | heq
      · rw [if_pos hcond]
        rw [heq] at h3
        rcases List.mem_append.mp h3 with h5 | h5
        · rcases List.mem_cons.mp h5 with h6 | h6
          · exact List.mem_append_right _
              (List.mem_append_left _ (by simp [h6]))
          · exact List.mem_append_left _ h6
        · exact List.mem_append_right _ (List.mem_append_right _ h5)
      · rw [heq] at h3
        rcases List.mem_append.mp h3 with h5 | h5
        · exact List.mem_append_left _ h5
        · exact List.mem_append_right _ (List.mem_append_right _ h5)
      · rw [heq] at h3
        rcases List.mem_append.mp h3 with h5 | h5
        · refine List.mem_append_left _ ?_
          cases hm : stack.map (·.funcId) with
          | nil => rw [hm] at h5; simp at h5
          | cons a l =>
            rw [hm] at h5
            simp only [List.tail_cons] at h5
            exact List.mem_cons_of_mem a h5
        · exact List.mem_append_right _ (List.mem_append_right _ h5)

/-- C10: the DFG builder emits no rows for module-level code — every emitted
node or edge carries the func_id of a function opened by a preceding function
ENTER event, and a stream with no function ENTER produces no rows at all. -/
theorem c10_dfg_rows_only_inside_functions (cfg : Dfg.Config)
    (ps : ParseStream) :
    (∀ o ∈ (Dfg.build cfg ps).1,
      Dfg.outFuncId o ∈ Dfg.enterFuncIds cfg ps.file (ps.events.getD [])) ∧
    (Dfg.enterFuncIds cfg ps.file (ps.events.getD []) = [] →
      (Dfg.build cfg ps).1 = []) := by
  have hmem : ∀ o ∈ (Dfg.build cfg ps).1,
      Dfg.outFuncId o ∈ Dfg.enterFuncIds cfg ps.file (ps.events.getD []) := by
    intro o ho
    unfold Dfg.build at ho
    cases hevs : ps.events with
    | none => rw [hevs] at ho; simp at ho
    | some evs =>
      rw [hevs] at ho
      dsimp only at ho
      by_cases hok : ps.ok
      · rw [if_pos hok] at ho
        have h := dfg_run_funcIds cfg ps.file ps.driver evs [] o ho
        simpa [hevs] using h
      · rw [if_neg hok] at ho
        simp at ho
  refine ⟨hmem, ?_⟩
  intro hempty
  cases houts : (Dfg.build cfg ps).1 with
  | nil => rfl
  | cons o r =>
    have h := hmem o (by rw [houts]; simp)
    rw [hempty] at h
    simp at h

/-- Witness for C10: a stream with a single module-level identifier token and
no function ENTER produces no DFG rows. -/
theorem c10_dfg_rows_only_inside_functions_witness :
    (Dfg.build {}
      { file := exFm, driver := none,
        events := some [⟨.token, "Name", 0, 1, 1, 1, "z"⟩], ok := true }).1 = [] :=
  (c10_dfg_rows_only_inside_functions {} _).2 (by rfl)

end Ucg

namespace Ucg

/-- Counterexample to C4: for a use of `y` with no prior definition in the
scope, the builder emits the VAR_USE node *and* a DEF_USE edge (at assumed
version 0), contradicting "does not emit a DEF_USE edge". -/
theorem c4_counterexample_undef_use_still_gets_edge :
    ((Dfg.build {} exUndefUsePs).1.map
      (fun o => (o.1, Dfg.outEdgeKind o))) =
      [("dfg_node", none), ("dfg_edge", some .defUse)] := by decide

/-- Amended C4: when the DFG builder processes an identifier use whose name
has no prior definition (`versions` lookup absent), it emits the VAR_USE node
at version 0 *and* a DEF_USE edge whose src is the logical id of a version-0
definition, even though no such VAR_DEF row exists. -/
theorem c4_amended_undef_use_emits_node_and_edge
    (cfg : Dfg.Config) (fm : FileMeta) (info : Option DriverInfo)
    (func : Dfg.FuncState) (rest : List Dfg.FuncState) (ev : Ev) (name : String)
    (hkind : ev.kind = .token)
    (hguard : ¬ (func.defsCount > cfg.maxDefsPerFunc ∨
      func.usesCount > cfg.maxUsesPerFunc))
    (hparam : ¬ (func.inParams = true ∧ Dfg.isParamToken fm.lang ev.type = true))
    (hident : Dfg.isIdentifierToken fm.lang ev.type = true)
    (hname : Dfg.safeTokenName ev = some name)
    (hassign : func.assignStack = [])
    (habsent : mget func.versions name = none) :
    (Dfg.step cfg fm info (func :: rest) ev).2.1.map
        (fun o => (o.1, Dfg.outNodeKind o, Dfg.outVersion o)) =
      [("dfg_node", some .varUse, some 0), ("dfg_edge", none, none)] ∧
    (Dfg.step cfg fm info (func :: rest) ev).2.1.filterMap Dfg.outEdgeSrc =
      [Dfg.logicalDefId cfg fm func.funcId name 0] := by
  simp [Dfg.step, hkind, hguard, hparam, hident, hname, hassign, habsent,
    Dfg.emitVarUse, Dfg.outNodeKind, Dfg.outVersion, Dfg.outEdgeSrc]

/-- Witness for the amended C4 at a concrete state and token. -/
theorem c4_amended_undef_use_emits_node_and_edge_witness :
    (Dfg.step {} exFm none [{ funcId := ["f"] }]
        ⟨.token, "Name", 10, 11, 2, 2, "y"⟩).2.1.filterMap Dfg.outEdgeSrc =
      [Dfg.logicalDefId {} exFm ["f"] "y" 0] :=
  (c4_amended_undef_use_emits_node_and_edge {} exFm none { funcId := ["f"] } []
    ⟨.token, "Name", 10, 11, 2, 2, "y"⟩ "y" (by rfl) (by decide) (by decide)
    (by decide) (by decide) (by rfl) (by rfl)).2

end Ucg

namespace Ucg

/-- A dict write is read back at its own key. -/
theorem mget_mset_self {κ α : Type} [DecidableEq κ] (l : List (κ × α)) (k : κ)
    (v : α) : mget (mset l k v) k = some v := by
  simp [mget, mset]

/-- Counterexample to C2 on `x = 1; x = x + 1`: the RHS use of `x` (the token
at byte 24) carries version 1 — the version created by this very assignment —
and the only DEF_USE edge of the stream points at the logical id of that new
version-1 definition, not at the prior version 0. -/
theorem c2_counterexample_rhs_use_gets_new_version :
    ((Dfg.build {} exSelfAssignPs).1.filterMap (fun o =>
      match o.2 with
      | .node r =>
        if r.kind = .varUse ∧ r.prov.byteStart = 24 then some r.version
        else none
      | .edge _ => none)) = [some 1] ∧
    ((Dfg.build {} exSelfAssignPs).1.filterMap (fun o =>
      match o.2 with
      | .edge r => if r.kind = .defUse then some r.srcId else none
      | .node _ => none)) =
      [Dfg.logicalDefId {} exFm (Dfg.funcIdOf {} exFm 0) "x" 1] ∧
    Dfg.logicalDefId {} exFm (Dfg.funcIdOf {} exFm 0) "x" 1 ≠
      Dfg.logicalDefId {} exFm (Dfg.funcIdOf {} exFm 0) "x" 0 := by decide

/-- Amended C2: within a single assignment the builder emits the LHS
definition *first* (the first identifier token), at the incremented version;
a following RHS use of the same name then carries the version created by this
assignment and its DEF_USE edge points at this assignment's definition, not
the prior one. -/
theorem c2_amended_lhs_def_before_rhs_use
    (cfg : Dfg.Config) (fm : FileMeta) (info : Option DriverInfo)
    (func : Dfg.FuncState) (rest : List Dfg.FuncState) (ev1 ev2 : Ev)
    (name : String) (b : Nat)
    (hk1 : ev1.kind = .token) (hk2 : ev2.kind = .token)
    (hid1 : Dfg.isIdentifierToken fm.lang ev1.type = true)
    (hid2 : Dfg.isIdentifierToken fm.lang ev2.type = true)
    (hp : func.inParams = false)
    (hname1 : Dfg.safeTokenName ev1 = some name)
    (hname2 : Dfg.safeTokenName ev2 = some name)
    (hassign : func.assignStack = [b])
    (hd : ¬ (func.defsCount > cfg.maxDefsPerFunc ∨
      func.usesCount > cfg.maxUsesPerFunc))
    (hd2 : ¬ (func.defsCount + 1 > cfg.maxDefsPerFunc ∨
      func.usesCount > cfg.maxUsesPerFunc)) :
    ((Dfg.step cfg fm info (func :: rest) ev1).2.1.map
        (fun o => (o.1, Dfg.outNodeKind o, Dfg.outVersion o)) =
      [("dfg_node", some .varDef,
        some (match mget func.versions name with
          | none => 0
          | some w => w + 1))]) ∧
    ((Dfg.step cfg fm info
        (Dfg.step cfg fm info (func :: rest) ev1).1 ev2).2.1.map
        (fun o => (o.1, Dfg.outNodeKind o, Dfg.outVersion o)) =
      [("dfg_node", some .varUse,
        some (match mget func.versions name with
          | none => 0
          | some w => w + 1)),
       ("dfg_edge", none, none)]) ∧
    ((Dfg.step cfg fm info
        (Dfg.step cfg fm info (func :: rest) ev1).1 ev2).2.1.filterMap
        Dfg.outEdgeSrc =
      [Dfg.logicalDefId cfg fm func.funcId name
        (match mget func.versions name with
          | none => 0
          | some w => w + 1)]) := by
  refine ⟨?_, ?_, ?_⟩ <;>
    simp [Dfg.step, Dfg.emitVarDef, Dfg.emitVarUse, hk1, hk2, hid1, hid2, hp,
      hname1, hname2, hassign, hd, hd2, mget_mset_self, Dfg.outNodeKind,
      Dfg.outVersion, Dfg.outEdgeSrc]

end Ucg

namespace Ucg

/-- Witness for the amended C2: `x` at version 0, then `x = x + 1` tokens. -/
theorem c2_amended_lhs_def_before_rhs_use_witness :
    (Dfg.step {} exFm none
        (Dfg.step {} exFm none
          [{ funcId := ["f"], versions := [("x", 0)], assignStack := [20] }]
          ⟨.token, "Name", 20, 21, 3, 3, "x"⟩).1
        ⟨.token, "Name", 24, 25, 3, 3, "x"⟩).2.1.filterMap Dfg.outEdgeSrc =
      [Dfg.logicalDefId {} exFm ["f"] "x" 1] := by
  have h := (c2_amended_lhs_def_before_rhs_use {} exFm none
    { funcId := ["f"], versions := [("x", 0)], assignStack := [20] } []
    ⟨.token, "Name", 20, 21, 3, 3, "x"⟩ ⟨.token, "Name", 24, 25, 3, 3, "x"⟩
    "x" 20 rfl rfl (by decide) (by decide) rfl (by decide) (by decide) rfl
    (by decide) (by decide)).2.2
  simpa [mget] using h

end Ucg

namespace Ucg

theorem mget_mset_other {κ α : Type} [DecidableEq κ] (l : List (κ × α))
    (k k' : κ) (v : α) (h : k' ≠ k) : mget (mset l k v) k' = mget l k' := by
  simp [mget, mset, Ne.symm h]

theorem mget_msetd_self {κ α : Type} [DecidableEq κ] (l : List (κ × α))
    (k : κ) (v : α) : mget (msetd l k v) k = some ((mget l k).getD v) := by
  unfold msetd
  cases h : mget l k with
  | none => simp [h, mget]
  | some w => simp [h]

theorem mget_msetd_other {κ α : Type} [DecidableEq κ] (l : List (κ × α))
    (k k' : κ) (v : α) (h : k' ≠ k) : mget (msetd l k v) k' = mget l k' := by
  unfold msetd
  cases hx : mget l k with
  | none => simp [mget, Ne.symm h]
  | some w => simp

theorem dfg_emittedFor_emitLiteral (cfg : Dfg.Config) (fm : FileMeta)
    (info : Option DriverInfo) (f : Dfg.FuncState) (ev : Ev) (F : SId)
    (n : String) :
    Dfg.emittedFor (Dfg.emitLiteral cfg fm info f ev).1 F n = [] := by
  unfold Dfg.emitLiteral
  split <;> simp [Dfg.emittedFor]

theorem dfg_runChecker_append (a b : List (Dfg.NodeKind × Nat))
    (st : Dfg.ChkSt) :
    Dfg.runChecker st (a ++ b) =
      match Dfg.runChecker st a with
      | some st' => Dfg.runChecker st' b
      | none => none := by
  induction a generalizing st with
  | nil => simp [Dfg.runChecker]
  | cons p r ih =>
    simp only [List.cons_append, Dfg.runChecker]
    cases Dfg.verStep st p with
    | none => rfl
    | some st' => exact ih st'

theorem dfg_emittedFor_append (a b : List Dfg.Out) (F : SId) (n : String) :
    Dfg.emittedFor (a ++ b) F n = Dfg.emittedFor a F n ++ Dfg.emittedFor b F n := by
  simp [Dfg.emittedFor, List.filterMap_append]

end Ucg

namespace Ucg

/-- One DFG step, classified by its effect on the `versions` maps and on the
PARAM/VAR_DEF trace: push a fresh function state, pop the top, leave every
versions map unchanged, record a parameter (setdefault 0), or record a
definition (increment). -/
theorem dfg_step_classify (cfg : Dfg.Config) (fm : FileMeta)
    (info : Option DriverInfo) (stack : List Dfg.FuncState) (ev : Ev)
    (st1 : List Dfg.FuncState) (outs : List Dfg.Out) (ans : List Anomaly)
    (hr : Dfg.step cfg fm info stack ev = (st1, outs, ans)) :
    (st1 = { funcId := Dfg.funcIdOf cfg fm ev.byteStart } :: stack ∧
      outs = [] ∧ ev.kind = .enter ∧ Dfg.isFunction fm.lang ev.type = true) ∨
    (¬ (ev.kind = .enter ∧ Dfg.isFunction fm.lang ev.type = true) ∧
      ((∃ top rest', stack = top :: rest' ∧ st1 = rest' ∧ outs = []) ∨
        (stack = [] ∧ st1 = [] ∧ outs = []) ∨
        (∃ top rest' top', stack = top :: rest' ∧ st1 = top' :: rest' ∧
          top'.funcId = top.funcId ∧ top'.versions = top.versions ∧
          (∀ F n, Dfg.emittedFor outs F n = [])) ∨
        (∃ top rest' top' nm, stack = top :: rest' ∧ st1 = top' :: rest' ∧
          top'.funcId = top.funcId ∧
          top'.versions = msetd top.versions nm 0 ∧
          (∀ F n, Dfg.emittedFor outs F n =
            if F = top.funcId ∧ n = nm then [(.param, 0)] else [])) ∨
        (∃ top rest' top' nm, stack = top :: rest' ∧ st1 = top' :: rest' ∧
          top'.funcId = top.funcId ∧
          top'.versions = mset top.versions nm
            (match mget top.versions nm with
              | none => 0
              | some w => w + 1) ∧
          (∀ F n, Dfg.emittedFor outs F n =
            if F = top.funcId ∧ n = nm then
              [(.varDef, match mget top.versions nm with
                | none => 0
                | some w => w + 1)]
            else [])))) := by
  unfold Dfg.step at hr
  split at hr
  · rename_i h
    injection hr with h1 h23
    injection h23 with h2 h3
    subst h1; subst h2
    exact Or.inl ⟨rfl, rfl, h.1, h.2⟩
  · rename_i hne
    refine Or.inr ⟨hne, ?_⟩
    split at hr
    · injection hr with h1 h23
      injection h23 with h2 h3
      subst h1; subst h2
      exact Or.inr (Or.inl ⟨rfl, rfl, rfl⟩)
    · rename_i func rest
      split at hr
      · injection hr with h1 h23
        injection h23 with h2 h3
        subst h1; subst h2
        exact Or.inl ⟨func, rest, rfl, rfl, rfl⟩
      · split at hr
        · -- ENTER (non-function): flags may change, versions untouched
          split at hr <;> split at hr <;>
            (injection hr with h1 h23; injection h23 with h2 h3;
             subst h1; subst h2;
             exact Or.inr (Or.inr (Or.inl
               ⟨func, rest, _, rfl, rfl, rfl, rfl, fun F n => rfl⟩)))
        · -- TOKEN
          split at hr
          · rcases hx : Dfg.safeTokenName ev with _ | nm
            all_goals rw [hx] at hr
            all_goals dsimp only at hr
            · injection hr with h1 h23
              injection h23 with h2 h3
              subst h1; subst h2
              exact Or.inr (Or.inr (Or.inl
                ⟨func, rest, func, rfl, rfl, rfl, rfl, fun F n => rfl⟩))
            · simp only [Dfg.emitParam] at hr
              injection hr with h1 h23
              injection h23 with h2 h3
              subst h1; subst h2
              refine Or.inr (Or.inr (Or.inr (Or.inl
                ⟨func, rest, _, nm, rfl, rfl, rfl, rfl, ?_⟩)))
              intro F n
              by_cases h : F = func.funcId ∧ n = nm
              · rw [if_pos h]
                simp [Dfg.emittedFor, h.1, h.2]
              · rw [if_neg h]
                rw [not_and_or] at h
                rcases h with h | h <;>
                  simp [Dfg.emittedFor, Ne.symm h]
          · split at hr
            · rcases hx : Dfg.safeTokenName ev with _ | nm
              all_goals rw [hx] at hr
              all_goals dsimp only at hr
              · injection hr with h1 h23
                injection h23 with h2 h3
                subst h1; subst h2
                exact Or.inr (Or.inr (Or.inl
                  ⟨func, rest, func, rfl, rfl, rfl, rfl, fun F n => rfl⟩))
              · rcases habs : func.assignStack with _ | ⟨b, abs⟩
                all_goals rw [habs] at hr
                all_goals dsimp only at hr
                · simp only [Dfg.emitVarUse] at hr
                  injection hr with h1 h23
                  injection h23 with h2 h3
                  subst h1; subst h2
                  refine Or.inr (Or.inr (Or.inl
                    ⟨func, rest, _, rfl, rfl, rfl, rfl, ?_⟩))
                  intro F n
                  simp [Dfg.emittedFor]
                · simp only [Dfg.emitVarDef] at hr
                  injection hr with h1 h23
                  injection h23 with h2 h3
                  subst h1; subst h2
                  refine Or.inr (Or.inr (Or.inr (Or.inr
                    ⟨func, rest, _, nm, rfl, rfl, rfl, rfl, ?_⟩)))
                  intro F n
                  by_cases h : F = func.funcId ∧ n = nm
                  · rw [if_pos h]
                    simp [Dfg.emittedFor, h.1, h.2]
                  · rw [if_neg h]
                    rw [not_and_or] at h
                    rcases h with h | h <;>
                      simp [Dfg.emittedFor, Ne.symm h]
            · split at hr
              · rcases hlit : Dfg.emitLiteral cfg fm info func ev with ⟨louts, litId⟩
                rw [hlit] at hr
                dsimp only at hr
                have hl : ∀ F n, Dfg.emittedFor louts F n = [] := by
                  intro F n
                  have h := dfg_emittedFor_emitLiteral cfg fm info func ev F n
                  rw [hlit] at h
                  exact h
                split at hr
                · injection hr with h1 h23
                  injection h23 with h2 h3
                  subst h1; subst h2
                  refine Or.inr (Or.inr (Or.inl
                    ⟨func, rest, func, rfl, rfl, rfl, rfl, ?_⟩))
                  intro F n
                  rw [dfg_emittedFor_append, hl]
                  rfl
                · injection hr with h1 h23
                  injection h23 with h2 h3
                  subst h1; subst h2
                  refine Or.inr (Or.inr (Or.inl
                    ⟨func, rest, func, rfl, rfl, rfl, rfl, ?_⟩))
                  intro F n
                  exact hl F n
              · injection hr with h1 h23
                injection h23 with h2 h3
                subst h1; subst h2
                exact Or.inr (Or.inr (Or.inl
                  ⟨func, rest, func, rfl, rfl, rfl, rfl, fun F n => rfl⟩))
        · -- EXIT
          split at hr
          · injection hr with h1 h23
            injection h23 with h2 h3
            subst h1; subst h2
            exact Or.inr (Or.inr (Or.inl
              ⟨func, rest, _, rfl, rfl, rfl, rfl, fun F n => rfl⟩))
          · split at hr
            · injection hr with h1 h23
              injection h23 with h2 h3
              subst h1; subst h2
              exact Or.inl ⟨func, rest, rfl, rfl, rfl⟩
            · split at hr
              · split at hr
                · injection hr with h1 h23
                  injection h23 with h2 h3
                  subst h1; subst h2
                  exact Or.inr (Or.inr (Or.inl
                    ⟨func, rest, _, rfl, rfl, rfl, rfl, fun F n => rfl⟩))
                · injection hr with h1 h23
                  injection h23 with h2 h3
                  subst h1; subst h2
                  exact Or.inr (Or.inr (Or.inl
                    ⟨func, rest, func, rfl, rfl, rfl, rfl, fun F n => rfl⟩))
              · injection hr with h1 h23
                injection h23 with h2 h3
                subst h1; subst h2
                exact Or.inr (Or.inr (Or.inl
                  ⟨func, rest, func, rfl, rfl, rfl, rfl, fun F n => rfl⟩))

end Ucg

namespace Ucg

set_option maxHeartbeats 1000000 in
/-- Main C3 invariant: threading the per-`(func_id, name)` version checker
through the whole event loop always succeeds, provided the function ids of the
ENTER events are pairwise distinct and the initial checker state matches the
`versions` dicts on the stack. -/
theorem dfg_checker_invariant (cfg : Dfg.Config) (fm : FileMeta)
    (info : Option DriverInfo) (evs : List Ev) :
    ∀ (stack : List Dfg.FuncState) (C : SId → String → Dfg.ChkSt),
      (Dfg.enterFuncIds cfg fm evs).Nodup →
      (∀ f ∈ stack, f.funcId ∉ Dfg.enterFuncIds cfg fm evs) →
      (stack.map (fun f => f.funcId)).Nodup →
      (∀ F ∈ Dfg.enterFuncIds cfg fm evs, ∀ n, C F n = (false, none)) →
      (∀ f ∈ stack, ∀ n, Dfg.verOf (C f.funcId n) = mget f.versions n) →
      ∀ F n, (Dfg.runChecker (C F n)
        (Dfg.emittedFor (Dfg.runEvents cfg fm info stack evs).1 F n)).isSome := by
  induction evs with
  | nil =>
    intro stack C _ _ _ _ _ F n
    simp [Dfg.runEvents, Dfg.emittedFor, Dfg.runChecker]
  | cons ev rest ih =>
    intro stack C hnodup hfresh hsdup hC0 hcorr F n
    rcases hstep : Dfg.step cfg fm info stack ev with ⟨st1, outs, ans⟩
    rcases hrun : Dfg.runEvents cfg fm info st1 rest with ⟨outs2, ans2⟩
    have hout : (Dfg.runEvents cfg fm info stack (ev :: rest)).1 = outs ++ outs2 := by
      rw [Dfg.runEvents, hstep]
      dsimp only
      rw [hrun]
    rw [hout, dfg_emittedFor_append, dfg_runChecker_append]
    rcases dfg_step_classify cfg fm info stack ev st1 outs ans hstep with
      ⟨hst1, houts, hkind, hfn⟩ |
      ⟨hne, ⟨top, rest', hstack, hst1, houts⟩ | ⟨hstack, hst1, houts⟩ |
        ⟨top, rest', top', hstack, hst1, hfid, hver, hemit⟩ |
        ⟨top, rest', top', nm, hstack, hst1, hfid, hver, hemit⟩ |
        ⟨top, rest', top', nm, hstack, hst1, hfid, hver, hemit⟩⟩
    · -- push a fresh function state
      subst hst1; subst houts
      have hE : Dfg.enterFuncIds cfg fm (ev :: rest) =
          Dfg.funcIdOf cfg fm ev.byteStart :: Dfg.enterFuncIds cfg fm rest := by
        rw [dfg_enterFuncIds_cons, if_pos ⟨hkind, hfn⟩]
        rfl
      rw [hE] at hnodup hfresh hC0
      have hhead := (List.nodup_cons.mp hnodup).1
      have hfresh' : ∀ f ∈ ({ funcId := Dfg.funcIdOf cfg fm ev.byteStart } :
          Dfg.FuncState) :: stack,
          f.funcId ∉ Dfg.enterFuncIds cfg fm rest := by
        intro f hf
        rcases List.mem_cons.mp hf with h | h
        · subst h
          exact hhead
        · exact fun hmem => hfresh f h (List.mem_cons_of_mem _ hmem)
      have hsdup' : ((({ funcId := Dfg.funcIdOf cfg fm ev.byteStart } :
          Dfg.FuncState) :: stack).map (fun f => f.funcId)).Nodup := by
        rw [List.map_cons]
        refine List.nodup_cons.mpr ⟨?_, hsdup⟩
        intro hmem
        obtain ⟨f, hf, hfid2⟩ := List.mem_map.mp hmem
        exact hfresh f hf (by rw [hfid2]; exact List.mem_cons_self _ _)
      have hC0' : ∀ F' ∈ Dfg.enterFuncIds cfg fm rest, ∀ m,
          C F' m = (false, none) :=
        fun F' hF' m => hC0 F' (List.mem_cons_of_mem _ hF') m
      have hcorr' : ∀ f ∈ ({ funcId := Dfg.funcIdOf cfg fm ev.byteStart } :
          Dfg.FuncState) :: stack, ∀ m,
          Dfg.verOf (C f.funcId m) = mget f.versions m := by
        intro f hf m
        rcases List.mem_cons.mp hf with h | h
        · subst h
          rw [hC0 _ (List.mem_cons_self _ _) m]
          rfl
        · exact hcorr f h m
      have hres := ih ({ funcId := Dfg.funcIdOf cfg fm ev.byteStart } :: stack)
        C (List.nodup_cons.mp hnodup).2 hfresh' hsdup' hC0' hcorr' F n
      rw [hrun] at hres
      exact hres
    · -- pop the top function state
      subst hstack; subst houts
      rw [hst1] at hrun
      have hE : Dfg.enterFuncIds cfg fm (ev :: rest) =
          Dfg.enterFuncIds cfg fm rest := by
        rw [dfg_enterFuncIds_cons, if_neg hne]
        rfl
      rw [hE] at hnodup hfresh hC0
      have hres := ih rest' C hnodup
        (fun f hf => hfresh f (List.mem_cons_of_mem _ hf))
        ((List.nodup_cons.mp (by simpa using hsdup)).2)
        hC0
        (fun f hf => hcorr f (List.mem_cons_of_mem _ hf)) F n
      rw [hrun] at hres
      exact hres
    · -- empty stack, nothing happens
      subst hstack; subst houts
      rw [hst1] at hrun
      have hE : Dfg.enterFuncIds cfg fm (ev :: rest) =
          Dfg.enterFuncIds cfg fm rest := by
        rw [dfg_enterFuncIds_cons, if_neg hne]
        rfl
      rw [hE] at hnodup hC0
      have hres := ih [] C hnodup (by intro f hf; cases hf) (by simp)
        hC0 (by intro f hf; cases hf) F n
      rw [hrun] at hres
      exact hres
    · -- versions untouched
      subst hstack
      rw [hst1] at hrun
      have hE : Dfg.enterFuncIds cfg fm (ev :: rest) =
          Dfg.enterFuncIds cfg fm rest := by
        rw [dfg_enterFuncIds_cons, if_neg hne]
        rfl
      rw [hE] at hnodup hfresh hC0
      have hfresh' : ∀ f ∈ top' :: rest',
          f.funcId ∉ Dfg.enterFuncIds cfg fm rest := by
        intro f hf
        rcases List.mem_cons.mp hf with h | h
        · subst h
          rw [hfid]
          exact hfresh top (List.mem_cons_self _ _)
        · exact hfresh f (List.mem_cons_of_mem _ h)
      have hsdup' : ((top' :: rest').map (fun f => f.funcId)).Nodup := by
        rw [List.map_cons, hfid]
        simpa using hsdup
      have hcorr' : ∀ f ∈ top' :: rest', ∀ m,
          Dfg.verOf (C f.funcId m) = mget f.versions m := by
        intro f hf m
        rcases List.mem_cons.mp hf with h | h
        · subst h
          rw [hfid, hver]
          exact hcorr top (List.mem_cons_self _ _) m
        · exact hcorr f (List.mem_cons_of_mem _ h) m
      have hres := ih (top' :: rest') C hnodup hfresh' hsdup' hC0 hcorr' F n
      rw [hrun] at hres
      rw [hemit F n]
      exact hres
    · -- a parameter: setdefault name 0, a PARAM row at version 0
      subst hstack
      rw [hst1] at hrun
      have hE : Dfg.enterFuncIds cfg fm (ev :: rest) =
          Dfg.enterFuncIds cfg fm rest := by
        rw [dfg_enterFuncIds_cons, if_neg hne]
        rfl
      rw [hE] at hnodup hfresh hC0
      have htopfresh : top.funcId ∉ Dfg.enterFuncIds cfg fm rest :=
        hfresh top (List.mem_cons_self _ _)
      have htoprest : top.funcId ∉ rest'.map (fun f => f.funcId) :=
        (List.nodup_cons.mp (by simpa using hsdup)).1
      have hrc : Dfg.runChecker (C F n) (Dfg.emittedFor outs F n) =
          some (if F = top.funcId ∧ n = nm then (true, (C F n).2) else C F n) := by
        by_cases h : F = top.funcId ∧ n = nm
        · rw [hemit F n, if_pos h, if_pos h]
          simp [Dfg.runChecker, Dfg.verStep]
        · rw [hemit F n, if_neg h, if_neg h]
          rfl
      rw [hrc]
      have hfresh' : ∀ f ∈ top' :: rest',
          f.funcId ∉ Dfg.enterFuncIds cfg fm rest := by
        intro f hf
        rcases List.mem_cons.mp hf with h | h
        · subst h
          rw [hfid]
          exact htopfresh
        · exact hfresh f (List.mem_cons_of_mem _ h)
      have hsdup' : ((top' :: rest').map (fun f => f.funcId)).Nodup := by
        rw [List.map_cons, hfid]
        simpa using hsdup
      have hC0' : ∀ F' ∈ Dfg.enterFuncIds cfg fm rest, ∀ m,
          (if F' = top.funcId ∧ m = nm then (true, (C F' m).2) else C F' m) =
            ((false, none) : Dfg.ChkSt) := by
        intro F' hF' m
        rw [if_neg (fun (hc : F' = top.funcId ∧ m = nm) => htopfresh (hc.1 ▸ hF'))]
        exact hC0 F' hF' m
      have hcorr' : ∀ f ∈ top' :: rest', ∀ m,
          Dfg.verOf (if f.funcId = top.funcId ∧ m = nm
            then (true, (C f.funcId m).2) else C f.funcId m) =
            mget f.versions m := by
        intro f hf m
        rcases List.mem_cons.mp hf with h | h
        · subst h
          rw [hfid, hver]
          by_cases hm : m = nm
          · subst hm
            rw [if_pos ⟨rfl, rfl⟩, mget_msetd_self]
            have hc := hcorr top (List.mem_cons_self _ _) m
            rcases hC : C top.funcId m with ⟨ps, ld⟩
            rw [hC] at hc
            rcases ld with _ | d
            · cases ps
              · simp only [Dfg.verOf] at hc ⊢
                rw [← hc]
                rfl
              · simp only [Dfg.verOf] at hc ⊢
                rw [← hc]
                rfl
            · simp only [Dfg.verOf] at hc ⊢
              rw [← hc]
              rfl
          · rw [if_neg (fun hc => hm hc.2), mget_msetd_other _ _ _ _ hm]
            exact hcorr top (List.mem_cons_self _ _) m
        · have hne2 : f.funcId ≠ top.funcId := by
            intro hc
            exact htoprest (hc ▸ List.mem_map.mpr ⟨f, h, rfl⟩)
          rw [if_neg (fun (hc : f.funcId = top.funcId ∧ m = nm) => hne2 hc.1)]
          exact hcorr f (List.mem_cons_of_mem _ h) m
      have hres := ih (top' :: rest')
        (fun G m => if G = top.funcId ∧ m = nm then (true, (C G m).2) else C G m)
        hnodup hfresh' hsdup' hC0' hcorr' F n
      rw [hrun] at hres
      exact hres
    · -- a definition: versions[name] = get(name, -1) + 1, a VAR_DEF row
      subst hstack
      rw [hst1] at hrun
      have hE : Dfg.enterFuncIds cfg fm (ev :: rest) =
          Dfg.enterFuncIds cfg fm rest := by
        rw [dfg_enterFuncIds_cons, if_neg hne]
        rfl
      rw [hE] at hnodup hfresh hC0
      have htopfresh : top.funcId ∉ Dfg.enterFuncIds cfg fm rest :=
        hfresh top (List.mem_cons_self _ _)
      have htoprest : top.funcId ∉ rest'.map (fun f => f.funcId) :=
        (List.nodup_cons.mp (by simpa using hsdup)).1
      have hrc : Dfg.runChecker (C F n) (Dfg.emittedFor outs F n) =
          some (if F = top.funcId ∧ n = nm then
            ((C F n).1, some (match mget top.versions nm with
              | none => 0
              | some w => w + 1))
          else C F n) := by
        by_cases h : F = top.funcId ∧ n = nm
        · rw [hemit F n, if_pos h, if_pos h]
          obtain ⟨hF, hn⟩ := h
          subst hF; subst hn
          have hc := hcorr top (List.mem_cons_self _ _) n
          rcases hC : C top.funcId n with ⟨ps, ld⟩
          rw [hC] at hc
          rcases ld with _ | d
          · cases ps
            · simp only [Dfg.verOf] at hc
              simp only [Dfg.runChecker, Dfg.verStep, ← hc]
              rfl
            · simp only [Dfg.verOf] at hc
              simp only [Dfg.runChecker, Dfg.verStep, ← hc]
              rfl
          · simp only [Dfg.verOf] at hc
            simp only [Dfg.runChecker, Dfg.verStep, ← hc]
            rfl
        · rw [hemit F n, if_neg h, if_neg h]
          rfl
      rw [hrc]
      have hfresh' : ∀ f ∈ top' :: rest',
          f.funcId ∉ Dfg.enterFuncIds cfg fm rest := by
        intro f hf
        rcases List.mem_cons.mp hf with h | h
        · subst h
          rw [hfid]
          exact htopfresh
        · exact hfresh f (List.mem_cons_of_mem _ h)
      have hsdup' : ((top' :: rest').map (fun f => f.funcId)).Nodup := by
        rw [List.map_cons, hfid]
        simpa using hsdup
      have hC0' : ∀ F' ∈ Dfg.enterFuncIds cfg fm rest, ∀ m,
          (if F' = top.funcId ∧ m = nm then
            ((C F' m).1, some (match mget top.versions nm with
              | none => 0
              | some w => w + 1))
          else C F' m) = ((false, none) : Dfg.ChkSt) := by
        intro F' hF' m
        rw [if_neg (fun (hc : F' = top.funcId ∧ m = nm) => htopfresh (hc.1 ▸ hF'))]
        exact hC0 F' hF' m
      have hcorr' : ∀ f ∈ top' :: rest', ∀ m,
          Dfg.verOf (if f.funcId = top.funcId ∧ m = nm then
            ((C f.funcId m).1, some (match mget top.versions nm with
              | none => 0
              | some w => w + 1))
          else C f.funcId m) = mget f.versions m := by
        intro f hf m
        rcases List.mem_cons.mp hf with h | h
        · subst h
          rw [hfid, hver]
          by_cases hm : m = nm
          · subst hm
            rw [if_pos ⟨rfl, rfl⟩, mget_mset_self]
            rfl
          · rw [if_neg (fun hc => hm hc.2), mget_mset_other _ _ _ _ hm]
            exact hcorr top (List.mem_cons_self _ _) m
        · have hne2 : f.funcId ≠ top.funcId := by
            intro hc
            exact htoprest (hc ▸ List.mem_map.mpr ⟨f, h, rfl⟩)
          rw [if_neg (fun (hc : f.funcId = top.funcId ∧ m = nm) => hne2 hc.1)]
          exact hcorr f (List.mem_cons_of_mem _ h) m
      have hres := ih (top' :: rest')
        (fun G m => if G = top.funcId ∧ m = nm then
          ((C G m).1, some (match mget top.versions nm with
            | none => 0
            | some w => w + 1))
        else C G m)
        hnodup hfresh' hsdup' hC0' hcorr' F n
      rw [hrun] at hres
      exact hres

end Ucg

namespace Ucg

/-- C3 counterexample: in `def f(a, b=a)` the parameter list yields two Name
tokens for `a` (the declaration and the default-value reference); both are
routed through emit_param and both carry version 0, so the version sequence for
`(f, "a")` is `[0, 0]`, not the gap-free `0, 1, 2, …` (= `List.range`) the spec
asserts for each subsequent row of the same name. -/
theorem c3_counterexample_dup_param_repeats_version_zero :
    Dfg.emittedVersionsFor (Dfg.build {} exDupParamPs).1
      (Dfg.funcIdOf {} exFm 0) "a" = [0, 0] ∧
    ¬ (Dfg.emittedVersionsFor (Dfg.build {} exDupParamPs).1
        (Dfg.funcIdOf {} exFm 0) "a" =
      List.range (Dfg.emittedVersionsFor (Dfg.build {} exDupParamPs).1
        (Dfg.funcIdOf {} exFm 0) "a").length) := by
  decide

/-- C3 (amended): for every `(func_id, name)`, the PARAM/VAR_DEF rows the DFG
builder emits, in emission order, are accepted by the version-sequence checker:
every PARAM row carries version 0 (and may repeat without advancing the
sequence), and every VAR_DEF row carries exactly one more than the previous
VAR_DEF of that name — the first being 0, or 1 when a PARAM of that name was
already seen. Holds whenever the function ids created by the stream's function
ENTER events are pairwise distinct. -/
theorem c3_amended_version_sequence_checker (cfg : Dfg.Config)
    (ps : ParseStream)
    (hnodup : (Dfg.enterFuncIds cfg ps.file (ps.events.getD [])).Nodup) :
    ∀ F n, (Dfg.runChecker (false, none)
      (Dfg.emittedFor (Dfg.build cfg ps).1 F n)).isSome := by
  intro F n
  rcases hev : ps.events with _ | evs
  · simp [Dfg.build, hev, Dfg.emittedFor, Dfg.runChecker]
  · rw [hev] at hnodup
    simp only [Option.getD_some] at hnodup
    unfold Dfg.build
    rw [hev]
    dsimp only
    by_cases hok : ps.ok
    · rw [if_pos hok]
      exact dfg_checker_invariant cfg ps.file ps.driver evs []
        (fun _ _ => (false, none)) hnodup (by intro f hf; cases hf) (by simp)
        (fun _ _ _ => rfl) (by intro f hf; cases hf) F n
    · rw [if_neg hok]
      simp [Dfg.emittedFor, Dfg.runChecker]

theorem c3_amended_version_sequence_checker_witness :
    (Dfg.enterFuncIds ({} : Dfg.Config) exDupParamPs.file
      (exDupParamPs.events.getD [])).Nodup ∧
    (Dfg.runChecker (false, none)
      (Dfg.emittedFor (Dfg.build {} exDupParamPs).1
        (Dfg.funcIdOf {} exFm 0) "a")).isSome :=
  ⟨by decide,
   c3_amended_version_sequence_checker {} exDupParamPs (by decide)
     (Dfg.funcIdOf {} exFm 0) "a"⟩

end Ucg

namespace Ucg

/-- Each DFG step reads only the path, blob_sha, lang, run_id and config_hash
fields of the file metadata. -/
theorem dfg_step_fm_view (dcfg : Dfg.Config) (p b r c : String) (s m1 m2 : Nat)
    (t1 t2 : Bool) (l : Lang) (info : Option DriverInfo)
    (stack : List Dfg.FuncState) (ev : Ev) :
    Dfg.step dcfg ⟨p, b, s, m1, r, c, t1, l⟩ info stack ev =
      Dfg.step dcfg ⟨p, b, s, m2, r, c, t2, l⟩ info stack ev := rfl

theorem dfg_run_fm_view (dcfg : Dfg.Config) (p b r c : String) (s m1 m2 : Nat)
    (t1 t2 : Bool) (l : Lang) (info : Option DriverInfo) (evs : List Ev) :
    ∀ stack, Dfg.runEvents dcfg ⟨p, b, s, m1, r, c, t1, l⟩ info stack evs =
      Dfg.runEvents dcfg ⟨p, b, s, m2, r, c, t2, l⟩ info stack evs := by
  induction evs with
  | nil => intro stack; rfl
  | cons ev rest ih =>
    intro stack
    rcases hs : Dfg.step dcfg ⟨p, b, s, m2, r, c, t2, l⟩ info stack ev with
      ⟨st1, outs, ans⟩
    simp only [Dfg.runEvents]
    rw [dfg_step_fm_view dcfg p b r c s m1 m2 t1 t2 l info stack ev, hs]
    dsimp only
    rw [ih st1]

/-- `step` on an EXIT event is `stepExitP` applied to the two parse results. -/
theorem sym_step_exit_abs (scfg : Sym.Config) (fm : FileMeta)
    (info : Option DriverInfo) (st : Sym.BState) (ty : String)
    (bs be ls le : Nat) (tx : String) :
    Sym.step scfg fm info st ⟨.exit, ty, bs, be, ls, le, tx⟩ =
      Sym.stepExitP scfg fm info st ⟨.exit, ty, bs, be, ls, le, tx⟩
        (Sym.parseImportLike fm.lang ⟨.exit, ty, bs, be, ls, le, tx⟩)
        (Sym.parseExportLike fm.lang ⟨.exit, ty, bs, be, ls, le, tx⟩) := rfl

theorem sym_stepExitP_fm_view (scfg : Sym.Config) (p b r c : String)
    (s m1 m2 : Nat) (t1 t2 : Bool) (l : Lang) (info : Option DriverInfo)
    (st : Sym.BState) (ev : Ev) (pri : List String × Bool) (pe : List String) :
    Sym.stepExitP scfg ⟨p, b, s, m1, r, c, t1, l⟩ info st ev pri pe =
      Sym.stepExitP scfg ⟨p, b, s, m2, r, c, t2, l⟩ info st ev pri pe := rfl

theorem sym_step_fm_view (scfg : Sym.Config) (p b r c : String)
    (s m1 m2 : Nat) (t1 t2 : Bool) (l : Lang) (info : Option DriverInfo)
    (st : Sym.BState) (ev : Ev) :
    Sym.step scfg ⟨p, b, s, m1, r, c, t1, l⟩ info st ev =
      Sym.step scfg ⟨p, b, s, m2, r, c, t2, l⟩ info st ev := by
  rcases ev with ⟨k, ty, bs, be, ls, le, tx⟩
  cases k
  · rfl
  · have hA := sym_step_exit_abs scfg ⟨p, b, s, m1, r, c, t1, l⟩ info st ty bs
      be ls le tx
    have hC := sym_step_exit_abs scfg ⟨p, b, s, m2, r, c, t2, l⟩ info st ty bs
      be ls le tx
    have hB := sym_stepExitP_fm_view scfg p b r c s m1 m2 t1 t2 l info st
      ⟨.exit, ty, bs, be, ls, le, tx⟩
      (Sym.parseImportLike l ⟨.exit, ty, bs, be, ls, le, tx⟩)
      (Sym.parseExportLike l ⟨.exit, ty, bs, be, ls, le, tx⟩)
    exact hA.trans (hB.trans hC.symm)
  · rfl

theorem sym_run_fm_view (scfg : Sym.Config) (p b r c : String)
    (s m1 m2 : Nat) (t1 t2 : Bool) (l : Lang) (info : Option DriverInfo)
    (evs : List Ev) :
    ∀ st, Sym.runEvents scfg ⟨p, b, s, m1, r, c, t1, l⟩ info st evs =
      Sym.runEvents scfg ⟨p, b, s, m2, r, c, t2, l⟩ info st evs := by
  induction evs with
  | nil => intro st; rfl
  | cons ev rest ih =>
    intro st
    simp only [Sym.runEvents]
    rw [sym_step_fm_view scfg p b r c s m1 m2 t1 t2 l info st ev]
    rcases hs : Sym.step scfg ⟨p, b, s, m2, r, c, t2, l⟩ info st ev with
      ⟨st1, outs, ans⟩ | _
    · dsimp only
      rw [ih st1]
    · rfl

theorem sym_build_fm_view (scfg : Sym.Config) (p b r c : String)
    (s m1 m2 : Nat) (t1 t2 : Bool) (l : Lang) (drv : Option DriverInfo)
    (evts : Option (List Ev)) (ok : Bool) (err : Option String) :
    Sym.build scfg ⟨⟨p, b, s, m1, r, c, t1, l⟩, drv, evts, ok, err⟩ =
      Sym.build scfg ⟨⟨p, b, s, m2, r, c, t2, l⟩, drv, evts, ok, err⟩ := by
  rcases evts with _ | evs
  · rfl
  · cases ok
    · have e1 : Sym.build scfg ⟨⟨p, b, s, m1, r, c, t1, l⟩, drv, some evs,
          false, err⟩ =
          ([], [{ path := p, blobSha := some b, kind := .parseFailed,
                  severity := .error,
                  detail := err.getD "parse stream missing" }]) := rfl
      have e2 : Sym.build scfg ⟨⟨p, b, s, m2, r, c, t2, l⟩, drv, some evs,
          false, err⟩ =
          ([], [{ path := p, blobSha := some b, kind := .parseFailed,
                  severity := .error,
                  detail := err.getD "parse stream missing" }]) := rfl
      exact e1.trans e2.symm
    · simp only [Sym.build]
      simp only [sym_run_fm_view scfg p b r c s m1 m2 t1 t2 l drv evs]
      rfl

theorem norm_step_fm_view (ncfg : Norm.Config) (p b r c : String)
    (s m1 m2 : Nat) (t1 t2 : Bool) (l : Lang) (info : Option DriverInfo)
    (fid : SId) (st : Norm.NState) (ev : Ev) :
    Norm.step ncfg ⟨p, b, s, m1, r, c, t1, l⟩ info fid st ev =
      Norm.step ncfg ⟨p, b, s, m2, r, c, t2, l⟩ info fid st ev := rfl

theorem norm_run_fm_view (ncfg : Norm.Config) (p b r c : String)
    (s m1 m2 : Nat) (t1 t2 : Bool) (l : Lang) (info : Option DriverInfo)
    (fid : SId) (evs : List Ev) :
    ∀ st, Norm.runEvents ncfg ⟨p, b, s, m1, r, c, t1, l⟩ info fid st evs =
      Norm.runEvents ncfg ⟨p, b, s, m2, r, c, t2, l⟩ info fid st evs := by
  induction evs with
  | nil => intro st; rfl
  | cons ev rest ih =>
    intro st
    simp only [Norm.runEvents]
    rw [norm_step_fm_view ncfg p b r c s m1 m2 t1 t2 l info fid st ev]
    rcases hs : Norm.step ncfg ⟨p, b, s, m2, r, c, t2, l⟩ info fid st ev with
      ⟨ost, outs, ans⟩
    rcases ost with _ | st1
    · rfl
    · dsimp only
      rw [ih st1]

theorem norm_synEnds_fm_view (ncfg : Norm.Config) (p b r c : String)
    (s m1 m2 : Nat) (t1 t2 : Bool) (l : Lang) (info : Option DriverInfo) :
    ∀ (lastEv : Ev) (scopes : List Norm.Scope),
      Norm.syntheticEnds ncfg ⟨p, b, s, m1, r, c, t1, l⟩ info lastEv scopes =
        Norm.syntheticEnds ncfg ⟨p, b, s, m2, r, c, t2, l⟩ info lastEv scopes := by
  intro lastEv scopes
  induction scopes with
  | nil => rfl
  | cons sc rest ih =>
    simp only [Norm.syntheticEnds]
    rw [ih]
    rfl

theorem norm_build_fm_view (ncfg : Norm.Config) (p b r c : String)
    (s m1 m2 : Nat) (t1 t2 : Bool) (l : Lang) (drv : Option DriverInfo)
    (evts : Option (List Ev)) (ok : Bool) (err : Option String) :
    Norm.build ncfg ⟨⟨p, b, s, m1, r, c, t1, l⟩, drv, evts, ok, err⟩ =
      Norm.build ncfg ⟨⟨p, b, s, m2, r, c, t2, l⟩, drv, evts, ok, err⟩ := by
  rcases evts with _ | evs
  · rfl
  · cases ok
    · rfl
    · simp only [Norm.build]
      simp only [norm_run_fm_view ncfg p b r c s m1 m2 t1 t2 l drv]
      simp only [norm_synEnds_fm_view ncfg p b r c s m1 m2 t1 t2 l drv]
      rfl

theorem eff_step_fm_view (ecfg : Eff.Config) (p b r c : String)
    (s m1 m2 : Nat) (t1 t2 : Bool) (l : Lang) (info : Option DriverInfo)
    (st : Eff.EState) (ev : Ev) :
    Eff.step ecfg ⟨p, b, s, m1, r, c, t1, l⟩ info st ev =
      Eff.step ecfg ⟨p, b, s, m2, r, c, t2, l⟩ info st ev := rfl

theorem eff_run_fm_view (ecfg : Eff.Config) (p b r c : String)
    (s m1 m2 : Nat) (t1 t2 : Bool) (l : Lang) (info : Option DriverInfo)
    (evs : List Ev) :
    ∀ st, Eff.runEvents ecfg ⟨p, b, s, m1, r, c, t1, l⟩ info st evs =
      Eff.runEvents ecfg ⟨p, b, s, m2, r, c, t2, l⟩ info st evs := by
  induction evs with
  | nil => intro st; rfl
  | cons ev rest ih =>
    intro st
    simp only [Eff.runEvents]
    rw [eff_step_fm_view ecfg p b r c s m1 m2 t1 t2 l info st ev]
    rcases hs : Eff.step ecfg ⟨p, b, s, m2, r, c, t2, l⟩ info st ev with
      ⟨st1, rows⟩
    dsimp only
    rw [ih st1]

theorem eff_build_fm_view (ecfg : Eff.Config) (p b r c : String)
    (s m1 m2 : Nat) (t1 t2 : Bool) (l : Lang) (info : Option DriverInfo)
    (events : List Ev) :
    Eff.build ecfg ⟨p, b, s, m1, r, c, t1, l⟩ info events =
      Eff.build ecfg ⟨p, b, s, m2, r, c, t2, l⟩ info events := by
  simp only [Eff.build]
  simp only [eff_run_fm_view ecfg p b r c s m1 m2 t1 t2 l info events]
  rfl

theorem cfg_step_fm_view (ccfg : Cfg.Config) (p b r c : String)
    (s m1 m2 : Nat) (t1 t2 : Bool) (l : Lang) (info : Option DriverInfo)
    (stack : List Cfg.FuncState) (ev : Ev) :
    Cfg.step ccfg ⟨p, b, s, m1, r, c, t1, l⟩ info stack ev =
      Cfg.step ccfg ⟨p, b, s, m2, r, c, t2, l⟩ info stack ev := rfl

theorem cfg_run_fm_view (ccfg : Cfg.Config) (p b r c : String)
    (s m1 m2 : Nat) (t1 t2 : Bool) (l : Lang) (info : Option DriverInfo)
    (evs : List Ev) :
    ∀ stack, Cfg.runEvents ccfg ⟨p, b, s, m1, r, c, t1, l⟩ info stack evs =
      Cfg.runEvents ccfg ⟨p, b, s, m2, r, c, t2, l⟩ info stack evs := by
  induction evs with
  | nil => intro stack; rfl
  | cons ev rest ih =>
    intro stack
    simp only [Cfg.runEvents]
    rw [cfg_step_fm_view ccfg p b r c s m1 m2 t1 t2 l info stack ev]
    rcases hs : Cfg.step ccfg ⟨p, b, s, m2, r, c, t2, l⟩ info stack ev with
      ⟨stack1, outs, ans⟩
    dsimp only
    rw [ih stack1]

theorem cfg_synthEnds_fm_view (ccfg : Cfg.Config) (p b r c : String)
    (s m1 m2 : Nat) (t1 t2 : Bool) (l : Lang) (info : Option DriverInfo) :
    ∀ stack, Cfg.synthEnds ccfg ⟨p, b, s, m1, r, c, t1, l⟩ info stack =
      Cfg.synthEnds ccfg ⟨p, b, s, m2, r, c, t2, l⟩ info stack := by
  intro stack
  induction stack with
  | nil => rfl
  | cons func rest ih =>
    simp only [Cfg.synthEnds]
    rw [ih]
    rfl

theorem cfg_build_fm_view (ccfg : Cfg.Config) (p b r c : String)
    (s m1 m2 : Nat) (t1 t2 : Bool) (l : Lang) (drv : Option DriverInfo)
    (evts : Option (List Ev)) (ok : Bool) (err : Option String) :
    Cfg.build ccfg ⟨⟨p, b, s, m1, r, c, t1, l⟩, drv, evts, ok, err⟩ =
      Cfg.build ccfg ⟨⟨p, b, s, m2, r, c, t2, l⟩, drv, evts, ok, err⟩ := by
  rcases evts with _ | evs
  · rfl
  · cases ok
    · rfl
    · simp only [Cfg.build]
      rw [cfg_run_fm_view ccfg p b r c s m1 m2 t1 t2 l drv evs []]
      rcases h : Cfg.runEvents ccfg ⟨p, b, s, m2, r, c, t2, l⟩ drv [] evs with
        ⟨outs, ans, fin⟩
      dsimp only
      rw [cfg_synthEnds_fm_view ccfg p b r c s m1 m2 t1 t2 l drv fin]

/-- C5: determinism. Every pipeline builder's full output — every row, every
id, every anomaly of the DFG, Normalizer, Symbols, Effects and CFG builders —
is a function of the input bytes' identity (path, blob_sha, size_bytes), the
language, the run id, the config hash, the driver info (grammar sha) and the
event stream alone: two runs over the same input with identical configuration
agree exactly, with no dependence on the file's mtime_ns or is_text flag (nor
any other ambient state — the builders are pure functions of these inputs, as
`_stable_id` hashes only salt, path, blob_sha and structural keys). -/
theorem c5_determinism_two_runs (dcfg : Dfg.Config) (ncfg : Norm.Config)
    (scfg : Sym.Config) (ecfg : Eff.Config) (ccfg : Cfg.Config)
    (ps1 ps2 : ParseStream)
    (hpath : ps1.file.path = ps2.file.path)
    (hblob : ps1.file.blobSha = ps2.file.blobSha)
    (hsize : ps1.file.sizeBytes = ps2.file.sizeBytes)
    (hlang : ps1.file.lang = ps2.file.lang)
    (hrid : ps1.file.runId = ps2.file.runId)
    (hch : ps1.file.configHash = ps2.file.configHash)
    (hdrv : ps1.driver = ps2.driver)
    (hev : ps1.events = ps2.events)
    (hok : ps1.ok = ps2.ok)
    (herr : ps1.error = ps2.error) :
    Dfg.build dcfg ps1 = Dfg.build dcfg ps2 ∧
    Norm.build ncfg ps1 = Norm.build ncfg ps2 ∧
    Sym.build scfg ps1 = Sym.build scfg ps2 ∧
    Eff.build ecfg ps1.file ps1.driver (ps1.events.getD []) =
      Eff.build ecfg ps2.file ps2.driver (ps2.events.getD []) ∧
    Cfg.build ccfg ps1 = Cfg.build ccfg ps2 := by
  rcases ps1 with ⟨fm1, drv1, ev1, ok1, err1⟩
  rcases ps2 with ⟨fm2, drv2, ev2, ok2, err2⟩
  rcases fm1 with ⟨p1, b1, s1, m1, r1, c1, t1, l1⟩
  rcases fm2 with ⟨p2, b2, s2, m2, r2, c2, t2, l2⟩
  simp only at hpath hblob hsize hlang hrid hch hdrv hev hok herr
  subst hpath; subst hblob; subst hsize; subst hlang; subst hrid
  subst hch; subst hdrv; subst hev; subst hok; subst herr
  refine ⟨?_, ?_, ?_, ?_, ?_⟩
  · rcases ev1 with _ | evs
    · rfl
    · cases ok1
      · rfl
      · exact dfg_run_fm_view dcfg p1 b1 r1 c1 s1 m1 m2 t1 t2 l1 drv1 evs []
  · exact norm_build_fm_view ncfg p1 b1 r1 c1 s1 m1 m2 t1 t2 l1 drv1 ev1 ok1 err1
  · exact sym_build_fm_view scfg p1 b1 r1 c1 s1 m1 m2 t1 t2 l1 drv1 ev1 ok1 err1
  · exact eff_build_fm_view ecfg p1 b1 r1 c1 s1 m1 m2 t1 t2 l1 drv1 (ev1.getD [])
  · exact cfg_build_fm_view ccfg p1 b1 r1 c1 s1 m1 m2 t1 t2 l1 drv1 ev1 ok1 err1

theorem c5_determinism_two_runs_witness :
    Dfg.build {} exSelfAssignPs = Dfg.build {} exSelfAssignLaterPs ∧
    Norm.build {} exSelfAssignPs = Norm.build {} exSelfAssignLaterPs ∧
    Sym.build {} exSelfAssignPs = Sym.build {} exSelfAssignLaterPs ∧
    Eff.build {} exSelfAssignPs.file exSelfAssignPs.driver
        (exSelfAssignPs.events.getD []) =
      Eff.build {} exSelfAssignLaterPs.file exSelfAssignLaterPs.driver
        (exSelfAssignLaterPs.events.getD []) ∧
    Cfg.build {} exSelfAssignPs = Cfg.build {} exSelfAssignLaterPs :=
  c5_determinism_two_runs {} {} {} {} {} exSelfAssignPs exSelfAssignLaterPs
    rfl rfl rfl rfl rfl rfl rfl rfl rfl rfl

end Ucg

namespace Ucg

theorem sym_contains_cons (l : List SId) (x v : SId)
    (h : l.contains v = true) : (x :: l).contains v = true := by
  simp only [List.contains_cons, Bool.or_eq_true]
  exact Or.inr h

theorem sym_contains_self (l : List SId) (v : SId) :
    (v :: l).contains v = true := by
  simp [List.contains_cons]

theorem sym_seenAfter_mono : ∀ (outs : List Sym.Out) (seen : List SId)
    (v : SId), seen.contains v = true →
    (Sym.seenAfter seen outs).contains v = true := by
  intro outs
  induction outs with
  | nil => intro seen v h; exact h
  | cons o rest ih =>
    intro seen v h
    rcases o with ⟨tag, item⟩
    rcases item with s | a
    · exact ih (s.id :: seen) v (sym_contains_cons seen s.id v h)
    · exact ih seen v h

theorem sym_seenAfter_append (a b : List Sym.Out) (seen : List SId) :
    Sym.seenAfter seen (a ++ b) = Sym.seenAfter (Sym.seenAfter seen a) b := by
  simp [Sym.seenAfter, List.foldl_append]

theorem sym_checkSound_append : ∀ (a : List Sym.Out) (seen : List SId)
    (b : List Sym.Out),
    Sym.checkAliasSound seen (a ++ b) =
      (Sym.checkAliasSound seen a &&
        Sym.checkAliasSound (Sym.seenAfter seen a) b) := by
  intro a
  induction a with
  | nil => intro seen b; simp [Sym.checkAliasSound, Sym.seenAfter]
  | cons o rest ih =>
    intro seen b
    rcases o with ⟨tag, item⟩
    rcases item with s | al
    · simp only [List.cons_append, Sym.checkAliasSound]
      exact ih (s.id :: seen) b
    · simp only [List.cons_append, Sym.checkAliasSound, List.append_eq]
      rw [ih seen b, Bool.and_assoc]
      rfl

theorem sym_checkNonEmpty_append (a b : List Sym.Out) :
    Sym.checkAliasNonEmpty (a ++ b) =
      (Sym.checkAliasNonEmpty a && Sym.checkAliasNonEmpty b) := by
  simp [Sym.checkAliasNonEmpty, List.all_append]

theorem sym_symOK_cons {st : Sym.BState} {seen : List SId}
    (h : Sym.SymOK st seen) (x : SId) : Sym.SymOK st (x :: seen) :=
  fun k v hm => sym_contains_cons seen x v (h k v hm)

theorem sym_symOK_grow {st : Sym.BState} {seen : List SId}
    (h : Sym.SymOK st seen) (outs : List Sym.Out) :
    Sym.SymOK st (Sym.seenAfter seen outs) :=
  fun k v hm => sym_seenAfter_mono outs seen v (h k v hm)

theorem sym_symOK_of_idx {st st' : Sym.BState} {seen : List SId}
    (hidx : st'.symIndex = st.symIndex) (h : Sym.SymOK st seen) :
    Sym.SymOK st' seen :=
  fun k v hm => h k v (hidx ▸ hm)

theorem sym_symOK_mset {st st' : Sym.BState} {seen : List SId}
    (key : SId × String) (nid : SId)
    (hidx : st'.symIndex = mset st.symIndex key nid)
    (h : Sym.SymOK st seen) : Sym.SymOK st' (nid :: seen) := by
  intro k v hm
  rw [hidx] at hm
  by_cases hk : k = key
  · subst hk
    rw [mget_mset_self] at hm
    cases hm
    exact sym_contains_self seen nid
  · rw [mget_mset_other _ _ _ _ hk] at hm
    exact sym_contains_cons seen nid v (h k v hm)

end Ucg

namespace Ucg

theorem sym_impFold_ok (scfg : Sym.Config) (fm : FileMeta)
    (info : Option DriverInfo) (topId : SId) (ev : Ev) :
    ∀ (names : List String) (st : Sym.BState) (acc : List Sym.Out)
      (seen : List SId),
      Sym.SymOK st (Sym.seenAfter seen acc) →
      Sym.checkAliasNonEmpty acc = true →
      Sym.checkAliasSound seen acc = true →
      Sym.checkAliasNonEmpty
        (List.foldl (Sym.impFoldF scfg fm info topId ev) (st, acc) names).2 =
          true ∧
      Sym.checkAliasSound seen
        (List.foldl (Sym.impFoldF scfg fm info topId ev) (st, acc) names).2 =
          true ∧
      Sym.SymOK
        (List.foldl (Sym.impFoldF scfg fm info topId ev) (st, acc) names).1
        (Sym.seenAfter seen
          (List.foldl (Sym.impFoldF scfg fm info topId ev) (st, acc) names).2) := by
  intro names
  induction names with
  | nil => intro st acc seen h1 h2 h3; exact ⟨h2, h3, h1⟩
  | cons nm rest ih =>
    intro st acc seen h1 h2 h3
    rw [List.foldl_cons]
    refine ih _ _ seen ?_ ?_ ?_
    · dsimp only [Sym.impFoldF]
      rw [sym_seenAfter_append]
      exact sym_symOK_mset (topId, nm)
        (Sym.symbolRow scfg fm info topId nm .imp "public" false ev).id rfl h1
    · dsimp only [Sym.impFoldF]
      rw [sym_checkNonEmpty_append, h2]
      rfl
    · dsimp only [Sym.impFoldF]
      rw [sym_checkSound_append, h3]
      rfl

theorem sym_expFold_ok (scfg : Sym.Config) (fm : FileMeta)
    (info : Option DriverInfo) (topId : SId) (ev : Ev) :
    ∀ (names : List String) (st : Sym.BState) (acc : List Sym.Out)
      (seen : List SId),
      Sym.SymOK st (Sym.seenAfter seen acc) →
      Sym.checkAliasNonEmpty acc = true →
      Sym.checkAliasSound seen acc = true →
      Sym.checkAliasNonEmpty
        (List.foldl (Sym.expFoldF scfg fm info topId ev) (st, acc) names).2 =
          true ∧
      Sym.checkAliasSound seen
        (List.foldl (Sym.expFoldF scfg fm info topId ev) (st, acc) names).2 =
          true ∧
      Sym.SymOK
        (List.foldl (Sym.expFoldF scfg fm info topId ev) (st, acc) names).1
        (Sym.seenAfter seen
          (List.foldl (Sym.expFoldF scfg fm info topId ev) (st, acc) names).2) := by
  intro names
  induction names with
  | nil => intro st acc seen h1 h2 h3; exact ⟨h2, h3, h1⟩
  | cons nm rest ih =>
    intro st acc seen h1 h2 h3
    rw [List.foldl_cons]
    refine ih _ _ seen ?_ ?_ ?_
    · dsimp only [Sym.expFoldF]
      rw [sym_seenAfter_append]
      refine sym_symOK_of_idx ?_ (sym_symOK_cons h1 _)
      dsimp only
      split <;> rfl
    · dsimp only [Sym.expFoldF]
      rw [sym_checkNonEmpty_append, h2]
      dsimp only [Sym.checkAliasNonEmpty, List.all]
      rcases hm : mget st.symIndex (topId, nm) with _ | v
      · simp [Sym.aliasRow, hm]
      · by_cases hv : v = []
        · simp [Sym.aliasRow, hm, hv]
        · simp [Sym.aliasRow, hm, hv]
    · dsimp only [Sym.expFoldF]
      rw [sym_checkSound_append, h3]
      dsimp only [Sym.checkAliasSound]
      rcases hm : mget st.symIndex (topId, nm) with _ | v
      · simp [Sym.aliasRow, Sym.checkAliasSound, hm]
      · by_cases hv : v = []
        · simp [Sym.aliasRow, Sym.checkAliasSound, hm, hv]
        · have hc : (Sym.seenAfter seen acc).contains v = true :=
            h1 (topId, nm) v hm
          simp [Sym.aliasRow, Sym.checkAliasSound, hm, hv]
          exact Or.inr (by simpa using hc)

end Ucg

namespace Ucg

theorem sym_stepExitP_alias_ok (scfg : Sym.Config) (fm : FileMeta)
    (info : Option DriverInfo) (st : Sym.BState) (ev : Ev)
    (pri : List String × Bool) (pe : List String) (seen : List SId)
    (hok : Sym.SymOK st seen) :
    Sym.stepExitP scfg fm info st ev pri pe = .halt ∨
    ∃ st' outs ans, Sym.stepExitP scfg fm info st ev pri pe =
        .next st' outs ans ∧
      Sym.checkAliasNonEmpty outs = true ∧
      Sym.checkAliasSound seen outs = true ∧
      Sym.SymOK st' (Sym.seenAfter seen outs) := by
  rcases pri with ⟨names0, ito⟩
  unfold Sym.stepExitP
  split
  · exact Or.inr ⟨_, [], [], rfl, rfl, rfl, hok⟩
  · split
    · exact Or.inr ⟨_, [], [], rfl, rfl, rfl, hok⟩
    · split
      · exact Or.inr ⟨_, [], [], rfl, rfl, rfl, hok⟩
      · split
        · -- import arm
          dsimp only
          split
          · exact Or.inl rfl
          · rename_i top rest2 heq2
            obtain ⟨h1, h2, h3⟩ := sym_impFold_ok scfg fm info top.id ev
              (if names0 = [] then [(Sym.extractNameToken ev).getD "<import>"]
               else names0) st [] seen hok rfl rfl
            exact Or.inr ⟨_, _, [], rfl, h1, h2, h3⟩
        · split
          · -- export arm
            dsimp only
            split
            · exact Or.inl rfl
            · rename_i top rest2 heq2
              obtain ⟨h1, h2, h3⟩ := sym_expFold_ok scfg fm info top.id ev
                (if pe = [] then [(Sym.extractNameToken ev).getD "<export>"]
                 else pe) st [] seen hok rfl rfl
              exact Or.inr ⟨_, _, [], rfl, h1, h2, h3⟩
          · exact Or.inr ⟨st, [], [], rfl, rfl, rfl, hok⟩

end Ucg

namespace Ucg

theorem sym_yieldDecl_idx (scfg : Sym.Config) (fm : FileMeta)
    (info : Option DriverInfo) (st : Sym.BState) (ev : Ev) (name : String)
    (kind : Sym.SymbolKind) (scopeId : SId) :
    (Sym.yieldDeclAndPush scfg fm info st ev name kind scopeId).1.symIndex =
      st.symIndex := by
  unfold Sym.yieldDeclAndPush
  split <;> rfl

set_option maxHeartbeats 1000000 in
/-- One build_symbols step preserves the C7 invariants: any aliases it emits
are dynamic-with-empty-target or reexports pointing at an already-emitted
symbol, and the sym_index keeps mapping only to already-emitted symbol ids. -/
theorem sym_step_alias_ok (scfg : Sym.Config) (fm : FileMeta)
    (info : Option DriverInfo) (st : Sym.BState) (ev : Ev) (seen : List SId)
    (hok : Sym.SymOK st seen) :
    Sym.step scfg fm info st ev = .halt ∨
    ∃ st' outs ans, Sym.step scfg fm info st ev = .next st' outs ans ∧
      Sym.checkAliasNonEmpty outs = true ∧
      Sym.checkAliasSound seen outs = true ∧
      Sym.SymOK st' (Sym.seenAfter seen outs) := by
  rcases ev with ⟨k, ty, bs, be, ls, le, tx⟩
  cases k
  · -- ENTER
    simp only [Sym.step]
    split
    · -- class declaration
      split
      · rename_i r heq
        exact Or.inr ⟨_, _, _, rfl, rfl, rfl,
          sym_symOK_of_idx (sym_yieldDecl_idx _ _ _ _ _ _ _ _)
            (sym_symOK_cons hok r.id)⟩
      · exact Or.inr ⟨_, _, _, rfl, rfl, rfl,
          sym_symOK_of_idx (sym_yieldDecl_idx _ _ _ _ _ _ _ _) hok⟩
    · split
      · -- function declaration
        split
        · rename_i r heq
          exact Or.inr ⟨_, _, _, rfl, rfl, rfl,
            sym_symOK_of_idx (sym_yieldDecl_idx _ _ _ _ _ _ _ _)
              (sym_symOK_cons hok r.id)⟩
        · exact Or.inr ⟨_, _, _, rfl, rfl, rfl,
            sym_symOK_of_idx (sym_yieldDecl_idx _ _ _ _ _ _ _ _) hok⟩
      · split
        · exact Or.inr ⟨_, [], [], rfl, rfl, rfl, hok⟩
        · exact Or.inr ⟨st, [], [], rfl, rfl, rfl, hok⟩
  · -- EXIT
    rw [sym_step_exit_abs]
    exact sym_stepExitP_alias_ok scfg fm info st ⟨.exit, ty, bs, be, ls, le, tx⟩
      _ _ seen hok
  · -- TOKEN
    simp only [Sym.step]
    split
    · rcases htx : Sym.safeTokenText ⟨.token, ty, bs, be, ls, le, tx⟩ with _ | pname
      · exact Or.inr ⟨st, [], [], rfl, rfl, rfl, hok⟩
      · dsimp only
        split
        · exact Or.inl rfl
        · rename_i top rest2 heq2
          exact Or.inr ⟨_, _, [], rfl, rfl, rfl,
            sym_symOK_mset (top.id, pname)
              (Sym.symbolRow scfg fm info top.id pname .param
                (Sym.visibilityFromName pname) false
                ⟨.token, ty, bs, be, ls, le, tx⟩).id rfl hok⟩
    · split
      · rcases htx : Sym.safeTokenText ⟨.token, ty, bs, be, ls, le, tx⟩ with _ | vname
        · exact Or.inr ⟨st, [], [], rfl, rfl, rfl, hok⟩
        · dsimp only
          split
          · exact Or.inl rfl
          · rename_i top rest2 heq2
            exact Or.inr ⟨_, _, [], rfl, rfl, rfl,
              sym_symOK_mset (top.id, vname)
                (Sym.symbolRow scfg fm info top.id vname .variable
                  (Sym.visibilityFromName vname) false
                  ⟨.token, ty, bs, be, ls, le, tx⟩).id rfl hok⟩
      · exact Or.inr ⟨st, [], [], rfl, rfl, rfl, hok⟩

end Ucg

namespace Ucg

theorem sym_run_alias_ok (scfg : Sym.Config) (fm : FileMeta)
    (info : Option DriverInfo) :
    ∀ (evs : List Ev) (st : Sym.BState) (seen : List SId),
      Sym.SymOK st seen →
      Sym.checkAliasNonEmpty (Sym.runEvents scfg fm info st evs).1 = true ∧
      Sym.checkAliasSound seen (Sym.runEvents scfg fm info st evs).1 = true := by
  intro evs
  induction evs with
  | nil => intro st seen hok; exact ⟨rfl, rfl⟩
  | cons ev rest ih =>
    intro st seen hok
    rcases sym_step_alias_ok scfg fm info st ev seen hok with
      hhalt | ⟨st1, outs, ans, hstep, h1, h2, h3⟩
    · simp only [Sym.runEvents, hhalt]
      exact ⟨rfl, rfl⟩
    · simp only [Sym.runEvents, hstep]
      rcases hrun : Sym.runEvents scfg fm info st1 rest with ⟨outs2, ans2, fin⟩
      dsimp only
      obtain ⟨g1, g2⟩ := ih st1 (Sym.seenAfter seen outs) h3
      rw [hrun] at g1 g2
      constructor
      · rw [sym_checkNonEmpty_append, h1, g1]
        rfl
      · rw [sym_checkSound_append, h2, g2]
        rfl

end Ucg


namespace Ucg

/-- C7: every AliasRow the Symbols builder emits with alias_kind other than
`dynamic` carries a non-empty target_symbol_id, and every
assign/reexport/import alias with a non-empty target points at the id of a
SymbolRow emitted strictly earlier in the same file's output (the reexport
target comes from sym_index, which maps only to ids of already-emitted
symbols; the only other alias kind the source ever emits is `dynamic`, whose
target is empty). -/
theorem c7_alias_targets_sound (scfg : Sym.Config) (ps : ParseStream) :
    Sym.checkAliasNonEmpty (Sym.build scfg ps).1 = true ∧
    Sym.checkAliasSound [] (Sym.build scfg ps).1 = true := by
  rcases ps with ⟨fm, drv, evts, ok, err⟩
  rcases scfg with ⟨salt, maxd, ems⟩
  rcases evts with _ | evs
  · exact ⟨rfl, rfl⟩
  · cases ok
    · exact ⟨rfl, rfl⟩
    · cases ems
      · rcases hrun : Sym.runEvents ⟨salt, maxd, false⟩ fm drv
            (Sym.initBState ⟨salt, maxd, false⟩ fm) evs with ⟨outs, ans, fin⟩
        obtain ⟨g1, g2⟩ := sym_run_alias_ok ⟨salt, maxd, false⟩ fm drv evs
          (Sym.initBState ⟨salt, maxd, false⟩ fm) []
          (fun k v hm => nomatch hm)
        rw [hrun] at g1 g2
        unfold Sym.build
        dsimp only
        rw [if_neg (by simp : ¬ (¬ true = true))]
        rw [if_neg (by simp : ¬ ((false : Bool) = true))]
        dsimp only
        simp only [Sym.initBState, Sym.initScope] at hrun
        rw [hrun]
        exact ⟨g1, g2⟩
      · rcases hrun : Sym.runEvents ⟨salt, maxd, true⟩ fm drv
            (Sym.initBState ⟨salt, maxd, true⟩ fm) evs with ⟨outs, ans, fin⟩
        obtain ⟨g1, g2⟩ := sym_run_alias_ok ⟨salt, maxd, true⟩ fm drv evs
          (Sym.initBState ⟨salt, maxd, true⟩ fm)
          [(Sym.initModSym ⟨salt, maxd, true⟩ fm drv).id]
          (fun k v hm => nomatch hm)
        rw [hrun] at g1 g2
        unfold Sym.build
        dsimp only
        rw [if_neg (by simp : ¬ (¬ true = true))]
        rw [if_pos (rfl : (true : Bool) = true)]
        dsimp only
        simp only [Sym.initBState, Sym.initScope, Sym.initModSym] at hrun
        rw [hrun]
        simp only [Sym.initModSym, Sym.initScope] at g2
        constructor
        · rw [sym_checkNonEmpty_append, g1]
          rfl
        · rw [sym_checkSound_append]
          refine (Bool.and_eq_true _ _).mpr ⟨rfl, ?_⟩
          exact g2

end Ucg

namespace Ucg

theorem sym_checkNoAssign_append (a b : List Sym.Out) :
    Sym.checkNoAssign (a ++ b) =
      (Sym.checkNoAssign a && Sym.checkNoAssign b) := by
  simp [Sym.checkNoAssign, List.all_append]

theorem sym_impFold_noassign (scfg : Sym.Config) (fm : FileMeta)
    (info : Option DriverInfo) (topId : SId) (ev : Ev) :
    ∀ (names : List String) (st : Sym.BState) (acc : List Sym.Out),
      Sym.checkNoAssign acc = true →
      Sym.checkNoAssign
        (List.foldl (Sym.impFoldF scfg fm info topId ev) (st, acc) names).2 =
        true := by
  intro names
  induction names with
  | nil => intro st acc h; exact h
  | cons nm rest ih =>
    intro st acc h
    rw [List.foldl_cons]
    refine ih _ _ ?_
    dsimp only [Sym.impFoldF]
    rw [sym_checkNoAssign_append, h]
    rfl

theorem sym_expFold_noassign (scfg : Sym.Config) (fm : FileMeta)
    (info : Option DriverInfo) (topId : SId) (ev : Ev) :
    ∀ (names : List String) (st : Sym.BState) (acc : List Sym.Out),
      Sym.checkNoAssign acc = true →
      Sym.checkNoAssign
        (List.foldl (Sym.expFoldF scfg fm info topId ev) (st, acc) names).2 =
        true := by
  intro names
  induction names with
  | nil => intro st acc h; exact h
  | cons nm rest ih =>
    intro st acc h
    rw [List.foldl_cons]
    refine ih _ _ ?_
    dsimp only [Sym.expFoldF]
    rw [sym_checkNoAssign_append, h]
    rcases hm : mget st.symIndex (topId, nm) with _ | v
    · simp [Sym.checkNoAssign, Sym.aliasRow, hm]
    · by_cases hv : v = []
      · simp [Sym.checkNoAssign, Sym.aliasRow, hm, hv]
      · simp [Sym.checkNoAssign, Sym.aliasRow, hm, hv]

theorem sym_stepExitP_noassign (scfg : Sym.Config) (fm : FileMeta)
    (info : Option DriverInfo) (st : Sym.BState) (ev : Ev)
    (pri : List String × Bool) (pe : List String) :
    Sym.stepExitP scfg fm info st ev pri pe = .halt ∨
    ∃ st' outs ans, Sym.stepExitP scfg fm info st ev pri pe =
        .next st' outs ans ∧ Sym.checkNoAssign outs = true := by
  rcases pri with ⟨names0, ito⟩
  unfold Sym.stepExitP
  split
  · exact Or.inr ⟨_, [], [], rfl, rfl⟩
  · split
    · exact Or.inr ⟨_, [], [], rfl, rfl⟩
    · split
      · exact Or.inr ⟨_, [], [], rfl, rfl⟩
      · split
        · dsimp only
          split
          · exact Or.inl rfl
          · rename_i top rest2 heq2
            exact Or.inr ⟨_, _, [], rfl,
              sym_impFold_noassign scfg fm info top.id ev _ st [] rfl⟩
        · split
          · dsimp only
            split
            · exact Or.inl rfl
            · rename_i top rest2 heq2
              exact Or.inr ⟨_, _, [], rfl,
                sym_expFold_noassign scfg fm info top.id ev _ st [] rfl⟩
          · exact Or.inr ⟨st, [], [], rfl, rfl⟩

set_option maxHeartbeats 1000000 in
theorem sym_step_noassign (scfg : Sym.Config) (fm : FileMeta)
    (info : Option DriverInfo) (st : Sym.BState) (ev : Ev) :
    Sym.step scfg fm info st ev = .halt ∨
    ∃ st' outs ans, Sym.step scfg fm info st ev = .next st' outs ans ∧
      Sym.checkNoAssign outs = true := by
  rcases ev with ⟨k, ty, bs, be, ls, le, tx⟩
  cases k
  · simp only [Sym.step]
    split
    · split
      · exact Or.inr ⟨_, _, _, rfl, rfl⟩
      · exact Or.inr ⟨_, _, _, rfl, rfl⟩
    · split
      · split
        · exact Or.inr ⟨_, _, _, rfl, rfl⟩
        · exact Or.inr ⟨_, _, _, rfl, rfl⟩
      · split
        · exact Or.inr ⟨_, [], [], rfl, rfl⟩
        · exact Or.inr ⟨st, [], [], rfl, rfl⟩
  · rw [sym_step_exit_abs]
    exact sym_stepExitP_noassign scfg fm info st
      ⟨.exit, ty, bs, be, ls, le, tx⟩ _ _
  · simp only [Sym.step]
    split
    · rcases htx : Sym.safeTokenText ⟨.token, ty, bs, be, ls, le, tx⟩ with _ | pname
      · exact Or.inr ⟨st, [], [], rfl, rfl⟩
      · dsimp only
        split
        · exact Or.inl rfl
        · exact Or.inr ⟨_, _, [], rfl, rfl⟩
    · split
      · rcases htx : Sym.safeTokenText ⟨.token, ty, bs, be, ls, le, tx⟩ with _ | vname
        · exact Or.inr ⟨st, [], [], rfl, rfl⟩
        · dsimp only
          split
          · exact Or.inl rfl
          · exact Or.inr ⟨_, _, [], rfl, rfl⟩
      · exact Or.inr ⟨st, [], [], rfl, rfl⟩

theorem sym_run_noassign (scfg : Sym.Config) (fm : FileMeta)
    (info : Option DriverInfo) :
    ∀ (evs : List Ev) (st : Sym.BState),
      Sym.checkNoAssign (Sym.runEvents scfg fm info st evs).1 = true := by
  intro evs
  induction evs with
  | nil => intro st; rfl
  | cons ev rest ih =>
    intro st
    rcases sym_step_noassign scfg fm info st ev with
      hhalt | ⟨st1, outs, ans, hstep, h1⟩
    · simp only [Sym.runEvents, hhalt]
      rfl
    · simp only [Sym.runEvents, hstep]
      rcases hrun : Sym.runEvents scfg fm info st1 rest with ⟨outs2, ans2, fin⟩
      dsimp only
      have g1 := ih st1
      rw [hrun] at g1
      rw [sym_checkNoAssign_append, h1, g1]
      rfl

end Ucg

namespace Ucg

set_option maxHeartbeats 1000000 in
/-- Every DFG output row is tagged "dfg_node" or "dfg_edge": the generator has
no alias-hint channel. -/
theorem dfg_step_tags (cfg : Dfg.Config) (fm : FileMeta)
    (info : Option DriverInfo) (stack : List Dfg.FuncState) (ev : Ev) :
    ∀ o ∈ (Dfg.step cfg fm info stack ev).2.1,
      o.1 = "dfg_node" ∨ o.1 = "dfg_edge" := by
  unfold Dfg.step
  split
  · simp
  · split
    · simp
    · rename_i func rest
      split
      · simp
      · split
        · split <;> split <;> simp
        · split
          · split
            · intro o ho
              simp only [Dfg.emitParam, List.mem_singleton] at ho
              subst ho
              simp
            · simp
          · split
            · split
              · simp
              · split
                · intro o ho
                  simp only [Dfg.emitVarDef, List.mem_singleton] at ho
                  subst ho
                  simp
                · intro o ho
                  simp only [Dfg.emitVarUse] at ho
                  simp at ho
                  rcases ho with h | h <;> subst h <;> simp
            · split
              · split
                rename_i outs litId heq
                have houts : ∀ o ∈ outs, o.1 = "dfg_node" := by
                  intro o ho
                  have h2 : o ∈ (Dfg.emitLiteral cfg fm info func ev).1 := by
                    rw [heq]
                    exact ho
                  revert h2
                  unfold Dfg.emitLiteral
                  split
                  · simp
                  · intro h2
                    simp at h2
                    subst h2
                    simp
                rcases litId with _ | lid <;>
                  rcases func.pendingLiterals.getLast? with _ | target
                · exact fun o ho => Or.inl (houts o ho)
                · exact fun o ho => Or.inl (houts o ho)
                · exact fun o ho => Or.inl (houts o ho)
                · intro o ho
                  rcases List.mem_append.mp ho with h | h
                  · exact Or.inl (houts o h)
                  · simp only [Dfg.emitConstPart] at h
                    simp at h
                    subst h
                    simp
              · simp
        · split
          · simp
          · split
            · simp
            · split
              · split
                · simp
                · simp
              · simp

theorem dfg_run_tags (cfg : Dfg.Config) (fm : FileMeta)
    (info : Option DriverInfo) :
    ∀ (evs : List Ev) (stack : List Dfg.FuncState),
      ∀ o ∈ (Dfg.runEvents cfg fm info stack evs).1,
        o.1 = "dfg_node" ∨ o.1 = "dfg_edge" := by
  intro evs
  induction evs with
  | nil =>
    intro stack o ho
    simp [Dfg.runEvents] at ho
  | cons ev rest ih =>
    intro stack o ho
    rcases hstep : Dfg.step cfg fm info stack ev with ⟨st1, outs, ans⟩
    rcases hrun : Dfg.runEvents cfg fm info st1 rest with ⟨outs2, ans2⟩
    have hout : (Dfg.runEvents cfg fm info stack (ev :: rest)).1 =
        outs ++ outs2 := by
      rw [Dfg.runEvents, hstep]
      dsimp only
      rw [hrun]
    rw [hout] at ho
    rcases List.mem_append.mp ho with h | h
    · exact dfg_step_tags cfg fm info stack ev o (by rw [hstep]; exact h)
    · exact ih st1 o (by rw [hrun]; exact h)

theorem sym_build_noassign (scfg : Sym.Config) (ps : ParseStream) :
    Sym.checkNoAssign (Sym.build scfg ps).1 = true := by
  rcases ps with ⟨fm, drv, evts, ok, err⟩
  rcases scfg with ⟨salt, maxd, ems⟩
  rcases evts with _ | evs
  · rfl
  · cases ok
    · rfl
    · cases ems
      · rcases hrun : Sym.runEvents ⟨salt, maxd, false⟩ fm drv
            (Sym.initBState ⟨salt, maxd, false⟩ fm) evs with ⟨outs, ans, fin⟩
        have g1 := sym_run_noassign ⟨salt, maxd, false⟩ fm drv evs
          (Sym.initBState ⟨salt, maxd, false⟩ fm)
        rw [hrun] at g1
        unfold Sym.build
        dsimp only
        rw [if_neg (by simp : ¬ (¬ true = true))]
        rw [if_neg (by simp : ¬ ((false : Bool) = true))]
        dsimp only
        simp only [Sym.initBState, Sym.initScope] at hrun
        rw [hrun]
        exact g1
      · rcases hrun : Sym.runEvents ⟨salt, maxd, true⟩ fm drv
            (Sym.initBState ⟨salt, maxd, true⟩ fm) evs with ⟨outs, ans, fin⟩
        have g1 := sym_run_noassign ⟨salt, maxd, true⟩ fm drv evs
          (Sym.initBState ⟨salt, maxd, true⟩ fm)
        rw [hrun] at g1
        unfold Sym.build
        dsimp only
        rw [if_neg (by simp : ¬ (¬ true = true))]
        rw [if_pos (rfl : (true : Bool) = true)]
        dsimp only
        simp only [Sym.initBState, Sym.initScope] at hrun
        rw [hrun]
        rw [sym_checkNoAssign_append, g1]
        rfl

end Ucg

namespace Ucg

/-- C1: refuted as a code bug. The DFG generator yields only rows tagged
"dfg_node" / "dfg_edge" — it has no alias-hint output at all — and the
Symbols builder never constructs an `assign`-kind AliasRow for any input.  In
particular, on the scenario (c) stream (`original = get(); aliased =
original; processed = aliased.process()` inside a function) the Symbols
builder emits zero alias rows of any kind, where the spec demands exactly one
alias_hint `(lhs := "aliased", rhs := "original")` and exactly one `assign`
AliasRow targeting `original`'s SymbolRow. -/
theorem c1_no_alias_hints_or_assign_aliases (dcfg : Dfg.Config)
    (scfg : Sym.Config) (ps : ParseStream) :
    (∀ o ∈ (Dfg.build dcfg ps).1, o.1 = "dfg_node" ∨ o.1 = "dfg_edge") ∧
    Sym.checkNoAssign (Sym.build scfg ps).1 = true ∧
    (Sym.build ({} : Sym.Config) exAliasPs).1.countP (fun o =>
      match o.2 with
      | .alias _ => true
      | .symbol _ => false) = 0 ∧
    Sym.countAssignAliases (Sym.build ({} : Sym.Config) exAliasPs).1 = 0 := by
  refine ⟨?_, sym_build_noassign scfg ps, by decide, by decide⟩
  rcases ps with ⟨fm, drv, evts, ok, err⟩
  rcases evts with _ | evs
  · intro o ho
    simp [Dfg.build] at ho
  · cases ok
    · intro o ho
      simp [Dfg.build] at ho
    · intro o ho
      exact dfg_run_tags dcfg fm drv evs [] o ho

end Ucg

namespace Ucg

set_option maxHeartbeats 1000000 in
theorem eff_pyStep_spec (cfg : Eff.Config) (fm : FileMeta)
    (info : Option DriverInfo) (st : Eff.EState) (ev : Ev) :
    (Eff.pyStep cfg fm info st ev).1.total =
      st.total + (Eff.pyStep cfg fm info st ev).2.length ∧
    (Eff.pyStep cfg fm info st ev).1.t01 =
      (st.t01 || (Eff.pyStep cfg fm info st ev).2.any
        (fun r => ! Eff.isTier2 r)) := by
  unfold Eff.pyStep
  repeat' split
  all_goals try (constructor <;> (simp [Eff.mkEffect, Eff.isTier2, mget]; done))
  all_goals rename_i heq
  all_goals split at heq
  all_goals rw [Prod.mk.injEq] at heq
  all_goals obtain ⟨e1, e2⟩ := heq
  all_goals subst e1
  all_goals subst e2
  all_goals constructor
  all_goals simp [Eff.mkEffect, Eff.isTier2, mget]
  all_goals right
  all_goals repeat' split
  all_goals simp [mget]

set_option maxHeartbeats 1000000 in
theorem eff_jsStep_spec (cfg : Eff.Config) (fm : FileMeta)
    (info : Option DriverInfo) (st : Eff.EState) (ev : Ev) :
    (Eff.jsStep cfg fm info st ev).1.total =
      st.total + (Eff.jsStep cfg fm info st ev).2.length ∧
    (Eff.jsStep cfg fm info st ev).1.t01 =
      (st.t01 || (Eff.jsStep cfg fm info st ev).2.any
        (fun r => ! Eff.isTier2 r)) := by
  unfold Eff.jsStep
  repeat' split
  all_goals try (constructor <;> (simp [Eff.mkEffect, Eff.isTier2, mget, mset, msetd]; done))
  all_goals rename_i heq
  all_goals split at heq
  all_goals repeat' split at heq
  all_goals rw [Prod.mk.injEq] at heq
  all_goals obtain ⟨e1, e2⟩ := heq
  all_goals subst e1
  all_goals subst e2
  all_goals constructor
  all_goals simp [Eff.mkEffect, Eff.isTier2, mget, mset, msetd]
  all_goals right
  all_goals repeat' split
  all_goals simp [mget, mset, msetd]

set_option maxHeartbeats 1000000 in
theorem eff_step_spec (cfg : Eff.Config) (fm : FileMeta)
    (info : Option DriverInfo) (st : Eff.EState) (ev : Ev) :
    (Eff.step cfg fm info st ev).1.total =
      st.total + (Eff.step cfg fm info st ev).2.length ∧
    (Eff.step cfg fm info st ev).1.t01 =
      (st.t01 || (Eff.step cfg fm info st ev).2.any
        (fun r => ! Eff.isTier2 r)) := by
  unfold Eff.step
  dsimp only
  rcases h1 : (if fm.lang = Lang.py
      then Eff.pyStep cfg fm info (if ev.kind = EvKind.token then { st with tokenWindow := Eff.pushWindow st.tokenWindow ev } else st) ev
      else Eff.jsStep cfg fm info (if ev.kind = EvKind.token then { st with tokenWindow := Eff.pushWindow st.tokenWindow ev } else st) ev)
    with ⟨s1, r1⟩
  have hWt : (if ev.kind = EvKind.token then { st with tokenWindow := Eff.pushWindow st.tokenWindow ev } else st).total = st.total := by
    split <;> rfl
  have hWb : (if ev.kind = EvKind.token then { st with tokenWindow := Eff.pushWindow st.tokenWindow ev } else st).t01 = st.t01 := by
    split <;> rfl
  have spec1 : s1.total = st.total + r1.length ∧
      s1.t01 = (st.t01 || r1.any (fun r => ! Eff.isTier2 r)) := by
    split at h1
    · have h := eff_pyStep_spec cfg fm info (if ev.kind = EvKind.token then { st with tokenWindow := Eff.pushWindow st.tokenWindow ev } else st) ev
      rw [h1] at h
      simpa [hWt, hWb] using h
    · have h := eff_jsStep_spec cfg fm info (if ev.kind = EvKind.token then { st with tokenWindow := Eff.pushWindow st.tokenWindow ev } else st) ev
      rw [h1] at h
      simpa [hWt, hWb] using h
  obtain ⟨s1t, s1b⟩ := spec1
  dsimp only
  repeat' split
  all_goals constructor
  all_goals simp [s1t, s1b, Eff.mkEffect, Eff.isTier2, mget, List.any_append]
  all_goals first
  | omega
  | simp [Bool.or_assoc]

set_option maxHeartbeats 1000000 in
theorem eff_run_spec (cfg : Eff.Config) (fm : FileMeta)
    (info : Option DriverInfo) (evs : List Ev) (st : Eff.EState) :
    (Eff.runEvents cfg fm info st evs).2.total =
      st.total + (Eff.runEvents cfg fm info st evs).1.length ∧
    (Eff.runEvents cfg fm info st evs).2.t01 =
      (st.t01 || (Eff.runEvents cfg fm info st evs).1.any
        (fun r => ! Eff.isTier2 r)) := by
  induction evs generalizing st with
  | nil => simp [Eff.runEvents]
  | cons ev rest ih =>
    unfold Eff.runEvents
    rcases hs : Eff.step cfg fm info st ev with ⟨st1, rows⟩
    have hstep := eff_step_spec cfg fm info st ev
    rw [hs] at hstep
    obtain ⟨ht, hb⟩ := hstep
    dsimp only
    rcases hr : Eff.runEvents cfg fm info st1 rest with ⟨rows2, fin⟩
    have hrest := ih st1
    rw [hr] at hrest
    obtain ⟨ht2, hb2⟩ := hrest
    dsimp only
    constructor
    · dsimp only at ht ht2
      rw [ht2, ht]
      simp [List.length_append]
      omega
    · dsimp only at hb hb2
      rw [hb2, hb]
      simp [List.any_append, Bool.or_assoc]

/-- C9: refuted on severity.  When the Effects builder emits at least one row
and every row is tier 2, `build_effects` does report exactly one
EFFECTS_TIER2_ONLY anomaly for the file — but at severity `warn`, not the
claimed severity `info`: the source constructs
`Anomaly(..., severity=Severity.WARN, detail="EFFECTS_TIER2_ONLY")`.  The
stream of one short string-literal token realises the premise. -/
theorem c9_counterexample_tier2_only_severity_is_warn :
    (Eff.build ({} : Eff.Config) exFm none exTier2Events).1 ≠ [] ∧
    (Eff.build ({} : Eff.Config) exFm none exTier2Events).1.all
      Eff.isTier2 = true ∧
    (Eff.build ({} : Eff.Config) exFm none exTier2Events).2 =
      [Eff.tier2Anomaly exFm] ∧
    (Eff.tier2Anomaly exFm).severity = Severity.warn ∧
    ¬ (Eff.tier2Anomaly exFm).severity = Severity.info := by
  decide

/-- C9 (amended): if the Effects builder emits at least one row and every
emitted row is tier 2, it emits exactly one EFFECTS_TIER2_ONLY anomaly for
the file, whose severity is `warn` (not `info` as the spec claims). -/
theorem c9_amended_tier2_only_warn_anomaly (cfg : Eff.Config) (fm : FileMeta)
    (info : Option DriverInfo) (events : List Ev)
    (hne : (Eff.build cfg fm info events).1 ≠ [])
    (hall : (Eff.build cfg fm info events).1.all Eff.isTier2 = true) :
    (Eff.build cfg fm info events).2 = [Eff.tier2Anomaly fm] ∧
    (Eff.tier2Anomaly fm).severity = Severity.warn := by
  refine ⟨?_, rfl⟩
  rcases events with _ | ⟨ev, rest⟩
  · simp [Eff.build] at hne
  · rcases hr : Eff.runEvents cfg fm info {} (ev :: rest) with ⟨rows, fin⟩
    have hrun := eff_run_spec cfg fm info (ev :: rest) ({} : Eff.EState)
    rw [hr] at hrun
    obtain ⟨ht, hb⟩ := hrun
    have hbuild : Eff.build cfg fm info (ev :: rest) =
        (if fin.total > 0 ∧ fin.t01 = false then (rows, [Eff.tier2Anomaly fm])
         else (rows, [])) := by
      unfold Eff.build
      rw [if_neg (by simp : ¬ ((ev :: rest).isEmpty = true)), hr]
    have hfst : (if fin.total > 0 ∧ fin.t01 = false then
        (rows, [Eff.tier2Anomaly fm]) else (rows, ([] : List Anomaly))).1 =
        rows := by
      split <;> rfl
    rw [hbuild, hfst] at hne hall
    have hcond : fin.total > 0 ∧ fin.t01 = false := by
      constructor
      · have h0 : ({} : Eff.EState).total = 0 := rfl
        rw [ht, h0]
        simpa using List.length_pos.mpr hne
      · have hb0 : ({} : Eff.EState).t01 = false := rfl
        rw [hb, hb0, Bool.false_or]
        rw [List.any_eq_false]
        intro r hrr
        have hall2 := List.all_eq_true.mp hall r hrr
        simp [hall2]
    rw [hbuild, if_pos hcond]

theorem c9_amended_tier2_only_warn_anomaly_witness :
    (Eff.build ({} : Eff.Config) exFm none exTier2Events).1 ≠ [] ∧
    (Eff.build ({} : Eff.Config) exFm none exTier2Events).1.all
      Eff.isTier2 = true ∧
    ((Eff.build ({} : Eff.Config) exFm none exTier2Events).2 =
      [Eff.tier2Anomaly exFm] ∧
     (Eff.tier2Anomaly exFm).severity = Severity.warn) :=
  ⟨by decide, by decide,
   c9_amended_tier2_only_warn_anomaly ({} : Eff.Config) exFm none
     exTier2Events (by decide) (by decide)⟩

end Ucg

namespace Ucg

theorem norm_good_module (cfg : Norm.Config) (fm : FileMeta) (b : Nat) :
    Norm.goodCallSrc (Norm.startBasedNodeId cfg fm Norm.NodeKind.module b) =
      true := rfl

theorem norm_good_cls (cfg : Norm.Config) (fm : FileMeta) (b : Nat) :
    Norm.goodCallSrc (Norm.startBasedNodeId cfg fm Norm.NodeKind.cls b) =
      true := rfl

theorem norm_good_function (cfg : Norm.Config) (fm : FileMeta) (b : Nat) :
    Norm.goodCallSrc (Norm.startBasedNodeId cfg fm Norm.NodeKind.function b) =
      true := rfl

theorem norm_good_getD (cfg : Norm.Config) (fm : FileMeta) (b : Nat)
    (o : Option Norm.NodeKind)
    (h : o = some Norm.NodeKind.cls ∨ o = some Norm.NodeKind.function) :
    Norm.goodCallSrc
      (Norm.startBasedNodeId cfg fm (o.getD Norm.NodeKind.block) b) = true := by
  rcases h with h | h <;> subst h <;> rfl

theorem norm_good_file (cfg : Norm.Config) (fm : FileMeta)
    (info : Option DriverInfo) :
    Norm.goodCallSrc (Norm.fileNode cfg fm info).id = true := rfl

theorem norm_firstFunctionScope_mem (l : List Norm.Scope) (s : Norm.Scope)
    (h : Norm.firstFunctionScope l = some s) : s ∈ l := by
  induction l with
  | nil => simp [Norm.firstFunctionScope] at h
  | cons a rest ih =>
    unfold Norm.firstFunctionScope at h
    split at h
    · injection h with h
      subst h
      exact List.mem_cons_self _ _
    · exact List.mem_cons_of_mem _ (ih h)

theorem norm_checkCallsSrc_append (a b : List Norm.Out) :
    Norm.checkCallsSrc (a ++ b) =
      (Norm.checkCallsSrc a && Norm.checkCallsSrc b) := by
  simp [Norm.checkCallsSrc, List.all_append]

theorem norm_all_eraseIdx {α : Type} (l : List α) (i : Nat) (f : α → Bool)
    (h : l.all f = true) : (l.eraseIdx i).all f = true := by
  rw [List.all_eq_true] at h ⊢
  intro x hx
  exact h x (List.eraseIdx_subset l i hx)

theorem norm_all_modifyAt {α : Type} (l : List α) (i : Nat) (g : α → α)
    (f : α → Bool) (hg : ∀ x, f (g x) = f x) (h : l.all f = true) :
    (Norm.listModifyAt l i g).all f = true := by
  unfold Norm.listModifyAt
  split
  · exact h
  · rename_i x hx
    rw [List.all_eq_true] at h ⊢
    intro y hy
    rcases List.mem_or_eq_of_mem_set hy with hmem | hEq
    · exact h y hmem
    · subst hEq
      rw [hg x]
      exact h x (List.get?_mem hx)

theorem norm_finalizeScopeAt_good (cfg : Norm.Config) (fm : FileMeta)
    (info : Option DriverInfo) (fileId : SId) (stack : List Norm.Scope)
    (i : Nat) (ev : Ev)
    (h : stack.all (fun s => Norm.goodCallSrc s.nodeId) = true) :
    (Norm.finalizeScopeAt cfg fm info fileId stack i ev).1.all
      (fun s => Norm.goodCallSrc s.nodeId) = true ∧
    Norm.checkCallsSrc
      (Norm.finalizeScopeAt cfg fm info fileId stack i ev).2 = true := by
  unfold Norm.finalizeScopeAt
  split
  · exact ⟨h, rfl⟩
  · exact ⟨norm_all_eraseIdx _ _ _ h, rfl⟩

set_option synthInstance.maxHeartbeats 1000000 in
theorem norm_checkCallsSrc_map_decorates (cfg : Norm.Config) (fm : FileMeta)
    (info : Option DriverInfo) (nid : SId) (l : List (SId × Ev)) :
    Norm.checkCallsSrc (l.map (fun (d : SId × Ev) =>
      (("edge" : String),
       Norm.Item.edge (Norm.edgeRow cfg fm info Norm.EdgeKind.decorates
         d.1 nid d.2)))) = true := by
  induction l with
  | nil => rfl
  | cons a rest ih =>
    rw [List.map_cons]
    unfold Norm.checkCallsSrc at ih ⊢
    rw [List.all_cons, ih]
    rfl

theorem norm_stateGood_consPend (st : Norm.NState) (p : Norm.Pending)
    (hs : Norm.stateGood st = true) (hp : Norm.pendGood p = true) :
    Norm.stateGood { st with pendStack := p :: st.pendStack } = true := by
  unfold Norm.stateGood at hs ⊢
  rw [Bool.and_eq_true] at hs ⊢
  exact ⟨hs.1, by simp [List.all_cons, hp, hs.2]⟩

end Ucg

namespace Ucg

theorem norm_enterConsumeName_good (nkind : Option Norm.NodeKind)
    (cur : Norm.Pending) (st : Norm.NState) (ev : Ev)
    (hc : Norm.pendGood cur = true) (hs : Norm.stateGood st = true) :
    Norm.pendGood (Norm.enterConsumeName nkind cur st ev).1 = true ∧
    Norm.stateGood (Norm.enterConsumeName nkind cur st ev).2 = true := by
  unfold Norm.enterConsumeName
  repeat' split
  all_goals exact ⟨hc, hs⟩

theorem norm_enterModule_good (cfg : Norm.Config) (fm : FileMeta)
    (fileId : SId) (nkind : Option Norm.NodeKind) (st : Norm.NState) (ev : Ev)
    (hs : Norm.stateGood st = true) :
    Norm.stateGood (Norm.enterModule cfg fm fileId nkind st ev) = true := by
  unfold Norm.enterModule
  split
  · simp only [Norm.stateGood, Bool.and_eq_true] at hs ⊢
    exact ⟨by simp [norm_good_module, hs.1], hs.2⟩
  · exact hs

theorem norm_enterDecl_good (cfg : Norm.Config) (fm : FileMeta)
    (info : Option DriverInfo) (fileId : SId) (nkind : Option Norm.NodeKind)
    (cur : Norm.Pending) (st : Norm.NState) (ev : Ev)
    (hc : Norm.pendGood cur = true) (hs : Norm.stateGood st = true) :
    Norm.pendGood (Norm.enterDecl cfg fm info fileId nkind cur st ev).1 =
      true ∧
    Norm.stateGood (Norm.enterDecl cfg fm info fileId nkind cur st ev).2.1 =
      true ∧
    Norm.checkCallsSrc
      (Norm.enterDecl cfg fm info fileId nkind cur st ev).2.2 = true := by
  unfold Norm.enterDecl
  by_cases hOr : nkind = some Norm.NodeKind.cls ∨
      nkind = some Norm.NodeKind.function
  · rw [if_pos hOr]
    dsimp only
    by_cases hReal :
        (nkind = some Norm.NodeKind.function ∧
          (Norm.functionTypes fm.lang).contains ev.type = true) ∨
        (nkind = some Norm.NodeKind.cls ∧
          (Norm.classTypes fm.lang).contains ev.type = true)
    · rw [if_pos hReal]
      dsimp only
      refine ⟨hc, ?_, ?_⟩
      · simp only [Norm.stateGood, Bool.and_eq_true] at hs ⊢
        refine ⟨?_, hs.2⟩
        simp [List.all_cons, norm_good_getD cfg fm ev.byteStart nkind hOr,
          hs.1]
      · exact norm_checkCallsSrc_map_decorates cfg fm info _ _
    · rw [if_neg hReal]
      exact ⟨hc, hs, rfl⟩
  · rw [if_neg hOr]
    exact ⟨hc, hs, rfl⟩

theorem norm_enterCall_good (fm : FileMeta) (fileId : SId)
    (cur : Norm.Pending) (st : Norm.NState) (ev : Ev)
    (hfile : Norm.goodCallSrc fileId = true)
    (hc : Norm.pendGood cur = true) (hs : Norm.stateGood st = true) :
    Norm.pendGood (Norm.enterCall fm fileId cur st ev) = true := by
  have hall : st.scopeStack.all (fun s => Norm.goodCallSrc s.nodeId) = true := by
    unfold Norm.stateGood at hs
    exact ((Bool.and_eq_true _ _).mp hs).1
  have hc2 : (match cur.callSrcFallback with
      | some s => Norm.goodCallSrc s
      | none => true) = true := by
    unfold Norm.pendGood at hc
    exact ((Bool.and_eq_true _ _).mp hc).2
  unfold Norm.enterCall
  split
  · rcases hm : Norm.firstFunctionScope st.scopeStack with _ | sc
    · rcases hss : st.scopeStack with _ | ⟨s0, srest⟩
      · simp [Norm.pendGood, hfile]
      · rw [hss] at hall
        simp only [List.all_cons, Bool.and_eq_true] at hall
        simp [Norm.pendGood, hall.1]
    · have hmem := norm_firstFunctionScope_mem st.scopeStack sc hm
      have hgood := (List.all_eq_true.mp hall) sc hmem
      simp only at hgood
      simp [Norm.pendGood, hgood, hc2]
  · exact hc

theorem norm_enterDropName_good (st : Norm.NState) (ev : Ev)
    (hs : Norm.stateGood st = true) :
    Norm.stateGood (Norm.enterDropName st ev) = true := by
  unfold Norm.enterDropName
  repeat' split
  all_goals exact hs

theorem norm_enterBody_good (cfg : Norm.Config) (fm : FileMeta)
    (info : Option DriverInfo) (fileId : SId) (nkind : Option Norm.NodeKind)
    (cur : Norm.Pending) (st : Norm.NState) (ev : Ev)
    (hfile : Norm.goodCallSrc fileId = true)
    (hc : Norm.pendGood cur = true) (hs : Norm.stateGood st = true) :
    Norm.stateGood (Norm.enterBody cfg fm info fileId nkind cur st ev).1 =
      true ∧
    Norm.checkCallsSrc
      (Norm.enterBody cfg fm info fileId nkind cur st ev).2 = true := by
  unfold Norm.enterBody
  rcases h1 : Norm.enterConsumeName nkind cur st ev with ⟨cur1, st1⟩
  have g1 := norm_enterConsumeName_good nkind cur st ev hc hs
  rw [h1] at g1
  dsimp only
  have g2 := norm_enterModule_good cfg fm fileId nkind st1 ev g1.2
  rcases h3 : Norm.enterDecl cfg fm info fileId nkind cur1
    (Norm.enterModule cfg fm fileId nkind st1 ev) ev with ⟨cur2, st2, outs2⟩
  have g3 := norm_enterDecl_good cfg fm info fileId nkind cur1
    (Norm.enterModule cfg fm fileId nkind st1 ev) ev g1.1 g2
  rw [h3] at g3
  dsimp only
  have g4 := norm_enterCall_good fm fileId cur2 st2 ev hfile g3.1 g3.2.1
  exact ⟨norm_enterDropName_good _ ev
    (norm_stateGood_consPend st2 (Norm.enterCall fm fileId cur2 st2 ev)
      g3.2.1 g4),
   g3.2.2⟩

theorem norm_stepEnter_good (cfg : Norm.Config) (fm : FileMeta)
    (info : Option DriverInfo) (fileId : SId) (st : Norm.NState) (ev : Ev)
    (st1 : Norm.NState) (outs : List Norm.Out) (ans : List Anomaly)
    (hfile : Norm.goodCallSrc fileId = true) (hs : Norm.stateGood st = true)
    (hr : Norm.stepEnter cfg fm info fileId st ev = (some (st1, outs), ans)) :
    Norm.stateGood st1 = true ∧ Norm.checkCallsSrc outs = true := by
  unfold Norm.stepEnter at hr
  dsimp only at hr
  split at hr
  · simp at hr
  · rw [Prod.mk.injEq] at hr
    obtain ⟨e1, e2⟩ := hr
    injection e1 with e1
    have hA := congrArg Prod.fst e1
    have hB := congrArg Prod.snd e1
    dsimp only at hA hB
    rw [← hA, ← hB]
    exact norm_enterBody_good cfg fm info fileId _ _ st ev hfile rfl hs

theorem norm_stepToken_good (fm : FileMeta) (st : Norm.NState) (ev : Ev)
    (hs : Norm.stateGood st = true) :
    Norm.stateGood (Norm.stepToken fm st ev) = true := by
  unfold Norm.stepToken
  dsimp only
  repeat' split
  all_goals try exact hs
  all_goals simp_all [Norm.stateGood, Norm.pendGood, List.all_cons]

end Ucg

namespace Ucg

theorem norm_exitRecoverName_pendGood (fm : FileMeta) (cur : Norm.Pending)
    (st : Norm.NState) (ev : Ev) :
    Norm.pendGood (Norm.exitRecoverName fm cur st ev) = Norm.pendGood cur := by
  unfold Norm.exitRecoverName
  dsimp only
  repeat' split
  all_goals rfl

theorem norm_exitCloseScope_good (cfg : Norm.Config) (fm : FileMeta)
    (info : Option DriverInfo) (fileId : SId) (cur : Norm.Pending)
    (st : Norm.NState) (ev : Ev) (hs : Norm.stateGood st = true) :
    Norm.stateGood (Norm.exitCloseScope cfg fm info fileId cur st ev).1 =
      true ∧
    Norm.checkCallsSrc
      (Norm.exitCloseScope cfg fm info fileId cur st ev).2.1 = true := by
  have hsplit : st.scopeStack.all (fun s => Norm.goodCallSrc s.nodeId) = true ∧
      st.pendStack.all Norm.pendGood = true := by
    unfold Norm.stateGood at hs
    exact (Bool.and_eq_true _ _).mp hs
  unfold Norm.exitCloseScope
  by_cases hk : cur.kind = Norm.NodeKind.module ∨
      cur.kind = Norm.NodeKind.cls ∨ cur.kind = Norm.NodeKind.function
  · rw [if_pos hk]
    rcases hidx : Norm.findScopeIdx st.scopeStack cur.byteStart with _ | i
    · rcases hss : st.scopeStack with _ | ⟨s0, srest⟩
      · exact ⟨hs, rfl⟩
      · dsimp only
        rcases hfin : Norm.finalizeScopeAt cfg fm info fileId (s0 :: srest)
          0 ev with ⟨stack2, outs2⟩
        have g := norm_finalizeScopeAt_good cfg fm info fileId (s0 :: srest)
          0 ev (by rw [← hss]; exact hsplit.1)
        rw [hfin] at g
        dsimp only
        constructor
        · simp only [Norm.stateGood, Bool.and_eq_true]
          exact ⟨g.1, hsplit.2⟩
        · exact g.2
    · dsimp only
      rcases hfin : Norm.finalizeScopeAt cfg fm info fileId
        (Norm.listModifyAt st.scopeStack i (fun scope =>
          if cur.name.isSome ∧ scope.name = none then
            { scope with name := cur.name }
          else scope)) i ev with ⟨stack2, outs2⟩
      have hmod : (Norm.listModifyAt st.scopeStack i (fun scope =>
          if cur.name.isSome ∧ scope.name = none then
            { scope with name := cur.name }
          else scope)).all (fun s => Norm.goodCallSrc s.nodeId) = true := by
        apply norm_all_modifyAt
        · intro x
          split <;> rfl
        · exact hsplit.1
      have g := norm_finalizeScopeAt_good cfg fm info fileId _ i ev hmod
      rw [hfin] at g
      dsimp only
      constructor
      · simp only [Norm.stateGood, Bool.and_eq_true]
        exact ⟨g.1, hsplit.2⟩
      · exact g.2
  · rw [if_neg hk]
    exact ⟨hs, rfl⟩

theorem norm_exitEffectCarrier_good (cfg : Norm.Config) (fm : FileMeta)
    (info : Option DriverInfo) (cur : Norm.Pending) (st : Norm.NState)
    (ev : Ev) (hs : Norm.stateGood st = true) :
    Norm.stateGood (Norm.exitEffectCarrier cfg fm info cur st ev).1 = true ∧
    Norm.checkCallsSrc (Norm.exitEffectCarrier cfg fm info cur st ev).2 =
      true := by
  unfold Norm.exitEffectCarrier
  dsimp only
  repeat' split
  all_goals exact ⟨hs, rfl⟩

theorem norm_exitBlockFallback_calls (cfg : Norm.Config) (fm : FileMeta)
    (info : Option DriverInfo) (fileId : SId) (cur : Norm.Pending)
    (st : Norm.NState) (ev : Ev) :
    Norm.checkCallsSrc
      (Norm.exitBlockFallback cfg fm info fileId cur st ev) = true := by
  unfold Norm.exitBlockFallback
  dsimp only
  repeat' split
  all_goals rfl

theorem norm_exitImports_calls (cfg : Norm.Config) (fm : FileMeta)
    (info : Option DriverInfo) (fileId : SId) (cur : Norm.Pending) (ev : Ev) :
    Norm.checkCallsSrc (Norm.exitImports cfg fm info fileId cur ev) = true := by
  unfold Norm.exitImports
  dsimp only
  split
  all_goals rfl

theorem norm_exitExports_calls (cfg : Norm.Config) (fm : FileMeta)
    (info : Option DriverInfo) (fileId : SId) (cur : Norm.Pending) (ev : Ev) :
    Norm.checkCallsSrc (Norm.exitExports cfg fm info fileId cur ev) = true := by
  unfold Norm.exitExports
  dsimp only
  split
  all_goals rfl

theorem norm_exitCalls_good (cfg : Norm.Config) (fm : FileMeta)
    (info : Option DriverInfo) (fileId : SId) (cur : Norm.Pending)
    (st : Norm.NState) (ev : Ev)
    (hfile : Norm.goodCallSrc fileId = true)
    (hc : Norm.pendGood cur = true) (hs : Norm.stateGood st = true) :
    Norm.checkCallsSrc (Norm.exitCalls cfg fm info fileId cur st ev) =
      true := by
  have hall : st.scopeStack.all (fun s => Norm.goodCallSrc s.nodeId) = true := by
    unfold Norm.stateGood at hs
    exact ((Bool.and_eq_true _ _).mp hs).1
  have hc1 : (match cur.wantEdgeFrom with
      | some s => Norm.goodCallSrc s | none => true) = true := by
    unfold Norm.pendGood at hc
    exact ((Bool.and_eq_true _ _).mp hc).1
  have hc2 : (match cur.callSrcFallback with
      | some s => Norm.goodCallSrc s | none => true) = true := by
    unfold Norm.pendGood at hc
    exact ((Bool.and_eq_true _ _).mp hc).2
  unfold Norm.exitCalls
  by_cases hcall : cur.callLike = true
  · rw [if_pos hcall]
    dsimp only
    rcases hw : cur.wantEdgeFrom with _ | s
    · rcases hf : cur.callSrcFallback with _ | f
      · rcases hss : st.scopeStack with _ | ⟨s0, srest⟩
        · simp [Norm.checkCallsSrc, Norm.edgeRow, hfile]
        · rw [hss] at hall
          simp only [List.all_cons, Bool.and_eq_true] at hall
          simp [Norm.checkCallsSrc, Norm.edgeRow, hall.1]
      · rw [hf] at hc2
        simp only at hc2
        simp [Norm.checkCallsSrc, Norm.edgeRow, hc2]
    · rw [hw] at hc1
      simp only at hc1
      simp [Norm.checkCallsSrc, Norm.edgeRow, hc1]
  · rw [if_neg hcall]
    rfl

theorem norm_stepExit_good (cfg : Norm.Config) (fm : FileMeta)
    (info : Option DriverInfo) (fileId : SId) (st : Norm.NState) (ev : Ev)
    (hfile : Norm.goodCallSrc fileId = true) (hs : Norm.stateGood st = true) :
    Norm.stateGood (Norm.stepExit cfg fm info fileId st ev).1 = true ∧
    Norm.checkCallsSrc (Norm.stepExit cfg fm info fileId st ev).2.1 =
      true := by
  have hsplit : st.scopeStack.all (fun s => Norm.goodCallSrc s.nodeId) = true ∧
      st.pendStack.all Norm.pendGood = true := by
    unfold Norm.stateGood at hs
    exact (Bool.and_eq_true _ _).mp hs
  unfold Norm.stepExit
  rcases hps : st.pendStack with _ | ⟨cur, pendRest⟩
  · exact ⟨hs, rfl⟩
  · dsimp only
    have hpcons := hsplit.2
    rw [hps, List.all_cons, Bool.and_eq_true] at hpcons
    have hcur : Norm.pendGood cur = true := hpcons.1
    have hs0 : Norm.stateGood { st with pendStack := pendRest } = true := by
      unfold Norm.stateGood
      rw [Bool.and_eq_true]
      exact ⟨hsplit.1, hpcons.2⟩
    have hcur1 : Norm.pendGood
        (Norm.exitRecoverName fm cur { st with pendStack := pendRest } ev) =
        true := by
      rw [norm_exitRecoverName_pendGood]
      exact hcur
    rcases h1 : Norm.exitCloseScope cfg fm info fileId
      (Norm.exitRecoverName fm cur { st with pendStack := pendRest } ev)
      { st with pendStack := pendRest } ev with ⟨st1, outs1, ans1⟩
    have g1 := norm_exitCloseScope_good cfg fm info fileId
      (Norm.exitRecoverName fm cur { st with pendStack := pendRest } ev)
      { st with pendStack := pendRest } ev hs0
    rw [h1] at g1
    dsimp only at g1
    dsimp only
    rcases h2 : Norm.exitEffectCarrier cfg fm info
      (Norm.exitRecoverName fm cur { st with pendStack := pendRest } ev)
      st1 ev with ⟨st2, outs2⟩
    have g2 := norm_exitEffectCarrier_good cfg fm info
      (Norm.exitRecoverName fm cur { st with pendStack := pendRest } ev)
      st1 ev g1.1
    rw [h2] at g2
    dsimp only at g2
    dsimp only
    refine ⟨g2.1, ?_⟩
    rw [norm_checkCallsSrc_append, norm_checkCallsSrc_append,
        norm_checkCallsSrc_append, norm_checkCallsSrc_append,
        norm_checkCallsSrc_append]
    rw [g1.2, g2.2, norm_exitBlockFallback_calls cfg fm info fileId _ st2 ev,
        norm_exitImports_calls cfg fm info fileId _ ev,
        norm_exitExports_calls cfg fm info fileId _ ev,
        norm_exitCalls_good cfg fm info fileId _ st2 ev hfile hcur1 g2.1]
    rfl

end Ucg

namespace Ucg

theorem norm_step_good (cfg : Norm.Config) (fm : FileMeta)
    (info : Option DriverInfo) (fileId : SId) (st : Norm.NState) (ev : Ev)
    (ost : Option Norm.NState) (outs : List Norm.Out) (ans : List Anomaly)
    (hfile : Norm.goodCallSrc fileId = true) (hs : Norm.stateGood st = true)
    (hr : Norm.step cfg fm info fileId st ev = (ost, outs, ans)) :
    Norm.checkCallsSrc outs = true ∧
    ∀ s1, ost = some s1 → Norm.stateGood s1 = true := by
  unfold Norm.step at hr
  split at hr
  · rw [Prod.mk.injEq, Prod.mk.injEq] at hr
    obtain ⟨e1, e2, e3⟩ := hr
    subst e1
    subst e2
    refine ⟨rfl, ?_⟩
    intro s1 hs1
    injection hs1 with hs1
    rw [← hs1]
    exact hs
  · split at hr
    · rw [Prod.mk.injEq, Prod.mk.injEq] at hr
      obtain ⟨e1, e2, e3⟩ := hr
      subst e1
      subst e2
      refine ⟨rfl, ?_⟩
      intro s1 hs1
      injection hs1 with hs1
      rw [← hs1]
      exact norm_stepToken_good fm st ev hs
    · rcases he : Norm.stepEnter cfg fm info fileId st ev with ⟨oste, anse⟩
      rw [he] at hr
      rcases oste with _ | ⟨st1, outs1⟩
      · dsimp only at hr
        rw [Prod.mk.injEq, Prod.mk.injEq] at hr
        obtain ⟨e1, e2, e3⟩ := hr
        subst e1
        subst e2
        refine ⟨rfl, ?_⟩
        intro s1 hs1
        exact Option.noConfusion hs1
      · dsimp only at hr
        rw [Prod.mk.injEq, Prod.mk.injEq] at hr
        obtain ⟨e1, e2, e3⟩ := hr
        subst e1
        subst e2
        have g := norm_stepEnter_good cfg fm info fileId st ev st1 outs1 anse
          hfile hs he
        refine ⟨g.2, ?_⟩
        intro s1 hs1
        injection hs1 with hs1
        rw [← hs1]
        exact g.1
    · rcases hx : Norm.stepExit cfg fm info fileId st ev with ⟨st1, outs1, ans1⟩
      rw [hx] at hr
      dsimp only at hr
      rw [Prod.mk.injEq, Prod.mk.injEq] at hr
      obtain ⟨e1, e2, e3⟩ := hr
      subst e1
      subst e2
      have g := norm_stepExit_good cfg fm info fileId st ev hfile hs
      rw [hx] at g
      dsimp only at g
      refine ⟨g.2, ?_⟩
      intro s1 hs1
      injection hs1 with hs1
      rw [← hs1]
      exact g.1

theorem norm_run_good (cfg : Norm.Config) (fm : FileMeta)
    (info : Option DriverInfo) (fileId : SId) (evs : List Ev)
    (hfile : Norm.goodCallSrc fileId = true) :
    ∀ st, Norm.stateGood st = true →
      Norm.checkCallsSrc (Norm.runEvents cfg fm info fileId st evs).1 = true ∧
      ∀ fin, (Norm.runEvents cfg fm info fileId st evs).2.2 = some fin →
        Norm.stateGood fin = true := by
  induction evs with
  | nil =>
    intro st hs
    refine ⟨rfl, ?_⟩
    intro fin hf
    injection hf with hf
    rw [← hf]
    exact hs
  | cons ev rest ih =>
    intro st hs
    unfold Norm.runEvents
    rcases hstep : Norm.step cfg fm info fileId st ev with ⟨ost, outs, ans⟩
    have g := norm_step_good cfg fm info fileId st ev ost outs ans hfile hs
      hstep
    rcases ost with _ | st1
    · dsimp only
      exact ⟨g.1, by intro fin hf; exact Option.noConfusion hf⟩
    · dsimp only
      have hst1 := g.2 st1 rfl
      have gr := ih st1 hst1
      rcases hrec : Norm.runEvents cfg fm info fileId st1 rest with
        ⟨outs2, ans2, fin2⟩
      rw [hrec] at gr
      dsimp only at gr
      dsimp only
      constructor
      · rw [norm_checkCallsSrc_append, g.1, gr.1]
        rfl
      · intro fin hf
        exact gr.2 fin hf

theorem norm_synScopeEnd_calls (cfg : Norm.Config) (fm : FileMeta)
    (info : Option DriverInfo) (scope : Norm.Scope) (ev : Ev) :
    Norm.checkCallsSrc (Norm.syntheticScopeEnd cfg fm info scope ev) = true := by
  unfold Norm.syntheticScopeEnd
  dsimp only
  split
  all_goals rfl

theorem norm_synEnds_calls (cfg : Norm.Config) (fm : FileMeta)
    (info : Option DriverInfo) (lastEv : Ev) (l : List Norm.Scope) :
    Norm.checkCallsSrc (Norm.syntheticEnds cfg fm info lastEv l) = true := by
  induction l with
  | nil => rfl
  | cons scope rest ih =>
    unfold Norm.syntheticEnds
    rw [norm_checkCallsSrc_append, ih, norm_synScopeEnd_calls]
    rfl

end Ucg

namespace Ucg

/-- C6: refuted.  The CALLS-edge fallback source is the innermost open scope,
which can be a CLASS node: for a call at class-body level (`class C` whose
body calls `foo()` with no enclosing function, the stream exClassCallEvents),
the Normalizer emits exactly one CALLS edge, its src is the CLASS node opened
at byte 5 (every node carrying that id has kind class), so the caller
endpoint is neither a FUNCTION node nor the FILE or MODULE node. -/
theorem c6_counterexample_calls_src_is_class_node :
    ((Norm.build ({} : Norm.Config) exClassCallPs).1.countP (fun o =>
      match o.2 with
      | .edge e => decide (e.kind = Norm.EdgeKind.calls)
      | .node _ => false) = 1) ∧
    ((Norm.build ({} : Norm.Config) exClassCallPs).1.any (fun o =>
      match o.2 with
      | .edge e => decide (e.kind = Norm.EdgeKind.calls) &&
          decide (e.srcId = Norm.startBasedNodeId ({} : Norm.Config) exFm
            Norm.NodeKind.cls 5)
      | .node _ => false) = true) ∧
    ((Norm.build ({} : Norm.Config) exClassCallPs).1.any (fun o =>
      match o.2 with
      | .node n => decide (n.id = Norm.startBasedNodeId ({} : Norm.Config)
          exFm Norm.NodeKind.cls 5) && decide (n.kind = Norm.NodeKind.cls)
      | .edge _ => false) = true) ∧
    ((Norm.build ({} : Norm.Config) exClassCallPs).1.all (fun o =>
      match o.2 with
      | .node n => !(decide (n.id = Norm.startBasedNodeId ({} : Norm.Config)
          exFm Norm.NodeKind.cls 5)) || decide (n.kind = Norm.NodeKind.cls)
      | .edge _ => true) = true) := by
  decide

/-- C6 (amended): for every configuration and parse stream, the src endpoint
of every CALLS edge the Normalizer emits is a node id of the file node or of
a module / class / function scope node — the nearest enclosing FUNCTION scope
when one is open, and otherwise the innermost open scope, which may be the
MODULE node, the FILE node, or (contrary to the claim) a CLASS node. -/
theorem c6_amended_calls_src_is_scope_or_file_node (cfg : Norm.Config)
    (ps : ParseStream) :
    Norm.checkCallsSrc (Norm.build cfg ps).1 = true := by
  rcases ps with ⟨fm, drv, evts, ok, err⟩
  unfold Norm.build
  dsimp only
  rcases evts with _ | evs
  · rfl
  · dsimp only
    by_cases hok : ok = true
    · rw [if_neg (fun hn => hn hok)]
      rcases hrun : Norm.runEvents cfg fm drv (Norm.fileNode cfg fm drv).id
        {} evs with ⟨outs, ans, fin⟩
      have g := norm_run_good cfg fm drv (Norm.fileNode cfg fm drv).id evs
        (norm_good_file cfg fm drv) {} rfl
      rw [hrun] at g
      dsimp only at g
      dsimp only
      rcases fin with _ | stfin
      · rw [norm_checkCallsSrc_append, g.1]
        rfl
      · rw [norm_checkCallsSrc_append, norm_checkCallsSrc_append, g.1,
            norm_synEnds_calls]
        rfl
    · rw [if_pos hok]
      rfl

end Ucg
